import Mathlib

/-!
# Conditions manager (DDCond, `Manager_Type1`)

A shallow embedding of the conditions manager of DD4hep,
`src/DDCond/src/Type1/Manager_Type1.cpp`: the range check of `select_range`,
the registration of IOV types, of IOV pools and of conditions, the update
pool, the selection and the IOV check of `prepare` and `load`; and of the
slices of `src/DDCond/src/ConditionsSlice.cpp`.

IOV key values are 64 bit signed integers in the source.  They are embedded
as `Int`; the arithmetic of the range check (`first+1`) is exact as long as
the endpoints stay away from the limits of `int64`.

Objects that the source reaches through pointers (IOV pools, conditions
pools, condition objects) live in object stores indexed by addresses; a
nullable pointer is an `Option`.
-/

namespace DD4hep

/-! ## Data model -/

/-- Modelled from the spec: the key of an interval of validity, `IOV::Key`
(declared in `DD4hep/IOV.h`, not among the sources): a pair
`(first, second)` of 64 bit integers. -/
structure Key where
  first : Int
  second : Int
  deriving DecidableEq, Repr

/-- Modelled from the spec: `IOVType` (declared in `DD4hep/IOV.h`, not among
the sources): the small integer index `type` and the `name`. -/
structure IOVType where
  type : Nat
  name : String
  deriving DecidableEq, Repr

/-- Modelled from the spec: `IOV` (declared in `DD4hep/IOV.h`, not among the
sources).  `iovType` is the (nullable) pointer to the type, read through;
`type` is the copy of the type index; `keyData` the key range. -/
structure IOV where
  iovType : Option IOVType
  type : Nat
  keyData : Key
  deriving DecidableEq, Repr

/-- The accessor `IOV::key()`. -/
def IOV.key (iov : IOV) : Key := iov.keyData

/-- Modelled from the spec: a condition object, `Condition::Object` (declared
in `DD4hep/detail/ConditionsInterna.h`, not among the sources): its hash
key, its payload, the (nullable) pointer to the IOV of the pool that owns
it, and the flag mask. -/
structure ConditionObject where
  hash : Nat
  value : String
  iov : Option IOV
  flags : Nat
  deriving DecidableEq, Repr

/-- The expression `cond->iov->key()` of the range check.  Conditions of a
selection result carry an IOV; the null case lies outside every statement
below and reads as the key of a default-constructed IOV. -/
def ConditionObject.key (c : ConditionObject) : Key :=
  match c.iov with
  | some i => i.key
  | none => ⟨0, 0⟩

/-! ## The range check `is_range_complete` (Manager_Type1.cpp, lines 107-126) -/

/-- Line 117: `if ( k.first <= test.first+1 && k.second >= test.first ) test.first = k.second;` -/
def lowEdge (test k : Key) : Key :=
  if k.first ≤ test.first + 1 ∧ k.second ≥ test.first then { test with first := k.second } else test

/-- Line 118: `if ( k.first+1 <= test.second && k.second >= test.second ) test.second = k.first;` -/
def highEdge (test k : Key) : Key :=
  if k.first + 1 ≤ test.second ∧ k.second ≥ test.second then { test with second := k.first } else test

/-- The two window updates of one candidate, lines 117 and 118 in that order. -/
def windowStep (test k : Key) : Key := highEdge (lowEdge test k) k

/-- The inner loop over the candidates (lines 115-121).  `none`: the function
returned `true` at line 120; `some test`: the loop ran to its end with this
window. -/
def innerPass : Key → List ConditionObject → Option Key
  | test, [] => some test
  | test, cond :: rest =>
    let t := windowStep test cond.key
    if t.first ≥ t.second then none else innerPass t rest

/-- The outer loop (lines 114-123) with `passes` iterations left. -/
def rangeLoop (iov : Key) (conditions : List ConditionObject) : Nat → Key → Bool
  | 0, _ => false
  | passes + 1, test =>
    match innerPass test conditions with
    | none => true
    | some t =>
      if t.first ≤ iov.first ∧ t.second ≥ iov.second then false
      else rangeLoop iov conditions passes t

/-- Helper: Check if the conditions range covers the entire IOV span. -/
def is_range_complete (iov : IOV) (conditions : List ConditionObject) : Bool :=
  if conditions ≠ [] then
    rangeLoop iov.keyData conditions conditions.length iov.keyData
  else false

/-! ## Vocabulary of the statements about the range check -/

/-- A condition object carrying the key range `[f,s]` of IOV type `0`. -/
def condWithRange (f s : Int) : ConditionObject :=
  { hash := 0, value := "", iov := some { iovType := none, type := 0, keyData := ⟨f, s⟩ }, flags := 0 }

/-- A requested IOV `[lo,hi]` of IOV type `0`. -/
def requestIOV (lo hi : Int) : IOV := { iovType := none, type := 0, keyData := ⟨lo, hi⟩ }

/-- The integer `x` lies inside the key range of one of the candidates. -/
def Covered (conditions : List ConditionObject) (x : Int) : Prop :=
  ∃ c ∈ conditions, c.key.first ≤ x ∧ x ≤ c.key.second

/-- Invariant of the window: everything above `lo` up to the low edge is
covered, and either the high edge has not moved or everything from the high
edge up to `hi` is covered. -/
def WindowInv (lo hi : Int) (conditions : List ConditionObject) (t : Key) : Prop :=
  (∀ x, lo < x → x ≤ t.first → Covered conditions x) ∧
  (t.second = hi ∨ ∀ x, t.second ≤ x → x ≤ hi → Covered conditions x)

/-- The number of candidates whose high end is at or below the low edge. -/
def absorbed (conditions : List ConditionObject) (t : Key) : Nat :=
  conditions.countP fun c => decide (c.key.second ≤ t.first)

/-! ## The manager and the objects it refers to -/

/-- An address in the object store. -/
abbrev Addr := Nat

/-- A condition handle (`Condition`): a nullable pointer to a condition
object.  `isValid()` holds exactly for a non-null handle. -/
abbrev Condition := Option Addr

/-- Modelled from the spec: the flag bits of a condition are declared in
`DD4hep/Conditions.h`, which is not among the sources.  `ACTIVE` is one bit
of the flag mask (bit 0). -/
def Condition.ACTIVE : Nat := 1

/-- Modelled from the spec: `ConditionsPool` (declared in
`DDCond/ConditionsPool.h`, implemented by pool plug-ins; neither is among the
sources): `iov` (pointer, shared with all contained conditions), the mapping
key -> condition with unique keys, and the age. -/
structure ConditionsPool where
  iov : Option IOV
  entries : List (Nat × Addr)
  age_value : Nat
  deriving DecidableEq, Repr

/-- Modelled from the spec: `ConditionsPool::get(key) -> optional<Condition>`. -/
def ConditionsPool.get (pool : ConditionsPool) (key : Nat) : Condition :=
  pool.entries.lookup key

/-- Modelled from the spec: `ConditionsPool::insert(condition) -> bool`, with
the hash key of the condition object: fails (returns false) if a condition
with the same key already exists in the pool; otherwise inserts and returns
true. -/
def ConditionsPool.insert (pool : ConditionsPool) (key : Nat) (cond : Addr) : Bool × ConditionsPool :=
  match pool.get key with
  | some _ => (false, pool)
  | none => (true, { pool with entries := pool.entries ++ [(key, cond)] })

/-- Modelled from the spec: `ConditionsIOVPool` (declared in
`DDCond/ConditionsIOVPool.h`, not among the sources): the pointer to the IOV
type and `elements`, the mapping IOV key range -> ConditionsPool. -/
structure ConditionsIOVPool where
  type : Option IOVType
  elements : List (Key × Addr)
  deriving DecidableEq, Repr

/-- The lookup `elements.find(key)`: an exact match of the key pair. -/
def ConditionsIOVPool.find (pool : ConditionsIOVPool) (key : Key) : Option Addr :=
  pool.elements.lookup key

/-- A registered listener: the pair (listener object, user argument). -/
abbrev Listener := Nat × Nat

/-- Modelled from the spec: `UpdatePool` (declared in `DDCond/ConditionsPool.h`,
implemented by a plug-in; neither is among the sources): the pending
conditions, a mapping IOV key range -> ordered sequence of conditions. -/
abbrev UpdatePool := List (Key × List Addr)

/-- The errors raised through `except(...)`. -/
inductive Error where
  /-- Message "Cannot register IOV ... Type ... already in use!" (line 184). -/
  | typeInUse
  /-- Message "Cannot register IOV section ... Value out of bounds" (line 192). -/
  | outOfBounds
  /-- Message "Invalid condition objects may not be registered." (lines 264, 283). -/
  | invalidCondition
  /-- Message "Request to access an unregistered IOV type" (lines 203, 211). -/
  | unregisteredIOVType
  /-- Message "Unknown IOV type requested to enable conditions." (line 338). -/
  | unknownIOVType
  /-- Message "We should never end up here" (line 398). -/
  | neverEndUpHere
  /-- Message of the manager handle for an IOV without IOV type. -/
  | invalidIOV
  /-- Message "Cannot access conditions pool according to IOV"
  (ConditionsSlice.cpp, lines 56 and 94). -/
  | cannotAccessPool
  /-- Message "Failed to register condition ... according to IOV"
  (ConditionsSlice.cpp, lines 62 and 100). -/
  | failedToRegister
  /-- Message "Failed to register condition ... to user pool with IOV"
  (ConditionsSlice.cpp, line 70). -/
  | failedUserPool
  /-- Message "Cannot manage invalid condition!" (ConditionsSlice.cpp, line 77). -/
  | invalidManage
  /-- Message "Cannot insert invalid condition to the user pool!"
  (ConditionsSlice.cpp, line 106). -/
  | invalidInsert
  deriving DecidableEq, Repr

/-- The members of `Manager_Type1` that the operations below use, together
with the objects they point to: the object stores for the IOV pools, the
conditions pools and the condition objects, the next free address, and the
log of the listener calls `onRegisterCondition(cond, arg)`.  `m_updatePool`
is the (nullable) owning pointer to the update pool, read through. -/
structure State where
  m_iovTypes : List IOVType
  m_rawPool : List (Option Addr)
  m_onRegister : List Listener
  m_updatePool : Option UpdatePool
  iovPools : Addr → ConditionsIOVPool
  pools : Addr → ConditionsPool
  conds : Addr → ConditionObject
  next : Addr
  calls : List (Listener × Addr)

/-- The outcome of an operation: a normal return with the state reached, an
exception with the state at the throw, or undefined behaviour (an access
outside the bounds of a vector). -/
inductive Outcome (α : Type) where
  | ok (value : α) (s : State)
  | raised (e : Error) (s : State)
  | undefined

/-- The state an operation leaves behind, if its behaviour is defined. -/
def Outcome.state? {α : Type} : Outcome α → Option State
  | .ok _ s => some s
  | .raised _ s => some s
  | .undefined => none

/-- The value of a normal return. -/
def Outcome.value? {α : Type} : Outcome α → Option α
  | .ok v _ => some v
  | _ => none

/-- The error of an exceptional return. -/
def Outcome.error? {α : Type} : Outcome α → Option Error
  | .raised e _ => some e
  | _ => none

/-! ## The operations of `Manager_Type1` -/

/-- Standard constructor (lines 136-148): both tables are resized to
`maxIOVTypes` entries, default-constructed types and null pool pointers.  The
default-constructed `IOVType` (declared in `DD4hep/IOV.h`, not among the
sources) is a parameter. -/
def Manager_Type1.create (maxIOVTypes : Nat) (dflt : IOVType) : State :=
  { m_iovTypes := List.replicate maxIOVTypes dflt
    m_rawPool := List.replicate maxIOVTypes none
    m_onRegister := []
    m_updatePool := none
    iovPools := fun _ => { type := none, elements := [] }
    pools := fun _ => { iov := none, entries := [], age_value := 0 }
    conds := fun _ => { hash := 0, value := "", iov := none, flags := 0 }
    next := 0
    calls := [] }

/-- The allocation `new ConditionsIOVPool(&typ)`: a pool without elements at
the next free address. -/
def State.newIOVPool (s : State) (typ : IOVType) : Addr × State :=
  (s.next, { s with
    iovPools := Function.update s.iovPools s.next { type := some typ, elements := [] }
    next := s.next + 1 })

/-- Register new IOV type if it does not (yet) exist (lines 174-195).  The
result pairs the flag "newly created" with the pointer to the type, read
through.  The lookup `m_iovTypes[iov_index]?` finds the slot exactly when
`iov_index < m_iovTypes.size()`. -/
def Manager_Type1.registerIOVType (s : State) (iov_index : Nat) (iov_name : String) :
    Outcome (Bool × Option IOVType) :=
  match s.m_iovTypes[iov_index]? with
  | some typ =>
    let eq_type := typ.type == iov_index
    let eq_name := typ.name == iov_name
    if eq_type && eq_name then
      .ok (false, some typ) s
    else if typ.type != 0 && eq_type && !eq_name then
      .raised .typeInUse s
    else
      let typ1 : IOVType := { type := iov_index, name := iov_name }
      let s1 := { s with m_iovTypes := s.m_iovTypes.set iov_index typ1 }
      if typ1.type < s1.m_rawPool.length then
        let (a, s2) := s1.newIOVPool typ1
        .ok (true, some typ1) { s2 with m_rawPool := s2.m_rawPool.set typ1.type (some a) }
      else .undefined
  | none =>
    .raised .outOfBounds s

/-- Access conditions multi IOV pool by iov type (lines 238-240). -/
def Manager_Type1.iovPool (s : State) (iov_type : IOVType) : Option (Option Addr) :=
  s.m_rawPool[iov_type.type]?

/-- Modelled from the spec: the plug-in factory `createPlugin<ConditionsPool>`
(not among the sources) returns a new, empty conditions pool bound to the
IOV it is given, here at the next free address. -/
def State.newConditionsPool (s : State) (iov : IOV) : Addr × State :=
  (s.next, { s with
    pools := Function.update s.pools s.next { iov := some iov, entries := [], age_value := 0 }
    next := s.next + 1 })

/-- Register IOV with type and key (lines 216-235).  The result is the
pointer to the conditions pool.  The lock is not part of the embedding. -/
def Manager_Type1.registerIOV (s : State) (typ : IOVType) (key : Key) : Outcome (Option Addr) :=
  if typ.type < s.m_rawPool.length then
    let (pool, s1) : Addr × State :=
      match s.m_rawPool.getD typ.type none with
      | some pool => (pool, s)
      | none =>
        let (a, s0) := s.newIOVPool typ
        (a, { s0 with m_rawPool := s0.m_rawPool.set typ.type (some a) })
    match (s1.iovPools pool).find key with
    | some cond_pool => .ok (some cond_pool) s1
    | none =>
      let iov : IOV := { iovType := some typ, type := typ.type, keyData := key }
      let (cond_pool, s2) := s1.newConditionsPool iov
      let elements := (s2.iovPools pool).elements ++ [(key, cond_pool)]
      .ok (some cond_pool)
        { s2 with iovPools := Function.update s2.iovPools pool { s2.iovPools pool with elements := elements } }
  else .undefined

/-- The assignment `cond->iov = iov`. -/
def State.setCondIOV (s : State) (c : Addr) (iov : Option IOV) : State :=
  { s with conds := Function.update s.conds c { s.conds c with iov := iov } }

/-- The call `cond->setFlag(option)`: `flags |= option`. -/
def State.setFlag (s : State) (c : Addr) (option : Nat) : State :=
  { s with conds := Function.update s.conds c { s.conds c with flags := (s.conds c).flags ||| option } }

/-- The call `pool.insert(cond)` on the pool at address `pool`. -/
def State.poolInsert (s : State) (pool : Addr) (c : Addr) : Bool × State :=
  let r := (s.pools pool).insert (s.conds c).hash c
  (r.1, { s with pools := Function.update s.pools pool r.2 })

/-- The helper `__callListeners` for `onRegisterCondition` (lines 128-132):
every listener is called once with the condition and its user argument. -/
def State.callListeners (s : State) (listeners : List Listener) (c : Addr) : State :=
  { s with calls := s.calls ++ listeners.map fun l => (l, c) }

/-- Register new condition with the conditions store.  Unlocked version
(lines 243-267). -/
def Manager_Type1.registerUnlocked (s : State) (pool : Addr) (cond : Condition) : Outcome Bool :=
  match cond with
  | some c =>
    let s1 := s.setCondIOV c (s.pools pool).iov
    let s2 := s1.setFlag c Condition.ACTIVE
    let s3 := (s2.poolInsert pool c).2
    let s4 := if s3.m_onRegister ≠ [] then s3.callListeners s3.m_onRegister c else s3
    .ok true s4
  | none => .raised .invalidCondition s

/-- The loop of `blockRegister` with the counter `result`. -/
def Manager_Type1.blockRegisterLoop (pool : Addr) : State → List Condition → Nat → Outcome Nat
  | s, [], result => .ok result s
  | s, some c :: rest, result =>
    let s1 := s.setCondIOV c (s.pools pool).iov
    let s2 := s1.setFlag c Condition.ACTIVE
    let s3 := (s2.poolInsert pool c).2
    let s4 := if s3.m_onRegister ≠ [] then s3.callListeners s3.m_onRegister c else s3
    Manager_Type1.blockRegisterLoop pool s4 rest (result + 1)
  | s, none :: _, _ => .raised .invalidCondition s

/-- Register a whole block of conditions with identical IOV (lines 270-288). -/
def Manager_Type1.blockRegister (s : State) (pool : Addr) (cond : List Condition) : Outcome Nat :=
  Manager_Type1.blockRegisterLoop pool s cond 0

/-! ## The update pool, the selection and the IOV check of `Manager_Type1` -/

/-- Modelled from the spec: two IOV key ranges overlap iff
`a.first <= b.second && b.first <= a.second` (the test is declared in
`DD4hep/IOV.h`, not among the sources). -/
def Key.overlaps (a b : Key) : Bool :=
  decide (a.first ≤ b.second) && decide (b.first ≤ a.second)

/-- Modelled from the spec: `IOV::has_range()` (declared in `DD4hep/IOV.h`, not
among the sources): a discrete IOV has `first == second`, every other IOV is
a range. -/
def IOV.has_range (iov : IOV) : Bool := iov.keyData.first != iov.keyData.second

/-- The IOV of a point `[x,x]` of the IOV type `typ`. -/
def IOV.point (typ : IOVType) (x : Int) : IOV :=
  { iovType := some typ, type := typ.type, keyData := ⟨x, x⟩ }

/-- The creation of the update pool in `initialize()` (lines 156-171): an
empty update pool, if there is none yet.  The loader is not part of the
embedding. -/
def Manager_Type1.initialize (s : State) : State :=
  match s.m_updatePool with
  | some _ => s
  | none => { s with m_updatePool := some [] }

/-- The loop of `pushUpdates` over the drained entries (lines 393-404): the
first condition of the first non-empty list gets the flag `ACTIVE`, then the
exception is raised. -/
def Manager_Type1.pushUpdatesLoop : State → UpdatePool → Outcome Unit
  | s, [] => .ok () s
  | s, (_, []) :: rest => Manager_Type1.pushUpdatesLoop s rest
  | s, (_, c :: _) :: _ => .raised .neverEndUpHere (s.setFlag c Condition.ACTIVE)

/-- Push all pending updates to the conditions store (lines 385-405).
Modelled from the spec: `popEntries` (not among the sources) drains the
update pool.  Without an update pool the call dereferences a null pointer. -/
def Manager_Type1.pushUpdates (s : State) : Outcome Unit :=
  match s.m_updatePool with
  | some entries => Manager_Type1.pushUpdatesLoop { s with m_updatePool := some [] } entries
  | none => .undefined

/-- Modelled from the spec: `ConditionsIOVPool::select` and `selectRange` (not
among the sources): scan every stored pool whose key range overlaps the
requested IOV; for each such pool that contains `key`, append that condition. -/
def State.selectInPools (s : State) (elements : List (Key × Addr)) (key : Nat) (req : IOV) :
    List Addr :=
  elements.filterMap fun e => if e.1.overlaps req.keyData then (s.pools e.2).get key else none

/-- Modelled from the spec: `UpdatePool::select_range` (not among the sources):
scan the pending entries whose key range overlaps the requested IOV and
append their conditions with the hash `key`. -/
def State.selectInUpdates (s : State) (pending : UpdatePool) (key : Nat) (req : IOV) : List Addr :=
  pending.flatMap fun e =>
    if e.1.overlaps req.keyData then e.2.filter fun c => (s.conds c).hash == key else []

/-- Retrieve a condition set given the key according to its validity (lines
408-422).  The result pairs the returned flag with the output sequence
`conditions`.  The index into `m_rawPool` is unchecked, and neither the IOV
pool nor the update pool is tested for null: these cases are undefined. -/
def Manager_Type1.select (s : State) (key : Nat) (req_validity : IOV) (conditions : List Addr) :
    Outcome (Bool × List Addr) :=
  if req_validity.type < s.m_rawPool.length then
    match s.m_rawPool.getD req_validity.type none with
    | some p =>
      let conditions1 := conditions ++ s.selectInPools (s.iovPools p).elements key req_validity
      match s.m_updatePool with
      | some pending =>
        let conditions2 := conditions1 ++ s.selectInUpdates pending key req_validity
        .ok (!conditions2.isEmpty, conditions2) s
      | none => .undefined
    | none => .undefined
  else .undefined

/-- Retrieve a condition set given the key according to its validity, with
the range check (lines 425-440). -/
def Manager_Type1.select_range (s : State) (key : Nat) (req_validity : IOV)
    (conditions : List Addr) : Outcome (Bool × List Addr) :=
  if req_validity.type < s.m_rawPool.length then
    match s.m_rawPool.getD req_validity.type none with
    | some p =>
      let conditions1 := conditions ++ s.selectInPools (s.iovPools p).elements key req_validity
      match s.m_updatePool with
      | some pending =>
        let conditions2 := conditions1 ++ s.selectInUpdates pending key req_validity
        .ok (is_range_complete req_validity (conditions2.map s.conds), conditions2) s
      | none => .undefined
    | none => .undefined
  else .undefined

/-- Access IOV by its type (lines 198-205): the slot, if it holds its own
index; the exception otherwise. -/
def Manager_Type1.iovType (s : State) (iov_index : Nat) : Outcome (Option IOVType) :=
  match s.m_iovTypes[iov_index]? with
  | some typ => if typ.type == iov_index then .ok (some typ) s else .raised .unregisteredIOVType s
  | none => .raised .unregisteredIOVType s

/-- Helper: Specialized IOV check `check_iov_type<void>` (lines 61-75).  The
argument is the (nullable) pointer to the IOV, read through. -/
def check_iov_type_void (s : State) (iov : Option IOV) : Outcome (Option IOVType) :=
  match iov with
  | some iov =>
    let found : Outcome (Option IOVType) :=
      match iov.iovType with
      | some t => .ok (some t) s
      | none => Manager_Type1.iovType s iov.type
    match found with
    | .ok (some typ) _ =>
      if iov.type == typ.type then
        if typ.type < s.m_rawPool.length then
          if s.m_rawPool.getD typ.type none != none then .ok (some typ) s
          else .ok none s
        else .ok none s
      else .ok none s
    | .ok none _ => .ok none s
    | .raised e s1 => .raised e s1
    | .undefined => .undefined
  | none => .ok none s

/-- Helper: Specialized IOV check for discrete IOV values,
`check_iov_type<Discrete>` (lines 78-82). -/
def check_iov_type_Discrete (s : State) (iov : Option IOV) : Outcome (Option IOVType) :=
  match check_iov_type_void s iov with
  | .ok (some typ) s1 =>
    match iov with
    | some i => if !i.has_range then .ok (some typ) s1 else .ok none s1
    | none => .ok none s1
  | .ok none s1 => .ok none s1
  | .raised e s1 => .raised e s1
  | .undefined => .undefined

/-! ## User pools and slices (`ConditionsSlice.cpp`) -/

/-- Modelled from the spec: the hash key of a condition, a 64 bit hash of
(detector element, item key); `ConditionKey::KeyMaker` is not among the
sources.  The two 32 bit halves are packed into one key. -/
def ConditionKey.hash (detector key : Nat) : Nat := detector * 4294967296 + key

/-- Modelled from the spec: `UserPool` (declared in `DDCond/ConditionsPool.h`,
implemented by a plug-in; neither is among the sources): the IOV the pool is
bound to (`validity()`), the pointer to the IOV pool of the manager it was
created for, and the mapping key -> condition. -/
structure UserPool where
  m_iov : IOV
  m_iovPool : Option Addr
  entries : List (Nat × Addr)
  deriving DecidableEq, Repr

/-- Modelled from the spec: the plug-in factory `createPlugin<UserPool>` (not
among the sources) returns a new, empty user pool for the IOV pool it is
given; it is bound to an IOV by its `prepare`. -/
def UserPool.create (iovPool : Option Addr) : UserPool :=
  { m_iov := { iovType := none, type := 0, keyData := ⟨0, 0⟩ }, m_iovPool := iovPool, entries := [] }

/-- The accessor `UserPool::validity()`. -/
def UserPool.validity (pool : UserPool) : IOV := pool.m_iov

/-- Modelled from the spec: `UserPool::insert(condition) -> bool` for a hash
key: fails if the key is present, inserts otherwise. -/
def UserPool.insert (pool : UserPool) (key : Nat) (cond : Addr) : Bool × UserPool :=
  match pool.entries.lookup key with
  | some _ => (false, pool)
  | none => (true, { pool with entries := pool.entries ++ [(key, cond)] })

/-- Modelled from the spec: `UserPool::get(detector, key)`: the stored
condition, or an invalid condition if absent. -/
def UserPool.get (pool : UserPool) (detector key : Nat) : Condition :=
  pool.entries.lookup (ConditionKey.hash detector key)

/-- Modelled from the spec: `UserPool::clear()` removes every condition. -/
def UserPool.clear (pool : UserPool) : UserPool := { pool with entries := [] }

/-- The data members of `ConditionsSlice`: the reference to the manager, the
shared reference to the content, and the owning (nullable) pointer to the
user pool, read through. -/
structure ConditionsSlice where
  manager : Nat
  content : Option Nat
  pool : Option UserPool
  deriving DecidableEq, Repr

/-- The outcome of an operation on a slice: as `Outcome`, with the slice. -/
inductive SliceOutcome (α : Type) where
  | ok (value : α) (s : State) (slice : ConditionsSlice)
  | raised (e : Error) (s : State) (slice : ConditionsSlice)
  | undefined

/-- The value of a normal return. -/
def SliceOutcome.value? {α : Type} : SliceOutcome α → Option α
  | .ok v _ _ => some v
  | _ => none

/-- The error of an exceptional return. -/
def SliceOutcome.error? {α : Type} : SliceOutcome α → Option Error
  | .raised e _ _ => some e
  | _ => none

/-- The state of the manager an operation leaves behind. -/
def SliceOutcome.state? {α : Type} : SliceOutcome α → Option State
  | .ok _ s _ => some s
  | .raised _ s _ => some s
  | .undefined => none

/-- The slice an operation leaves behind. -/
def SliceOutcome.slice? {α : Type} : SliceOutcome α → Option ConditionsSlice
  | .ok _ _ slice => some slice
  | .raised _ _ slice => some slice
  | .undefined => none

/-- Modelled from the spec: the flags of `manage` are declared in
`DDCond/ConditionsSlice.h`, which is not among the sources: one bit for the
registration with the manager. -/
def ConditionsSlice.REGISTER_MANAGER : Nat := 1

/-- Modelled from the spec: the bit for the registration with the user pool. -/
def ConditionsSlice.REGISTER_POOL : Nat := 2

/-- Modelled from the spec: `ConditionsManager::registerIOV(const IOV&)` of the
manager handle (not among the sources) registers the IOV with the manager
by its IOV type and key; an IOV without IOV type is refused. -/
def ConditionsManager.registerIOV (s : State) (iov : IOV) : Outcome (Option Addr) :=
  match iov.iovType with
  | some typ => Manager_Type1.registerIOV s typ iov.key
  | none => .raised .invalidIOV s

/-- An `except(...)` of the slice whose message evaluates
`pool->validity()`: without a user pool it dereferences a null pointer. -/
def ConditionsSlice.raise {α : Type} (e : Error) (s : State) (slice : ConditionsSlice) :
    SliceOutcome α :=
  match slice.pool with
  | some _ => .raised e s slice
  | none => .undefined

/-- Clear the conditions access and the user pool (ConditionsSlice.cpp, lines
46-49). -/
def ConditionsSlice.reset (s : State) (slice : ConditionsSlice) : SliceOutcome Unit :=
  match slice.pool with
  | some pool => .ok () s { slice with pool := some pool.clear }
  | none => .ok () s slice

/-- The first half of `manage` (ConditionsSlice.cpp, lines 53-65): the
registration with the manager, with the value of `ret` after it. -/
def ConditionsSlice.manageManager (s : State) (slice : ConditionsSlice) (p : Option Addr)
    (c : Addr) (flg : Nat) : SliceOutcome Bool :=
  if (flg &&& ConditionsSlice.REGISTER_MANAGER) != 0 then
    match p with
    | none => ConditionsSlice.raise .cannotAccessPool s slice
    | some pool =>
      match Manager_Type1.registerUnlocked s pool (some c) with
      | .ok ret s1 =>
        if !ret then ConditionsSlice.raise .failedToRegister s1 slice
        else .ok ret s1 slice
      | .raised e s1 => .raised e s1 slice
      | .undefined => .undefined
  else .ok false s slice

/-- Local optimization: Insert a set of conditions to the slice AND register
them to the conditions manager (ConditionsSlice.cpp, lines 51-81). -/
def ConditionsSlice.manage (s : State) (slice : ConditionsSlice) (p : Option Addr)
    (condition : Condition) (flg : Nat) : SliceOutcome Bool :=
  match condition with
  | some c =>
    match ConditionsSlice.manageManager s slice p c flg with
    | .ok ret s1 slice1 =>
      if (flg &&& ConditionsSlice.REGISTER_POOL) != 0 then
        match slice1.pool with
        | some pool =>
          let r := pool.insert (s1.conds c).hash c
          if !r.1 then .raised .failedUserPool s1 { slice1 with pool := some r.2 }
          else .ok r.1 s1 { slice1 with pool := some r.2 }
        | none => .undefined
      else .ok ret s1 slice1
    | .raised e s1 slice1 => .raised e s1 slice1
    | .undefined => .undefined
  | none => .raised .invalidManage s slice

/-- Insert a set of conditions to the slice AND register them to the
conditions manager: the overload `manage(condition, flg)`
(ConditionsSlice.cpp, lines 83-87). -/
def ConditionsSlice.manageCondition (s : State) (slice : ConditionsSlice)
    (condition : Condition) (flg : Nat) : SliceOutcome Bool :=
  if (flg &&& ConditionsSlice.REGISTER_MANAGER) != 0 then
    match slice.pool with
    | some pool =>
      match ConditionsManager.registerIOV s pool.validity with
      | .ok p s1 => ConditionsSlice.manage s1 slice p condition flg
      | .raised e s1 => .raised e s1 slice
      | .undefined => .undefined
    | none => .undefined
  else ConditionsSlice.manage s slice none condition flg

/-- ConditionsMap overload: Add a condition directly to the slice
(ConditionsSlice.cpp, lines 90-109). -/
def ConditionsSlice.insert (s : State) (slice : ConditionsSlice) (detector key : Nat)
    (condition : Condition) : SliceOutcome Bool :=
  match condition with
  | some c =>
    match slice.pool with
    | some pool =>
      match ConditionsManager.registerIOV s pool.validity with
      | .ok p s1 =>
        match p with
        | none => .raised .cannotAccessPool s1 slice
        | some p =>
          match Manager_Type1.registerUnlocked s1 p (some c) with
          | .ok ret s2 =>
            if !ret then .raised .failedToRegister s2 slice
            else
              let r := pool.insert (ConditionKey.hash detector key) c
              .ok r.1 s2 { slice with pool := some r.2 }
          | .raised e s2 => .raised e s2 slice
          | .undefined => .undefined
      | .raised e s1 => .raised e s1 slice
      | .undefined => .undefined
    | none => .undefined
  | none => .raised .invalidInsert s slice

/-- ConditionsMap overload: Access a condition (ConditionsSlice.cpp, lines
111-114).  Without a user pool the call dereferences a null pointer. -/
def ConditionsSlice.get (s : State) (slice : ConditionsSlice) (detector key : Nat) :
    SliceOutcome Condition :=
  match slice.pool with
  | some pool => .ok (pool.get detector key) s slice
  | none => .undefined

/-- The counters of `ConditionsManager::Result`. -/
structure Result where
  selected : Nat
  loaded : Nat
  computed : Nat
  missing : Nat
  deriving DecidableEq, Repr

/-- Helper to check iov and user pool and create user pool if not present
(lines 324-340).  The result is the new value of the pointer `up`. -/
def Manager_Type1.__get_checked_pool (s : State) (req_iov : IOV) (up : Option UserPool) :
    Outcome (Option UserPool) :=
  match check_iov_type_Discrete s (some req_iov) with
  | .ok (some typ) s1 =>
    if typ.type < s1.m_rawPool.length then
      let pool := s1.m_rawPool.getD typ.type none
      match up with
      | none => .ok (some (UserPool.create pool)) s1
      | some u => .ok (some u) s1
    else .undefined
  | .ok none s1 => .raised .unknownIOVType s1
  | .raised e s1 => .raised e s1
  | .undefined => .undefined

/-- Load all updates to the clients with the defined IOV (lines 522-530).  The
`load` of the user pool (a plug-in, not among the sources) is a parameter. -/
def Manager_Type1.load (userLoad : State → ConditionsSlice → IOV → SliceOutcome Result)
    (s : State) (req_iov : IOV) (slice : ConditionsSlice) : SliceOutcome Result :=
  match Manager_Type1.__get_checked_pool s req_iov slice.pool with
  | .ok up s1 =>
    match Manager_Type1.pushUpdates s1 with
    | .ok _ s2 => userLoad s2 { slice with pool := up } req_iov
    | .raised e s2 => .raised e s2 { slice with pool := up }
    | .undefined => .undefined
  | .raised e s1 => .raised e s1 slice
  | .undefined => .undefined

/-- Prepare all updates for the given keys to the clients with the defined
IOV (lines 506-519).  The `prepare` of the user pool (a plug-in, not among
the sources) and the registered cleanup, if any, are parameters. -/
def Manager_Type1.prepare (userPrepare : State → ConditionsSlice → IOV → SliceOutcome Result)
    (cleaner : Option (State → State))
    (s : State) (req_iov : IOV) (slice : ConditionsSlice) : SliceOutcome Result :=
  match Manager_Type1.__get_checked_pool s req_iov slice.pool with
  | .ok up s1 =>
    match Manager_Type1.pushUpdates s1 with
    | .ok _ s2 =>
      match userPrepare s2 { slice with pool := up } req_iov with
      | .ok res s3 slice3 =>
        match cleaner with
        | some clean => .ok res (clean s3) slice3
        | none => .ok res s3 slice3
      | .raised e s3 slice3 => .raised e s3 slice3
      | .undefined => .undefined
    | .raised e s2 => .raised e s2 { slice with pool := up }
    | .undefined => .undefined
  | .raised e s1 => .raised e s1 slice
  | .undefined => .undefined

/-! ## Cleanup, lookup by name and the registration one by one -/

/-- Modelled from the spec: `ConditionsPool::clean(max_age) -> count` (not among
the sources) removes every condition whose age exceeds `max_age`, or all
conditions if `max_age == 0`, and returns the count removed.  The age of the
condition objects is the parameter `age`. -/
def ConditionsPool.clean (age : Addr → Nat) (pool : ConditionsPool) (max_age : Nat) :
    Nat × ConditionsPool :=
  let kept := if max_age == 0 then [] else pool.entries.filter fun e => !decide (max_age < age e.2)
  (pool.entries.length - kept.length, { pool with entries := kept })

/-- Modelled from the spec: `ConditionsIOVPool::clean(max_age) -> count` (not
among the sources) forwards to each contained conditions pool, here over
the elements of the IOV pool in their order; the result is the count
removed and the state reached. -/
def State.cleanPools (age : Addr → Nat) (max_age : Nat) : State → List (Key × Addr) → Nat × State
  | s, [] => (0, s)
  | s, e :: rest =>
    let r := (s.pools e.2).clean age max_age
    let r2 := State.cleanPools age max_age { s with pools := Function.update s.pools e.2 r.2 } rest
    (r.1 + r2.1, r2.2)

/-- The loop of `clear()` over the pool table (lines 374-380) with the pair
`count`. -/
def Manager_Type1.clearLoop (age : Addr → Nat) : State → List (Option Addr) → Nat × Nat →
    (Nat × Nat) × State
  | s, [], count => (count, s)
  | s, none :: rest, count => Manager_Type1.clearLoop age s rest count
  | s, some p :: rest, count =>
    let r := State.cleanPools age 0 s (s.iovPools p).elements
    Manager_Type1.clearLoop age r.2 rest (count.1 + 1, count.2 + r.1)

/-- Full cleanup of all managed conditions (lines 371-382). -/
def Manager_Type1.clear (age : Addr → Nat) (s : State) : Outcome (Nat × Nat) :=
  let r := Manager_Type1.clearLoop age s s.m_rawPool (0, 0)
  .ok r.1 r.2

/-- Access IOV by its name (lines 207-213): the first slot of the table with
this name; the exception if there is none. -/
def Manager_Type1.iovTypeNamed (s : State) (iov_name : String) : Outcome (Option IOVType) :=
  match s.m_iovTypes.find? fun i => i.name == iov_name with
  | some typ => .ok (some typ) s
  | none => .raised .unregisteredIOVType s

/-- The reference for `blockRegister`: `registerUnlocked(pool, c)` called for
each `c` of the batch in order, up to the first call that raises.  The
value is the number of calls that returned `true`. -/
def registerEach (pool : Addr) : State → List Condition → Outcome Nat
  | s, [] => .ok 0 s
  | s, c :: rest =>
    match Manager_Type1.registerUnlocked s pool c with
    | .ok ret s1 =>
      match registerEach pool s1 rest with
      | .ok n s2 => .ok ((if ret then 1 else 0) + n) s2
      | .raised e s2 => .raised e s2
      | .undefined => .undefined
    | .raised e s1 => .raised e s1
    | .undefined => .undefined

/-! ## The locks of `Manager_Type1` -/

/-- The two locks of the manager: `m_updateLock` and `m_poolLock`. -/
inductive Lock where
  | update
  | pool
  deriving DecidableEq, Repr

/-- The construction of a scoped lock object `dd4hep_lock_t` acquires the
lock, the end of its scope (also when left by `return` or by an exception)
releases it. -/
inductive LockEvent where
  | acquire (l : Lock)
  | release (l : Lock)
  deriving DecidableEq, Repr

/-- The locks held after an event, given the locks held before it. -/
def LockEvent.apply (held : List Lock) : LockEvent → List Lock
  | .acquire l => l :: held
  | .release l => held.erase l

/-- No point of the sequence of events, started with the locks `held`, has
both locks held. -/
def neverBoth : List Lock → List LockEvent → Bool
  | held, [] => !(decide (Lock.update ∈ held) && decide (Lock.pool ∈ held))
  | held, e :: rest =>
    !(decide (Lock.update ∈ held) && decide (Lock.pool ∈ held)) && neverBoth (e.apply held) rest

/-- A block in the scope of a lock object `dd4hep_lock_t lock(l)`: the lock is
acquired where the object is constructed and released where its scope is
left, by its end, by `return` or by an exception.  The block comes with the
lock events of its own statements. -/
def withLock {α : Type} (l : Lock) (body : List LockEvent × α) : List LockEvent × α :=
  (LockEvent.acquire l :: body.1 ++ [LockEvent.release l], body.2)

/-- Register IOV with type and key (lines 216-235), with the lock events of
the call: the pool table is read at line 218, the lock object of line 219
lives to the end of the function.  An index outside the table is undefined
before any lock is taken.  The plug-in factory called inside the scope is not
among the sources and contributes no event. -/
def Manager_Type1.registerIOV_traced (s : State) (typ : IOVType) (key : Key) :
    List LockEvent × Outcome (Option Addr) :=
  if typ.type < s.m_rawPool.length then
    let pool0 := s.m_rawPool.getD typ.type none
    withLock .pool ([],
      let (pool, s1) : Addr × State :=
        match pool0 with
        | some pool => (pool, s)
        | none =>
          let (a, s0) := s.newIOVPool typ
          (a, { s0 with m_rawPool := s0.m_rawPool.set typ.type (some a) })
      match (s1.iovPools pool).find key with
      | some cond_pool => .ok (some cond_pool) s1
      | none =>
        let iov : IOV := { iovType := some typ, type := typ.type, keyData := key }
        let (cond_pool, s2) := s1.newConditionsPool iov
        let elements := (s2.iovPools pool).elements ++ [(key, cond_pool)]
        .ok (some cond_pool)
          { s2 with iovPools := Function.update s2.iovPools pool { s2.iovPools pool with elements := elements } })
  else ([], .undefined)

/-- Clean conditions, which are above the age limit (lines 348-356).  The
pointer `typ` is read through; the index into the pool table is unchecked. -/
def Manager_Type1.clean (age : Addr → Nat) (s : State) (typ : IOVType) (max_age : Nat) :
    Outcome Nat :=
  if typ.type < s.m_rawPool.length then
    match s.m_rawPool.getD typ.type none with
    | some pool =>
      let r := State.cleanPools age max_age s (s.iovPools pool).elements
      .ok (0 + r.1) r.2
    | none => .ok 0 s
  else .undefined

/-- The call `clean(typ, max_age)` with its lock events: the lock object of
line 350 is constructed before the pool table is read (line 351) and lives to
the end of the function. -/
def Manager_Type1.clean_traced (age : Addr → Nat) (s : State) (typ : IOVType) (max_age : Nat) :
    List LockEvent × Outcome Nat :=
  withLock .update ([],
    if typ.type < s.m_rawPool.length then
      match s.m_rawPool.getD typ.type none with
      | some pool =>
        let r := State.cleanPools age max_age s (s.iovPools pool).elements
        .ok (0 + r.1) r.2
      | none => .ok 0 s
    else .undefined)

/-- Push all pending updates to the conditions store (lines 385-405), with
the lock events of the call: the block of lines 386-389 drains the update
pool in the scope of `lock(m_updateLock)`; the loop of lines 393-404 runs in
the scope of `lock(m_poolLock)` of line 392, which lives to the end of the
function, also when the loop raises. -/
def Manager_Type1.pushUpdates_traced (s : State) : List LockEvent × Outcome Unit :=
  let popped : List LockEvent × Option (UpdatePool × State) :=
    withLock .update ([],
      match s.m_updatePool with
      | some entries => some (entries, { s with m_updatePool := some [] })
      | none => none)
  match popped.2 with
  | some (entries, s1) =>
    let merged := withLock .pool ([], Manager_Type1.pushUpdatesLoop s1 entries)
    (popped.1 ++ merged.1, merged.2)
  | none => (popped.1, .undefined)

/-- The two blocks that `select` and `select_range` share, with their lock
events: the selection in the IOV pool of the requested type in the scope of
`locked_action(m_poolLock)` (lines 411-416, 429-434), then the selection in
the update pool in the scope of `locked_action(m_updateLock)` (lines 417-420,
435-438).  `none`: an access was undefined. -/
def Manager_Type1.selectBlocks (s : State) (key : Nat) (req_validity : IOV)
    (conditions : List Addr) : List LockEvent × Option (List Addr) :=
  let fromPools : List LockEvent × Option (List Addr) :=
    withLock .pool ([],
      if req_validity.type < s.m_rawPool.length then
        match s.m_rawPool.getD req_validity.type none with
        | some p => some (conditions ++ s.selectInPools (s.iovPools p).elements key req_validity)
        | none => none
      else none)
  match fromPools.2 with
  | some conditions1 =>
    let fromUpdates : List LockEvent × Option (List Addr) :=
      withLock .update ([],
        match s.m_updatePool with
        | some pending => some (conditions1 ++ s.selectInUpdates pending key req_validity)
        | none => none)
    (fromPools.1 ++ fromUpdates.1, fromUpdates.2)
  | none => (fromPools.1, none)

/-- The call `select` (lines 408-422) with its lock events; the result is
computed at line 421, outside the two blocks. -/
def Manager_Type1.select_traced (s : State) (key : Nat) (req_validity : IOV)
    (conditions : List Addr) : List LockEvent × Outcome (Bool × List Addr) :=
  let blocks := Manager_Type1.selectBlocks s key req_validity conditions
  match blocks.2 with
  | some conditions2 => (blocks.1, .ok (!conditions2.isEmpty, conditions2) s)
  | none => (blocks.1, .undefined)

/-- The call `select_range` (lines 425-440) with its lock events; the range
check of line 439 runs outside the two blocks. -/
def Manager_Type1.select_range_traced (s : State) (key : Nat) (req_validity : IOV)
    (conditions : List Addr) : List LockEvent × Outcome (Bool × List Addr) :=
  let blocks := Manager_Type1.selectBlocks s key req_validity conditions
  match blocks.2 with
  | some conditions2 =>
    (blocks.1, .ok (is_range_complete req_validity (conditions2.map s.conds), conditions2) s)
  | none => (blocks.1, .undefined)

/-- Modelled from the spec: `ConditionsManagerObject::registerIOV(const IOV&)`
(not among the sources), as the overload of the handle: it forwards to
`registerIOV(typ, key)`, whose lock events are those of the call. -/
def ConditionsManager.registerIOV_traced (s : State) (iov : IOV) :
    List LockEvent × Outcome (Option Addr) :=
  match iov.iovType with
  | some typ => Manager_Type1.registerIOV_traced s typ iov.key
  | none => ([], .raised .invalidIOV s)

/-- Modelled from the spec: the entry `cond::Entry` of a loaded condition
(declared in a header that is not among the sources), as far as
`__queue_update` reads it: the detector element and the name, both by their
keys, the value and the validity. -/
structure Entry where
  detector : Nat
  name : Nat
  value : String
  validity : IOV

/-- Set a single conditions value to be managed (lines 290-320; "Requires
external lock on update pool!"), with the lock events of the call: those of
`registerIOV` at line 293.  The new condition object is allocated at the
next free address; the result of `p->insert(c)` is not looked at. -/
def Manager_Type1.__queue_update_traced (s : State) (e : Option Entry) :
    List LockEvent × Outcome Condition :=
  match e with
  | some e =>
    let registered := ConditionsManager.registerIOV_traced s e.validity
    match registered.2 with
    | .ok (some p) s1 =>
      let c := s1.next
      let object : ConditionObject :=
        { hash := ConditionKey.hash e.detector e.name, value := e.value,
          iov := (s1.pools p).iov, flags := 0 }
      let s2 := { s1 with conds := Function.update s1.conds c object, next := s1.next + 1 }
      (registered.1, .ok (some c) (s2.poolInsert p c).2)
    | .ok none _ => (registered.1, .undefined)
    | .raised err s1 => (registered.1, .raised err s1)
    | .undefined => (registered.1, .undefined)
  | none => ([], .ok none s)

/-! ## Globally registered actions (`Geant4Kernel.cpp`) -/

/-- Modelled from the spec: `Geant4Action` (declared in `DDG4/Geant4Action.h`,
not among the sources), as far as the kernel uses it: the name returned by
`name()` and the reference count incremented by `addRef()`. -/
structure Geant4Action where
  m_name : String
  m_refCount : Nat
  deriving DecidableEq, Repr

/-- The members of `Geant4Kernel` for the global actions and filters (maps
name -> action pointer), with the store of the action objects. -/
structure Geant4Kernel where
  m_globalActions : List (String × Addr)
  m_globalFilters : List (String × Addr)
  actions : Addr → Geant4Action

/-- The `runtime_error`s of the global action registry. -/
inductive KernelError where
  /-- Message "The action ... is already globally registered." -/
  | actionAlreadyRegistered
  /-- Message "Attempt to globally register an invalid action." -/
  | actionInvalid
  /-- Message "The action ... is not already globally registered." -/
  | actionMissing
  deriving DecidableEq, Repr

/-- The outcome of an operation of the kernel: a normal return or an
exception, with the kernel reached. -/
inductive KernelOutcome (α : Type) where
  | ok (value : α) (k : Geant4Kernel)
  | raised (e : KernelError) (k : Geant4Kernel)

/-- The value of a normal return. -/
def KernelOutcome.value? {α : Type} : KernelOutcome α → Option α
  | .ok v _ => some v
  | .raised _ _ => none

/-- The error of an exceptional return. -/
def KernelOutcome.error? {α : Type} : KernelOutcome α → Option KernelError
  | .ok _ _ => none
  | .raised e _ => some e

/-- The call `action->addRef()`. -/
def Geant4Kernel.addRef (k : Geant4Kernel) (action : Addr) : Geant4Kernel :=
  let counted : Geant4Action :=
    { k.actions action with m_refCount := (k.actions action).m_refCount + 1 }
  { k with actions := Function.update k.actions action counted }

/-- Register action by name to be retrieved when setting up and connecting
action objects (Geant4Kernel.cpp, lines 174-193).  The argument is the
(nullable) pointer to the action. -/
def Geant4Kernel.registerGlobalAction (k : Geant4Kernel) (action : Option Addr) :
    KernelOutcome Unit :=
  match action with
  | some a =>
    let nam := (k.actions a).m_name
    match k.m_globalActions.lookup nam with
    | none =>
      let k1 := k.addRef a
      .ok () { k1 with m_globalActions := k1.m_globalActions ++ [(nam, a)] }
    | some _ => .raised .actionAlreadyRegistered k
  | none => .raised .actionInvalid k

/-- Retrieve action from repository (Geant4Kernel.cpp, lines 195-206). -/
def Geant4Kernel.globalAction (k : Geant4Kernel) (action_name : String)
    (throw_if_not_present : Bool) : KernelOutcome (Option Addr) :=
  match k.m_globalActions.lookup action_name with
  | none =>
    if throw_if_not_present then .raised .actionMissing k
    else .ok none k
  | some a => .ok (some a) k

/-! ## Vocabulary of the statements about the manager -/

/-- The state after the slot `iov_index` has been written and its IOV pool allocated. -/
def State.withIOVType (s : State) (iov_index : Nat) (iov_name : String) : State :=
  { s with
    m_iovTypes := s.m_iovTypes.set iov_index { type := iov_index, name := iov_name }
    m_rawPool := s.m_rawPool.set iov_index (some s.next)
    iovPools := Function.update s.iovPools s.next
      { type := some { type := iov_index, name := iov_name }, elements := [] }
    next := s.next + 1 }

/-- The state after a new conditions pool for `key` has been created and
entered into the IOV pool at `a`. -/
def State.withPool (s : State) (a : Addr) (typ : IOVType) (key : Key) : State :=
  { s with
    pools := Function.update s.pools s.next
      { iov := some { iovType := some typ, type := typ.type, keyData := key }, entries := [], age_value := 0 }
    iovPools := Function.update s.iovPools a
      { s.iovPools a with elements := (s.iovPools a).elements ++ [(key, s.next)] }
    next := s.next + 1 }

/-- The conditions pools entered in the IOV pool at `a` are allocated and
pairwise different objects. -/
def State.ElementsWF (s : State) (a : Addr) : Prop :=
  (∀ e ∈ (s.iovPools a).elements, e.2 < s.next) ∧
  ((s.iovPools a).elements.map Prod.snd).Nodup

/-- The default-constructed IOV type used in the examples: an index that is
no slot of the table, and the empty name. -/
def unknownIOVType : IOVType := { type := 4294967295, name := "" }

/-- A manager with 32 slots on which IOV type "run" is registered at index 0. -/
def runManager : State :=
  ((Manager_Type1.registerIOVType (Manager_Type1.create 32 unknownIOVType) 0 "run").state?).getD
    (Manager_Type1.create 32 unknownIOVType)

/-- A state in which the pool at address 0 already holds the condition at
address 1 under the hash 7, the condition at address 2 carries the same
hash, and one listener is registered. -/
def duplicateKeyState : State :=
  { Manager_Type1.create 32 unknownIOVType with
    m_onRegister := [(5, 0)]
    pools := fun p =>
      if p = 0 then
        { iov := some { iovType := none, type := 0, keyData := ⟨1, 10⟩ }, entries := [(7, 1)], age_value := 0 }
      else { iov := none, entries := [], age_value := 0 }
    conds := fun c =>
      if c = 1 then { hash := 7, value := "first", iov := none, flags := 0 }
      else if c = 2 then { hash := 7, value := "second", iov := none, flags := 0 }
      else { hash := 0, value := "", iov := none, flags := 0 }
    next := 3 }

/-- The state of an outcome, or `fallback` where there is none. -/
def Outcome.stateOr {α : Type} (o : Outcome α) (fallback : State) : State :=
  o.state?.getD fallback

/-- The IOV type "run" at index 0. -/
def runType : IOVType := { type := 0, name := "run" }

/-- The manager `runManager` after `initialize()`, and two condition objects
of a client at the addresses 100 ("C1") and 101 ("C2"), both with the
hash key `0xAABB`. -/
def scenarioObjects : State :=
  { Manager_Type1.initialize runManager with
    conds := fun c =>
      if c = 100 then { hash := 0xAABB, value := "C1", iov := none, flags := 0 }
      else if c = 101 then { hash := 0xAABB, value := "C2", iov := none, flags := 0 }
      else { hash := 0, value := "", iov := none, flags := 0 } }

/-- The scenario with the conditions pools for the key ranges `[1,10]` (at
address 1) and `[11,20]` (at address 2) registered. -/
def scenarioPools : State :=
  (Manager_Type1.registerIOV
    ((Manager_Type1.registerIOV scenarioObjects runType ⟨1, 10⟩).stateOr scenarioObjects)
    runType ⟨11, 20⟩).stateOr scenarioObjects

/-- The scenario with "C1" registered into the pool of `[1,10]`. -/
def scenarioFirst : State :=
  (Manager_Type1.registerUnlocked scenarioPools 1 (some 100)).stateOr scenarioPools

/-- The scenario with "C1" registered into the pool of `[1,10]` and "C2" into
the pool of `[11,20]`. -/
def scenarioState : State :=
  (Manager_Type1.registerUnlocked scenarioFirst 2 (some 101)).stateOr scenarioFirst

/-- The scenario with "C1" registered into the pool of `[1,10]` and then,
the same object, into the pool of `[11,20]`. -/
def sharedConditionState : State :=
  (Manager_Type1.registerUnlocked scenarioFirst 2 (some 100)).stateOr scenarioFirst

/-- A user pool of the scenario: bound to the IOV `[1,10]` of type "run",
without conditions. -/
def scenarioUserPool : UserPool :=
  { m_iov := { iovType := some runType, type := 0, keyData := ⟨1, 10⟩ },
    m_iovPool := some 0, entries := [] }

/-- A prepared slice of the scenario, with the user pool `scenarioUserPool`. -/
def scenarioSlice : ConditionsSlice :=
  { manager := 0, content := none, pool := some scenarioUserPool }

/-- A slice that was never prepared: it has no user pool. -/
def unpreparedSlice : ConditionsSlice := { manager := 0, content := none, pool := none }

/-- The condition at address `c` is contained in no pool other than `pool`. -/
def State.NotElsewhere (s : State) (pool c : Addr) : Prop :=
  ∀ q k, (k, c) ∈ (s.pools q).entries → q = pool

/-- The pool/condition invariant: every condition contained in a pool has
the IOV of that pool, and no condition is contained in two pools. -/
def State.PoolInvariant (s : State) : Prop :=
  (∀ p k c, (k, c) ∈ (s.pools p).entries → (s.conds c).iov = (s.pools p).iov) ∧
  (∀ p q k1 k2 c, (k1, c) ∈ (s.pools p).entries → (k2, c) ∈ (s.pools q).entries → p = q)

/-- The states reachable from a manager whose pools hold no condition by
`registerIOVType`, `registerIOV`, `registerUnlocked` and `blockRegister`,
where a valid condition `c` may be registered into `pool` in the state `s`
if `admissible s pool c` holds.  A state at a throw counts as reached. -/
inductive Reachable (admissible : State → Addr → Addr → Prop) : State → Prop where
  | empty (s : State) (h : ∀ p, (s.pools p).entries = []) : Reachable admissible s
  | registerIOVType (s s1 : State) (iov_index : Nat) (iov_name : String)
      (h : Reachable admissible s)
      (hstep : (Manager_Type1.registerIOVType s iov_index iov_name).state? = some s1) :
      Reachable admissible s1
  | registerIOV (s s1 : State) (typ : IOVType) (key : Key)
      (h : Reachable admissible s)
      (hstep : (Manager_Type1.registerIOV s typ key).state? = some s1) :
      Reachable admissible s1
  | registerUnlocked (s s1 : State) (pool : Addr) (cond : Condition)
      (h : Reachable admissible s)
      (hadm : ∀ c, cond = some c → admissible s pool c)
      (hstep : (Manager_Type1.registerUnlocked s pool cond).state? = some s1) :
      Reachable admissible s1
  | blockRegister (s s1 : State) (pool : Addr) (batch : List Condition)
      (h : Reachable admissible s)
      (hadm : ∀ c, some c ∈ batch → admissible s pool c)
      (hstep : (Manager_Type1.blockRegister s pool batch).state? = some s1) :
      Reachable admissible s1

/-- The type a requested IOV refers to in the IOV check: the type it points
to or, without such a pointer, the registered type of its index. -/
def State.resolveType (s : State) (iov : IOV) : Option IOVType :=
  match iov.iovType with
  | some t => some t
  | none =>
    match s.m_iovTypes[iov.type]? with
    | some typ => if typ.type == iov.type then some typ else none
    | none => none

/-- The requested IOV passes the IOV check of `prepare` and `load`: the type
it refers to exists, carries the type index of the IOV and has an allocated
IOV pool, and the IOV is discrete. -/
def State.CheckPasses (s : State) (iov : IOV) : Prop :=
  ∃ typ a, s.resolveType iov = some typ ∧ iov.type = typ.type ∧
    s.m_rawPool[typ.type]? = some (some a) ∧ iov.keyData.first = iov.keyData.second

/-- The mirror image `[-s, -f]` of a range `[f, s]`. -/
def Key.mirror (k : Key) : Key := ⟨-k.second, -k.first⟩

/-- The mirror image of an IOV: the same type, the mirrored range. -/
def IOV.mirror (iov : IOV) : IOV := { iov with keyData := iov.keyData.mirror }

/-- The mirror image of a candidate: the same object with the mirrored IOV. -/
def ConditionObject.mirror (c : ConditionObject) : ConditionObject :=
  { c with iov := c.iov.map IOV.mirror }

/-- The conditions pools that the pool table leads to: the elements of the
allocated IOV pools, in the order of the table. -/
def State.visited (s : State) : List Addr :=
  (s.m_rawPool.filterMap id).flatMap fun p => (s.iovPools p).elements.map Prod.snd

/-- The number of conditions held in the given conditions pools, every pool
counted once. -/
def State.pooledCount (s : State) (pools : List Addr) : Nat :=
  (pools.dedup.map fun q => (s.pools q).entries.length).sum

/-- The state in which the given conditions pools hold no condition and
everything else is as in `s`. -/
def State.emptied (s : State) (pools : List Addr) : State :=
  { s with pools := fun q => if q ∈ pools then { s.pools q with entries := [] } else s.pools q }

/-- A kernel with one registered action `"run"` (object 7, referenced once),
an unregistered action `"event"` (object 8) and one registered filter. -/
def scenarioKernel : Geant4Kernel where
  m_globalActions := [("run", 7)]
  m_globalFilters := [("cut", 9)]
  actions := fun a =>
    if a = 7 then { m_name := "run", m_refCount := 1 }
    else if a = 8 then { m_name := "event", m_refCount := 0 }
    else { m_name := "cut", m_refCount := 1 }

/-- A manager of 32 slots in which only the type `(3, "run")` is registered. -/
def oneTypeState : State :=
  (Manager_Type1.registerIOVType (Manager_Type1.create 32 unknownIOVType) 3 "run").stateOr
    (Manager_Type1.create 32 unknownIOVType)

/-- A loaded condition for the key range `[21,30]` of the IOV type "run". -/
def scenarioEntry : Entry :=
  { detector := 1, name := 2, value := "C3",
    validity := { iovType := some runType, type := 0, keyData := ⟨21, 30⟩ } }

/-! ## The window of the range check -/

/-- The low edge after the updates of one candidate. -/
theorem windowStep_first (t k : Key) :
    (windowStep t k).first = if k.first ≤ t.first + 1 ∧ k.second ≥ t.first then k.second else t.first := by
  unfold windowStep highEdge lowEdge
  split_ifs <;> simp_all

/-- The low edge never moves down. -/
theorem windowStep_first_le (t k : Key) : t.first ≤ (windowStep t k).first := by
  rw [windowStep_first]; split_ifs with h <;> omega

/-- The high edge never moves up. -/
theorem windowStep_second_le (t k : Key) : (windowStep t k).second ≤ t.second := by
  unfold windowStep highEdge lowEdge
  split_ifs <;> simp_all <;> omega

/-- Over a pass the low edge does not move down and the high edge does not move up. -/
theorem innerPass_first_le : ∀ (ks : List ConditionObject) (t t' : Key),
    innerPass t ks = some t' → t.first ≤ t'.first ∧ t'.second ≤ t.second
  | [], t, t', h => by
    simp only [innerPass, Option.some.injEq] at h
    subst h; exact ⟨le_refl _, le_refl _⟩
  | c :: rest, t, t', h => by
    simp only [innerPass] at h
    split_ifs at h with hge
    have ih := innerPass_first_le rest _ _ h
    have h1 := windowStep_first_le t c.key
    have h2 := windowStep_second_le t c.key
    exact ⟨by omega, by omega⟩

/-- A pass that runs to its end over a non-empty candidate list leaves an open window. -/
theorem innerPass_open : ∀ (ks : List ConditionObject) (t t' : Key), ks ≠ [] →
    innerPass t ks = some t' → t'.first < t'.second
  | [], _, _, hne, _ => absurd rfl hne
  | c :: rest, t, t', _, h => by
    simp only [innerPass] at h
    split_ifs at h with hge
    cases rest with
    | nil =>
      simp only [innerPass, Option.some.injEq] at h
      subst h; omega
    | cons d rest' => exact innerPass_open (d :: rest') _ _ (by simp) h

/-! ## What a `true` answer of the range check establishes -/

/-- The initial window satisfies the invariant. -/
theorem windowInv_init (lo hi : Int) (conditions : List ConditionObject) :
    WindowInv lo hi conditions ⟨lo, hi⟩ :=
  ⟨fun x h1 h2 => absurd h2 (by simp; omega), Or.inl rfl⟩

/-- The updates of one candidate keep the invariant. -/
theorem windowInv_step {lo hi : Int} {conditions : List ConditionObject} {t : Key}
    {c : ConditionObject} (hc : c ∈ conditions) (hinv : WindowInv lo hi conditions t) :
    WindowInv lo hi conditions (windowStep t c.key) := by
  obtain ⟨hlow, hhigh⟩ := hinv
  unfold windowStep highEdge lowEdge
  split_ifs with h1 h2 h2
  · refine ⟨fun x hx1 hx2 => ?_, Or.inr fun x hx1 hx2 => ?_⟩
    · simp at hx2
      by_cases hx : x ≤ t.first
      · exact hlow x hx1 hx
      · exact ⟨c, hc, by omega, by omega⟩
    · simp at hx1 h2
      by_cases hx : x ≤ t.second
      · exact ⟨c, hc, by omega, by omega⟩
      · rcases hhigh with hh | hh
        · omega
        · exact hh x (by omega) hx2
  · refine ⟨fun x hx1 hx2 => ?_, ?_⟩
    · simp at hx2
      by_cases hx : x ≤ t.first
      · exact hlow x hx1 hx
      · exact ⟨c, hc, by omega, by omega⟩
    · simpa using hhigh
  · refine ⟨fun x hx1 hx2 => ?_, Or.inr fun x hx1 hx2 => ?_⟩
    · simp at hx2
      exact hlow x hx1 hx2
    · simp at hx1
      by_cases hx : x ≤ t.second
      · exact ⟨c, hc, by omega, by omega⟩
      · rcases hhigh with hh | hh
        · omega
        · exact hh x (by omega) hx2
  · exact ⟨hlow, hhigh⟩

/-- A closed window under the invariant: everything in `(lo,hi]` is covered. -/
theorem windowInv_closed {lo hi : Int} {conditions : List ConditionObject} {t : Key}
    (hinv : WindowInv lo hi conditions t) (hge : t.first ≥ t.second) :
    ∀ x, lo < x → x ≤ hi → Covered conditions x := by
  intro x hx1 hx2
  obtain ⟨hlow, hhigh⟩ := hinv
  rcases hhigh with hh | hh
  · exact hlow x hx1 (by omega)
  · by_cases hx : x ≤ t.first
    · exact hlow x hx1 hx
    · exact hh x (by omega) hx2

/-- A pass keeps the invariant, and a `true` inside it proves the coverage of `(lo, hi]`. -/
theorem innerPass_sound (lo hi : Int) (conditions : List ConditionObject) :
    ∀ (ks : List ConditionObject) (t : Key), (∀ c ∈ ks, c ∈ conditions) →
      WindowInv lo hi conditions t →
      (innerPass t ks = none → ∀ x, lo < x → x ≤ hi → Covered conditions x) ∧
      (∀ t', innerPass t ks = some t' → WindowInv lo hi conditions t')
  | [], t, _, hinv => by
    refine ⟨fun h => by simp [innerPass] at h, fun t' h => ?_⟩
    simp only [innerPass, Option.some.injEq] at h
    subst h; exact hinv
  | c :: rest, t, hsub, hinv => by
    have hstep := windowInv_step (hsub c (List.mem_cons_self _ _)) hinv
    have ih := innerPass_sound lo hi conditions rest (windowStep t c.key)
      (fun d hd => hsub d (List.mem_cons_of_mem _ hd)) hstep
    simp only [innerPass]
    split_ifs with hge
    · exact ⟨fun _ => windowInv_closed hstep hge, fun t' h => by simp at h⟩
    · exact ih

/-- A `true` of the loop proves the coverage of `(lo, hi]`. -/
theorem rangeLoop_sound {iov : Key} {conditions : List ConditionObject} :
    ∀ (passes : Nat) (t : Key), WindowInv iov.first iov.second conditions t →
      rangeLoop iov conditions passes t = true →
      ∀ x, iov.first < x → x ≤ iov.second → Covered conditions x
  | 0, _, _, h => by simp [rangeLoop] at h
  | passes + 1, t, hinv, h => by
    have hs := innerPass_sound iov.first iov.second conditions conditions t (fun _ hc => hc) hinv
    simp only [rangeLoop] at h
    cases hp : innerPass t conditions with
    | none => exact hs.1 hp
    | some t' =>
      rw [hp] at h
      simp only at h
      split_ifs at h with hstop
      exact rangeLoop_sound passes t' (hs.2 t' hp) h

/-- What a `true` answer of the range check establishes: there is a
candidate, and every integer of `(lo, hi]` lies in the range of a candidate. -/
theorem is_range_complete_true_covers (iov : IOV) (conditions : List ConditionObject)
    (h : is_range_complete iov conditions = true) :
    conditions ≠ [] ∧
      ∀ x, iov.keyData.first < x → x ≤ iov.keyData.second → Covered conditions x := by
  unfold is_range_complete at h
  split_ifs at h with hne
  exact ⟨hne, rangeLoop_sound _ _ (windowInv_init _ _ _) h⟩

/-! ## When the range check answers `true` -/

/-- After a pass that ran to its end, the low edge is at or above the high
end of every candidate that started at or below the old low edge plus one. -/
theorem innerPass_reach : ∀ (ks : List ConditionObject) (t t' : Key),
    innerPass t ks = some t' →
    ∀ c ∈ ks, c.key.first ≤ t.first + 1 → c.key.second ≤ t'.first
  | [], _, _, _, c, hc, _ => by simp at hc
  | d :: rest, t, t', h, c, hc, hf => by
    simp only [innerPass] at h
    split_ifs at h with hge
    have hmono := innerPass_first_le rest _ _ h
    have hstep := windowStep_first_le t d.key
    rcases List.mem_cons.mp hc with rfl | hin
    · have hfirst := windowStep_first t c.key
      split_ifs at hfirst with hcond <;> omega
    · exact innerPass_reach rest _ _ h c hin (by omega)

/-- A predicate that holds wherever another holds, and somewhere else too, counts more. -/
theorem countP_lt_countP {α : Type} (p q : α → Bool) : ∀ (l : List α),
    (∀ a ∈ l, p a = true → q a = true) → (∃ a ∈ l, p a = false ∧ q a = true) →
    l.countP p < l.countP q
  | [], _, ⟨a, ha, _⟩ => by simp at ha
  | b :: rest, hmono, ⟨a, ha, hpa, hqa⟩ => by
    have hrest : rest.countP p ≤ rest.countP q :=
      List.countP_mono_left fun x hx => hmono x (List.mem_cons_of_mem _ hx)
    rcases List.mem_cons.mp ha with rfl | hin
    · simp [List.countP_cons, hpa, hqa]; omega
    · have ih := countP_lt_countP p q rest
        (fun x hx => hmono x (List.mem_cons_of_mem _ hx)) ⟨a, hin, hpa, hqa⟩
      have hb := hmono b (List.mem_cons_self _ _)
      simp only [List.countP_cons]
      by_cases hpb : p b = true
      · simp [hpb, hb hpb]; omega
      · by_cases hqb : q b = true
        · simp [hpb, hqb]; omega
        · simp [hpb, hqb]; omega

/-- With `(lo, hi]` covered, every pass that runs to its end absorbs a
candidate more; so the loop answers `true` before the passes run out. -/
theorem rangeLoop_complete {iov : Key} {conditions : List ConditionObject}
    (hne : conditions ≠ [])
    (hcov : ∀ x, iov.first < x → x ≤ iov.second → Covered conditions x) :
    ∀ (passes : Nat) (t : Key), iov.first ≤ t.first → t.second ≤ iov.second →
      t.first < t.second → conditions.length ≤ absorbed conditions t + passes →
      rangeLoop iov conditions passes t = true
  | 0, t, h1, h2, h3, hlen => by
    exfalso
    obtain ⟨c, hc, _, hc2⟩ := hcov iov.second (by omega) (le_refl _)
    have hlt : absorbed conditions t < conditions.countP fun _ => true :=
      countP_lt_countP _ _ conditions (fun _ _ _ => rfl)
        ⟨c, hc, by simp; omega, rfl⟩
    simp at hlt
    omega
  | passes + 1, t, h1, h2, h3, hlen => by
    simp only [rangeLoop]
    cases hp : innerPass t conditions with
    | none => rfl
    | some t' =>
      simp only
      have hopen := innerPass_open conditions t t' hne hp
      have hmono := innerPass_first_le conditions t t' hp
      obtain ⟨c, hc, hc1, hc2⟩ := hcov (t.first + 1) (by omega) (by omega)
      have hreach := innerPass_reach conditions t t' hp c hc hc1
      have hlt : absorbed conditions t < absorbed conditions t' :=
        countP_lt_countP _ _ conditions
          (fun a _ ha => by simp at ha ⊢; omega)
          ⟨c, hc, by simp; omega, by simp; omega⟩
      rw [if_neg (by omega)]
      exact rangeLoop_complete hne hcov passes t' (by omega) (by omega) hopen (by omega)

/-- With at least one candidate and every integer of `(lo, hi]` inside the
range of a candidate, the loop answers `true` within as many passes as there
are candidates. -/
theorem rangeLoop_true_of_covered (iov : Key) (conditions : List ConditionObject)
    (hne : conditions ≠ [])
    (hcov : ∀ x, iov.first < x → x ≤ iov.second → Covered conditions x)
    (passes : Nat) (hpasses : conditions.length ≤ passes) :
    rangeLoop iov conditions passes iov = true := by
  by_cases hlt : iov.first < iov.second
  · exact rangeLoop_complete hne hcov passes iov (le_refl _) (le_refl _) hlt (by omega)
  · cases conditions with
    | nil => exact absurd rfl hne
    | cons c rest =>
      cases passes with
      | zero => simp at hpasses
      | succ n =>
        have h1 := windowStep_first_le iov c.key
        have h2 := windowStep_second_le iov c.key
        simp only [rangeLoop, innerPass]
        rw [if_pos (by omega)]

/-- With a candidate and `(lo, hi]` covered, the range check answers `true`. -/
theorem is_range_complete_of_covered (iov : IOV) (conditions : List ConditionObject)
    (hne : conditions ≠ [])
    (hcov : ∀ x, iov.keyData.first < x → x ≤ iov.keyData.second → Covered conditions x) :
    is_range_complete iov conditions = true := by
  unfold is_range_complete
  rw [if_pos hne]
  exact rangeLoop_true_of_covered _ _ hne hcov _ (le_refl _)

/-- The answer of the range check in closed form. -/
theorem is_range_complete_iff (iov : IOV) (conditions : List ConditionObject) :
    is_range_complete iov conditions = true ↔
      conditions ≠ [] ∧
        ∀ x, iov.keyData.first < x → x ≤ iov.keyData.second → Covered conditions x :=
  ⟨is_range_complete_true_covers iov conditions,
   fun h => is_range_complete_of_covered iov conditions h.1 h.2⟩

/-! ## The range check: soundness, completeness, order of the candidates -/

/-- The example of a gap: wanted `[1,10]` with the candidates `[1,4]` and
`[6,10]` is answered `false`. -/
theorem is_range_complete_gap_example :
    is_range_complete (requestIOV 1 10) [condWithRange 1 4, condWithRange 6 10] = false := by
  decide

/-- C1: the range check answers `true` for the request `[1,10]` with the single
candidate `[2,10]`, although the integer `1` of the request lies in no
candidate range: a candidate that starts at `lo+1` moves the low edge of the
initial window. -/
theorem is_range_complete_uncovered_low_end :
    is_range_complete (requestIOV 1 10) [condWithRange 2 10] = true ∧
    ¬ Covered [condWithRange 2 10] 1 := by
  refine ⟨by decide, ?_⟩
  rintro ⟨c, hc, h1, -⟩
  rw [List.mem_singleton.mp hc] at h1
  revert h1
  decide

/-- C2: completeness of the range check.  For a request `[lo,hi]` with
`lo <= hi` and candidates that each carry a key range `[f,s]` with `f <= s`,
if every integer of `[lo,hi]` lies in the range of a candidate, then
`is_range_complete` answers `true` for the candidates in every order. -/
theorem is_range_complete_complete (iov : IOV) (conditions : List ConditionObject)
    (hiov : iov.keyData.first ≤ iov.keyData.second)
    (_hkeys : ∀ c ∈ conditions, ∃ i, c.iov = some i ∧ i.keyData.first ≤ i.keyData.second)
    (hcov : ∀ x, iov.keyData.first ≤ x → x ≤ iov.keyData.second → Covered conditions x)
    (ordered : List ConditionObject) (hperm : ordered.Perm conditions) :
    is_range_complete iov ordered = true := by
  apply is_range_complete_of_covered
  · obtain ⟨c, hc, -⟩ := hcov iov.keyData.first (le_refl _) hiov
    exact List.ne_nil_of_mem (hperm.mem_iff.mpr hc)
  · intro x hx1 hx2
    obtain ⟨c, hc, hc1, hc2⟩ := hcov x (le_of_lt hx1) hx2
    exact ⟨c, hperm.mem_iff.mpr hc, hc1, hc2⟩

/-- The fragments `[1,4]`, `[4,7]`, `[7,10]` cover every integer of `[1,10]`. -/
theorem fragments_cover (x : Int) (h1 : 1 ≤ x) (h2 : x ≤ 10) :
    Covered [condWithRange 1 4, condWithRange 4 7, condWithRange 7 10] x := by
  by_cases ha : x ≤ 4
  · exact ⟨condWithRange 1 4, by simp, h1, ha⟩
  · by_cases hb : x ≤ 7
    · exact ⟨condWithRange 4 7, by simp, by show (4 : Int) ≤ x; omega, hb⟩
    · exact ⟨condWithRange 7 10, by simp, by show (7 : Int) ≤ x; omega, h2⟩

/-- Every one of the fragments `[1,4]`, `[4,7]`, `[7,10]` carries an IOV with
`first <= second`. -/
theorem fragments_keys :
    ∀ c ∈ [condWithRange 1 4, condWithRange 4 7, condWithRange 7 10],
      ∃ i, c.iov = some i ∧ i.keyData.first ≤ i.keyData.second := by
  intro c hc
  simp only [List.mem_cons, List.mem_singleton, List.not_mem_nil, or_false] at hc
  rcases hc with rfl | rfl | rfl <;> exact ⟨_, rfl, by decide⟩

/-- C2 (witness): wanted `[1,10]` with the fragments `[1,4]`, `[4,7]`, `[7,10]`
in each of their six orders is answered `true`. -/
theorem is_range_complete_complete_witness :
    is_range_complete (requestIOV 1 10) [condWithRange 1 4, condWithRange 4 7, condWithRange 7 10] = true ∧
    is_range_complete (requestIOV 1 10) [condWithRange 1 4, condWithRange 7 10, condWithRange 4 7] = true ∧
    is_range_complete (requestIOV 1 10) [condWithRange 4 7, condWithRange 1 4, condWithRange 7 10] = true ∧
    is_range_complete (requestIOV 1 10) [condWithRange 4 7, condWithRange 7 10, condWithRange 1 4] = true ∧
    is_range_complete (requestIOV 1 10) [condWithRange 7 10, condWithRange 1 4, condWithRange 4 7] = true ∧
    is_range_complete (requestIOV 1 10) [condWithRange 7 10, condWithRange 4 7, condWithRange 1 4] = true :=
  ⟨is_range_complete_complete _ _ (by decide) fragments_keys fragments_cover _ (by decide),
   is_range_complete_complete _ _ (by decide) fragments_keys fragments_cover _ (by decide),
   is_range_complete_complete _ _ (by decide) fragments_keys fragments_cover _ (by decide),
   is_range_complete_complete _ _ (by decide) fragments_keys fragments_cover _ (by decide),
   is_range_complete_complete _ _ (by decide) fragments_keys fragments_cover _ (by decide),
   is_range_complete_complete _ _ (by decide) fragments_keys fragments_cover _ (by decide)⟩

/-- C3: order independence of the range check.  For every requested IOV and
every two candidate lists that are permutations of each other,
`is_range_complete` returns the same boolean. -/
theorem is_range_complete_perm (iov : IOV) (l1 l2 : List ConditionObject)
    (hperm : l1.Perm l2) :
    is_range_complete iov l1 = is_range_complete iov l2 := by
  rw [Bool.eq_iff_iff, is_range_complete_iff, is_range_complete_iff]
  constructor
  · rintro ⟨hne, hcov⟩
    refine ⟨fun h => hne (List.Perm.eq_nil (h ▸ hperm)), fun x hx1 hx2 => ?_⟩
    obtain ⟨c, hc, hc1, hc2⟩ := hcov x hx1 hx2
    exact ⟨c, hperm.mem_iff.mp hc, hc1, hc2⟩
  · rintro ⟨hne, hcov⟩
    refine ⟨fun h => hne (List.Perm.eq_nil (h ▸ hperm.symm)), fun x hx1 hx2 => ?_⟩
    obtain ⟨c, hc, hc1, hc2⟩ := hcov x hx1 hx2
    exact ⟨c, hperm.mem_iff.mpr hc, hc1, hc2⟩

/-- C3 (witness): the candidates `[6,10]`, `[1,4]` and the same candidates in
the other order get the same answer for the request `[1,10]`. -/
theorem is_range_complete_perm_witness :
    is_range_complete (requestIOV 1 10) [condWithRange 6 10, condWithRange 1 4] =
      is_range_complete (requestIOV 1 10) [condWithRange 1 4, condWithRange 6 10] :=
  is_range_complete_perm _ _ _ (List.Perm.swap _ _ _)

/-! ## Registration of IOV types -/

/-- A slot that holds this index and this name: the call returns the type
with the flag false and changes nothing. -/
theorem registerIOVType_existing (s : State) (iov_index : Nat) (iov_name : String) (typ : IOVType)
    (h : s.m_iovTypes[iov_index]? = some typ)
    (htype : typ.type = iov_index) (hname : typ.name = iov_name) :
    Manager_Type1.registerIOVType s iov_index iov_name = .ok (false, some typ) s := by
  unfold Manager_Type1.registerIOVType
  rw [h]
  simp [htype, hname]

/-- A slot that passes both checks is written, and its IOV pool allocated. -/
theorem registerIOVType_written (s : State) (iov_index : Nat) (iov_name : String) (typ : IOVType)
    (h : s.m_iovTypes[iov_index]? = some typ) (hraw : iov_index < s.m_rawPool.length)
    (hnot : ¬ (typ.type = iov_index ∧ typ.name = iov_name))
    (hguard : ¬ (typ.type ≠ 0 ∧ typ.type = iov_index ∧ typ.name ≠ iov_name)) :
    Manager_Type1.registerIOVType s iov_index iov_name =
      .ok (true, some { type := iov_index, name := iov_name }) (s.withIOVType iov_index iov_name) := by
  unfold Manager_Type1.registerIOVType
  rw [h]
  have h1 : ¬ ((typ.type == iov_index && typ.name == iov_name) = true) := by
    simpa using hnot
  have h2 : ¬ ((typ.type != 0 && typ.type == iov_index && !(typ.name == iov_name)) = true) := by
    simpa [and_assoc] using hguard
  simp only [h1, h2, if_false, hraw, if_true, State.newIOVPool]
  rfl

/-- The outcomes of `registerIOVType`, case by case. -/
theorem registerIOVType_cases (s : State) (iov_index : Nat) (iov_name : String) :
    (∃ typ, s.m_iovTypes[iov_index]? = some typ ∧ typ.type = iov_index ∧ typ.name = iov_name ∧
      Manager_Type1.registerIOVType s iov_index iov_name = .ok (false, some typ) s) ∨
    (iov_index < s.m_iovTypes.length ∧
      Manager_Type1.registerIOVType s iov_index iov_name =
        .ok (true, some { type := iov_index, name := iov_name }) (s.withIOVType iov_index iov_name)) ∨
    (∃ e, Manager_Type1.registerIOVType s iov_index iov_name = .raised e s) ∨
    Manager_Type1.registerIOVType s iov_index iov_name = .undefined := by
  cases h : s.m_iovTypes[iov_index]? with
  | none =>
    refine Or.inr (Or.inr (Or.inl ⟨.outOfBounds, ?_⟩))
    unfold Manager_Type1.registerIOVType
    rw [h]
  | some typ =>
    have hlt : iov_index < s.m_iovTypes.length := by
      by_contra hn
      rw [List.getElem?_eq_none (by omega)] at h
      cases h
    by_cases hsame : typ.type = iov_index ∧ typ.name = iov_name
    · exact Or.inl ⟨typ, rfl, hsame.1, hsame.2, registerIOVType_existing s _ _ typ h hsame.1 hsame.2⟩
    · have h1 : ¬ ((typ.type == iov_index && typ.name == iov_name) = true) := by
        simpa using hsame
      by_cases hguard : typ.type ≠ 0 ∧ typ.type = iov_index ∧ typ.name ≠ iov_name
      · refine Or.inr (Or.inr (Or.inl ⟨.typeInUse, ?_⟩))
        unfold Manager_Type1.registerIOVType
        rw [h]
        have h2 : (typ.type != 0 && typ.type == iov_index && !(typ.name == iov_name)) = true := by
          simpa [and_assoc] using hguard
        simp [h1, h2]
      · by_cases hraw : iov_index < s.m_rawPool.length
        · exact Or.inr (Or.inl ⟨hlt, registerIOVType_written s _ _ typ h hraw hsame hguard⟩)
        · refine Or.inr (Or.inr (Or.inr ?_))
          unfold Manager_Type1.registerIOVType
          rw [h]
          have h2 : ¬ ((typ.type != 0 && typ.type == iov_index && !(typ.name == iov_name)) = true) := by
            simpa [and_assoc] using hguard
          simp [h1, h2, hraw]

/-- The two tables of a new manager have `maxIOVTypes` slots each. -/
theorem create_tables (maxIOVTypes : Nat) (dflt : IOVType) :
    (Manager_Type1.create maxIOVTypes dflt).m_iovTypes.length = maxIOVTypes ∧
    (Manager_Type1.create maxIOVTypes dflt).m_rawPool.length = maxIOVTypes := by
  simp [Manager_Type1.create]

/-- The registration of an IOV type keeps the sizes of the two tables. -/
theorem registerIOVType_tables (s s1 : State) (iov_index : Nat) (iov_name : String)
    (v : Bool × Option IOVType)
    (h : Manager_Type1.registerIOVType s iov_index iov_name = .ok v s1) :
    s1.m_iovTypes.length = s.m_iovTypes.length ∧ s1.m_rawPool.length = s.m_rawPool.length := by
  rcases registerIOVType_cases s iov_index iov_name with
    ⟨t, -, -, -, hres⟩ | ⟨-, hres⟩ | ⟨e, hres⟩ | hres
  · rw [hres] at h
    simp only [Outcome.ok.injEq] at h
    rw [← h.2]
    exact ⟨rfl, rfl⟩
  · rw [hres] at h
    simp only [Outcome.ok.injEq] at h
    rw [← h.2]
    simp [State.withIOVType]
  · rw [hres] at h; cases h
  · rw [hres] at h; cases h

/-- C4 (counterexample): on a manager with IOV type "run" registered at index 0
(and its IOV pool at address 0), the registration of index 0 under the name
"time" raises nothing: it returns a new type, the slot is renamed and the
slot of the IOV pool points to a new pool. -/
theorem registerIOVType_index_zero_no_conflict :
    runManager.m_iovTypes[0]? = some { type := 0, name := "run" } ∧
    runManager.m_rawPool[0]? = some (some 0) ∧
    (Manager_Type1.registerIOVType runManager 0 "time").error? = none ∧
    (Manager_Type1.registerIOVType runManager 0 "time").value? =
      some (true, some { type := 0, name := "time" }) ∧
    ((Manager_Type1.registerIOVType runManager 0 "time").state?.map fun s => s.m_iovTypes[0]?) =
      some (some { type := 0, name := "time" }) ∧
    ((Manager_Type1.registerIOVType runManager 0 "time").state?.map fun s => s.m_rawPool[0]?) =
      some (some (some 1)) := by
  refine ⟨?_, ?_, ?_, ?_, ?_, ?_⟩ <;> decide

/-- C4 (amended): for every index other than 0 that is below the capacity and
registered with the name `n`, the registration of that index under a name
`m` different from `n` raises the configuration error, and the state (the
registered type, its IOV pool, all pools) is left as it was. -/
theorem registerIOVType_conflict (s : State) (iov_index : Nat) (n m : String)
    (hpos : 0 < iov_index)
    (hreg : s.m_iovTypes[iov_index]? = some { type := iov_index, name := n })
    (hne : m ≠ n) :
    Manager_Type1.registerIOVType s iov_index m = .raised .typeInUse s := by
  unfold Manager_Type1.registerIOVType
  rw [hreg]
  have h0 : iov_index ≠ 0 := by omega
  have hnm : ¬ n = m := fun e => hne e.symm
  simp [h0, hnm]

/-- C4 (witness): index 3 registered as "time", then requested as "lumi". -/
theorem registerIOVType_conflict_witness :
    Manager_Type1.registerIOVType
      ((Manager_Type1.registerIOVType runManager 3 "time").state?.getD runManager) 3 "lumi" =
    .raised .typeInUse ((Manager_Type1.registerIOVType runManager 3 "time").state?.getD runManager) :=
  registerIOVType_conflict _ 3 "time" "lumi" (by decide) (by decide) (by decide)

/-- C5: idempotence of the type registration.  After a successful
`registerIOVType(index, name)`, a second call with the same index and name
returns the same type with the flag "newly created" false and leaves the
whole state unchanged: no type, no pool, no allocation. -/
theorem registerIOVType_idempotent (s s1 : State) (iov_index : Nat) (iov_name : String)
    (created : Bool) (typ : Option IOVType)
    (hfirst : Manager_Type1.registerIOVType s iov_index iov_name = .ok (created, typ) s1) :
    Manager_Type1.registerIOVType s1 iov_index iov_name = .ok (false, typ) s1 := by
  rcases registerIOVType_cases s iov_index iov_name with
    ⟨t, h, htype, hname, hres⟩ | ⟨h, hres⟩ | ⟨e, hres⟩ | hres
  · rw [hres] at hfirst
    simp only [Outcome.ok.injEq, Prod.mk.injEq] at hfirst
    obtain ⟨⟨-, rfl⟩, rfl⟩ := hfirst
    exact registerIOVType_existing s _ _ t h htype hname
  · rw [hres] at hfirst
    simp only [Outcome.ok.injEq, Prod.mk.injEq] at hfirst
    obtain ⟨⟨-, rfl⟩, rfl⟩ := hfirst
    exact registerIOVType_existing _ iov_index iov_name _
      (by simp [State.withIOVType, h]) rfl rfl
  · rw [hres] at hfirst; cases hfirst
  · rw [hres] at hfirst; cases hfirst

/-- C5 (witness): on a new manager with 32 slots, IOV type "run" is registered
at index 0; the second registration returns the same type with the flag
false and leaves the state as it is. -/
theorem registerIOVType_idempotent_witness :
    Manager_Type1.registerIOVType runManager 0 "run" =
      .ok (false, some { type := 0, name := "run" }) runManager :=
  registerIOVType_idempotent (Manager_Type1.create 32 unknownIOVType) runManager 0 "run" true
    (some { type := 0, name := "run" }) (by rfl)

/-- C6: capacity limit.  On a manager whose two tables have `N` slots, the
registration of a slot that does not hold its own index succeeds when
`index < N`: it returns `(true, type(index, name))`, writes the slot and
allocates an empty IOV pool for that index, touching no other pool; for
`index >= N` it raises and leaves the state unchanged. -/
theorem registerIOVType_capacity (s : State) (iov_index : Nat) (iov_name : String)
    (hsize : s.m_rawPool.length = s.m_iovTypes.length)
    (hfree : ∀ typ, s.m_iovTypes[iov_index]? = some typ → typ.type ≠ iov_index) :
    (iov_index < s.m_iovTypes.length →
      ∃ s1, Manager_Type1.registerIOVType s iov_index iov_name =
          .ok (true, some { type := iov_index, name := iov_name }) s1 ∧
        s1.m_iovTypes = s.m_iovTypes.set iov_index { type := iov_index, name := iov_name } ∧
        s1.m_rawPool = s.m_rawPool.set iov_index (some s.next) ∧
        s1.m_rawPool[iov_index]? = some (some s.next) ∧
        s1.iovPools s.next = { type := some { type := iov_index, name := iov_name }, elements := [] } ∧
        (∀ a, a ≠ s.next → s1.iovPools a = s.iovPools a) ∧
        s1.pools = s.pools ∧ s1.conds = s.conds ∧ s1.next = s.next + 1) ∧
    (s.m_iovTypes.length ≤ iov_index →
      Manager_Type1.registerIOVType s iov_index iov_name = .raised .outOfBounds s) := by
  constructor
  · intro h
    have hget : s.m_iovTypes[iov_index]? = some s.m_iovTypes[iov_index] := List.getElem?_eq_getElem h
    have hf := hfree _ hget
    have hraw : iov_index < s.m_rawPool.length := by omega
    refine ⟨s.withIOVType iov_index iov_name, ?_, rfl, rfl, ?_, ?_, ?_, rfl, rfl, rfl⟩
    · exact registerIOVType_written s _ _ _ hget hraw (fun hh => hf hh.1) (fun hh => hf hh.2.1)
    · simp [State.withIOVType, hraw]
    · simp [State.withIOVType]
    · intro a ha
      simp [State.withIOVType, Function.update_noteq ha]
  · intro h
    unfold Manager_Type1.registerIOVType
    rw [List.getElem?_eq_none h]

/-- No slot of a new manager holds its own index. -/
theorem create_slot_free (n iov_index : Nat) (typ : IOVType)
    (h : (Manager_Type1.create n unknownIOVType).m_iovTypes[iov_index]? = some typ)
    (hsmall : iov_index < 4294967295) : typ.type ≠ iov_index := by
  simp only [Manager_Type1.create, List.getElem?_replicate] at h
  split_ifs at h
  simp only [Option.some.injEq] at h
  rw [← h]
  simp only [unknownIOVType]
  omega

/-- C6 (witness): on a new manager with 32 slots the registration at index 31
succeeds and allocates the IOV pool of that index; the registration at index
32 raises and leaves the state as it is. -/
theorem registerIOVType_capacity_witness :
    (∃ s1, Manager_Type1.registerIOVType (Manager_Type1.create 32 unknownIOVType) 31 "run" =
        .ok (true, some { type := 31, name := "run" }) s1 ∧
      s1.m_rawPool[31]? = some (some 0) ∧
      s1.iovPools 0 = { type := some { type := 31, name := "run" }, elements := [] }) ∧
    Manager_Type1.registerIOVType (Manager_Type1.create 32 unknownIOVType) 32 "run" =
      .raised .outOfBounds (Manager_Type1.create 32 unknownIOVType) := by
  constructor
  · obtain ⟨s1, h1, -, -, h2, h3, -⟩ :=
      (registerIOVType_capacity (Manager_Type1.create 32 unknownIOVType) 31 "run" (by decide)
        (fun typ h => create_slot_free 32 31 typ h (by decide))).1 (by decide)
    exact ⟨s1, h1, h2, h3⟩
  · exact (registerIOVType_capacity (Manager_Type1.create 32 unknownIOVType) 32 "run" (by decide)
      (fun typ h => create_slot_free 32 32 typ h (by decide))).2 (by decide)

/-! ## Registration of IOV pools -/

/-- A key that has its pool: the pool is returned, nothing changes. -/
theorem registerIOV_found (s : State) (typ : IOVType) (a p : Addr) (key : Key)
    (hreg : s.m_rawPool[typ.type]? = some (some a))
    (hfind : (s.iovPools a).find key = some p) :
    Manager_Type1.registerIOV s typ key = .ok (some p) s := by
  have hlt : typ.type < s.m_rawPool.length := by
    by_contra hn
    rw [List.getElem?_eq_none (by omega)] at hreg
    cases hreg
  unfold Manager_Type1.registerIOV
  rw [if_pos hlt]
  simp [List.getD, hreg, hfind]

/-- A key without a pool: a new pool is created at the next free address. -/
theorem registerIOV_created (s : State) (typ : IOVType) (a : Addr) (key : Key)
    (hreg : s.m_rawPool[typ.type]? = some (some a))
    (hfind : (s.iovPools a).find key = none) :
    Manager_Type1.registerIOV s typ key = .ok (some s.next) (s.withPool a typ key) := by
  have hlt : typ.type < s.m_rawPool.length := by
    by_contra hn
    rw [List.getElem?_eq_none (by omega)] at hreg
    cases hreg
  unfold Manager_Type1.registerIOV
  rw [if_pos hlt]
  simp [List.getD, hreg, hfind, State.newConditionsPool]
  rfl

/-- The IOV pool allocated by the registration of an IOV type has no
elements, so its invariant holds. -/
theorem withIOVType_elementsWF (s : State) (iov_index : Nat) (iov_name : String) :
    (s.withIOVType iov_index iov_name).ElementsWF s.next := by
  constructor
  · intro e he
    simp [State.withIOVType] at he
  · simp [State.withIOVType]

/-- The invariant on the elements of an IOV pool survives `registerIOV`. -/
theorem registerIOV_preserves_wf (s s1 : State) (typ : IOVType) (a : Addr) (key : Key)
    (p : Option Addr)
    (hreg : s.m_rawPool[typ.type]? = some (some a)) (hwf : s.ElementsWF a)
    (h : Manager_Type1.registerIOV s typ key = .ok p s1) : s1.ElementsWF a := by
  cases hfind : (s.iovPools a).find key with
  | some q =>
    rw [registerIOV_found s typ a q key hreg hfind] at h
    simp only [Outcome.ok.injEq] at h
    rw [← h.2]; exact hwf
  | none =>
    rw [registerIOV_created s typ a key hreg hfind] at h
    simp only [Outcome.ok.injEq] at h
    rw [← h.2]
    constructor
    · intro e he
      have he' : e ∈ (s.iovPools a).elements ++ [(key, s.next)] := by
        simpa [State.withPool] using he
      have hnext : (s.withPool a typ key).next = s.next + 1 := rfl
      rw [hnext]
      rcases List.mem_append.mp he' with he1 | he1
      · exact Nat.lt_succ_of_lt (hwf.1 e he1)
      · rw [List.mem_singleton.mp he1]; exact Nat.lt_succ_self _
    · simp only [State.withPool, Function.update_same, List.map_append, List.map_cons,
        List.map_nil]
      rw [List.nodup_append]
      refine ⟨hwf.2, List.nodup_singleton _, ?_⟩
      intro x hx hx'
      simp only [List.mem_singleton] at hx'
      subst hx'
      obtain ⟨e, he, hes⟩ := List.mem_map.mp hx
      have hlt : e.2 < s.next := hwf.1 e he
      rw [hes] at hlt
      exact Nat.lt_irrefl _ hlt

/-- The branch of `registerUnlocked` for a valid condition. -/
theorem registerUnlocked_valid (s : State) (pool c : Addr) :
    Manager_Type1.registerUnlocked s pool (some c) =
      .ok true
        (let s3 := (((s.setCondIOV c (s.pools pool).iov).setFlag c Condition.ACTIVE).poolInsert pool c).2
         if s3.m_onRegister ≠ [] then s3.callListeners s3.m_onRegister c else s3) := rfl

/-- C8: postcondition of `registerUnlocked`.  For every pool and every valid
condition whose key is not yet in the pool, the call returns `true`;
afterwards the IOV of the condition is the IOV of the pool, the flag
`ACTIVE` is set and no other flag bit has changed, `get` of the key yields
the condition, and every other entry of the pool, every other condition
object and every other pool is unchanged. -/
theorem registerUnlocked_postcondition (s : State) (pool c : Addr)
    (hfresh : (s.pools pool).get (s.conds c).hash = none) :
    ∃ s1, Manager_Type1.registerUnlocked s pool (some c) = .ok true s1 ∧
      (s1.conds c).iov = (s.pools pool).iov ∧
      (s1.pools pool).iov = (s.pools pool).iov ∧
      (s1.conds c).flags = (s.conds c).flags ||| Condition.ACTIVE ∧
      (s1.conds c).flags &&& Condition.ACTIVE = Condition.ACTIVE ∧
      (∀ i, Condition.ACTIVE.testBit i = false →
        (s1.conds c).flags.testBit i = (s.conds c).flags.testBit i) ∧
      (s1.conds c).hash = (s.conds c).hash ∧
      (s1.conds c).value = (s.conds c).value ∧
      (s1.pools pool).get (s.conds c).hash = some c ∧
      (s1.pools pool).entries = (s.pools pool).entries ++ [((s.conds c).hash, c)] ∧
      (∀ k, k ≠ (s.conds c).hash → (s1.pools pool).get k = (s.pools pool).get k) ∧
      (∀ d, d ≠ c → s1.conds d = s.conds d) ∧
      (∀ p, p ≠ pool → s1.pools p = s.pools p) := by
  have hget : (s.pools pool).entries.lookup (s.conds c).hash = none := hfresh
  refine ⟨_, registerUnlocked_valid s pool c, ?_⟩
  have hins : ((s.pools pool).insert (s.conds c).hash c) =
      (true, { s.pools pool with entries := (s.pools pool).entries ++ [((s.conds c).hash, c)] }) := by
    simp [ConditionsPool.insert, hfresh]
  have key : ∀ s3 : State,
      s3 = (((s.setCondIOV c (s.pools pool).iov).setFlag c Condition.ACTIVE).poolInsert pool c).2 →
      ∀ s1 : State, s1.conds = s3.conds → s1.pools = s3.pools →
      (s1.conds c).iov = (s.pools pool).iov ∧
      (s1.pools pool).iov = (s.pools pool).iov ∧
      (s1.conds c).flags = (s.conds c).flags ||| Condition.ACTIVE ∧
      (s1.conds c).flags &&& Condition.ACTIVE = Condition.ACTIVE ∧
      (∀ i, Condition.ACTIVE.testBit i = false →
        (s1.conds c).flags.testBit i = (s.conds c).flags.testBit i) ∧
      (s1.conds c).hash = (s.conds c).hash ∧
      (s1.conds c).value = (s.conds c).value ∧
      (s1.pools pool).get (s.conds c).hash = some c ∧
      (s1.pools pool).entries = (s.pools pool).entries ++ [((s.conds c).hash, c)] ∧
      (∀ k, k ≠ (s.conds c).hash → (s1.pools pool).get k = (s.pools pool).get k) ∧
      (∀ d, d ≠ c → s1.conds d = s.conds d) ∧
      (∀ p, p ≠ pool → s1.pools p = s.pools p) := by
    intro s3 hs3 s1 hc hp
    have hconds : s3.conds = Function.update s.conds c
        { s.conds c with iov := (s.pools pool).iov, flags := (s.conds c).flags ||| Condition.ACTIVE } := by
      rw [hs3]
      simp [State.poolInsert, State.setFlag, State.setCondIOV]
    have hpools : s3.pools = Function.update s.pools pool
        { s.pools pool with entries := (s.pools pool).entries ++ [((s.conds c).hash, c)] } := by
      rw [hs3]
      simp [State.poolInsert, State.setFlag, State.setCondIOV, hins]
    rw [hc, hp, hconds, hpools]
    simp only [Function.update_same]
    refine ⟨trivial, trivial, trivial, ?_, ?_, trivial, trivial, ?_, trivial, ?_, ?_, ?_⟩
    · apply Nat.eq_of_testBit_eq
      intro i
      simp only [Nat.testBit_and, Nat.testBit_or]
      cases (s.conds c).flags.testBit i <;> cases Condition.ACTIVE.testBit i <;> rfl
    · intro i hi
      simp [Nat.testBit_or, hi]
    · simp [ConditionsPool.get, List.lookup_append, hget]
    · intro k hk
      have hb : (k == (s.conds c).hash) = false := by simpa using hk
      simp only [ConditionsPool.get, List.lookup_append]
      have : ([((s.conds c).hash, c)] : List (Nat × Addr)).lookup k = none := by
        simp [List.lookup_cons, hb]
      rw [this]
      cases (s.pools pool).entries.lookup k <;> rfl
    · intro d hd
      exact Function.update_noteq hd _ _
    · intro p hp
      exact Function.update_noteq hp _ _
  by_cases hl : (((s.setCondIOV c (s.pools pool).iov).setFlag c Condition.ACTIVE).poolInsert pool c).2.m_onRegister ≠ []
  · simp only []
    rw [if_pos hl]
    exact key _ rfl _ rfl rfl
  · simp only []
    rw [if_neg hl]
    exact key _ rfl _ rfl rfl

/-- C8 (witness): the condition at address 3 (hash 0) is registered in the pool
at address 0, which holds the hash 7 only. -/
theorem registerUnlocked_postcondition_witness :
    ∃ s1, Manager_Type1.registerUnlocked duplicateKeyState 0 (some 3) = .ok true s1 ∧
      (s1.conds 3).iov = (duplicateKeyState.pools 0).iov ∧
      (s1.conds 3).flags &&& Condition.ACTIVE = Condition.ACTIVE ∧
      (s1.pools 0).get (duplicateKeyState.conds 3).hash = some 3 := by
  obtain ⟨s1, h1, h2, -, -, h3, -, -, -, h4, -⟩ :=
    registerUnlocked_postcondition duplicateKeyState 0 3 (by decide)
  exact ⟨s1, h1, h2, h3, h4⟩

/-- C9: an invalid (null) condition is rejected atomically: `registerUnlocked`
raises, and the state at the throw is the state before the call: nothing was
inserted, no listener was called, no pool and no condition was changed. -/
theorem registerUnlocked_invalid (s : State) (pool : Addr) :
    Manager_Type1.registerUnlocked s pool none = .raised .invalidCondition s := rfl

/-- The listener calls of `registerUnlocked` for a valid condition. -/
theorem registerUnlocked_calls (s : State) (pool c : Addr) :
    ∃ s1, Manager_Type1.registerUnlocked s pool (some c) = .ok true s1 ∧
      s1.m_onRegister = s.m_onRegister ∧
      s1.calls = s.calls ++ s.m_onRegister.map fun l => (l, c) := by
  refine ⟨_, registerUnlocked_valid s pool c, ?_⟩
  have hm : (((s.setCondIOV c (s.pools pool).iov).setFlag c Condition.ACTIVE).poolInsert pool c).2.m_onRegister
      = s.m_onRegister := rfl
  have hcalls : (((s.setCondIOV c (s.pools pool).iov).setFlag c Condition.ACTIVE).poolInsert pool c).2.calls
      = s.calls := rfl
  simp only [hm]
  by_cases hl : s.m_onRegister = []
  · simp [hl, hm, hcalls]
  · simp [hl, hm, hcalls, State.callListeners]

/-- One step of the loop of `blockRegister` is `registerUnlocked`. -/
theorem blockRegisterLoop_cons (pool : Addr) (s : State) (c : Addr) (rest : List Condition)
    (result : Nat) (s1 : State)
    (h : Manager_Type1.registerUnlocked s pool (some c) = .ok true s1) :
    Manager_Type1.blockRegisterLoop pool s (some c :: rest) result =
      Manager_Type1.blockRegisterLoop pool s1 rest (result + 1) := by
  rw [registerUnlocked_valid] at h
  simp only [Outcome.ok.injEq, true_and] at h
  rw [← h]
  rfl

/-- The listener calls of the loop of `blockRegister` over valid conditions. -/
theorem blockRegisterLoop_calls (pool : Addr) : ∀ (batch : List Addr) (s : State) (result : Nat),
    ∃ s1, Manager_Type1.blockRegisterLoop pool s (batch.map some) result =
        .ok (result + batch.length) s1 ∧
      s1.m_onRegister = s.m_onRegister ∧
      s1.calls = s.calls ++ batch.flatMap fun c => s.m_onRegister.map fun l => (l, c)
  | [], s, result => ⟨s, rfl, rfl, by simp⟩
  | c :: rest, s, result => by
    obtain ⟨s1, h1, hm1, hc1⟩ := registerUnlocked_calls s pool c
    obtain ⟨s2, h2, hm2, hc2⟩ := blockRegisterLoop_calls pool rest s1 (result + 1)
    refine ⟨s2, ?_, hm2.trans hm1, ?_⟩
    · rw [List.map_cons, blockRegisterLoop_cons pool s c _ result s1 h1, h2]
      simp only [List.length_cons]
      congr 1
      omega
    · rw [hc2, hc1, hm1, List.flatMap_cons, List.append_assoc]

/-- C10 (counterexample): the pool at address 0 holds the hash 7 already, the
condition at address 2 has the hash 7.  The insert of the pool rejects it and
the entries of the pool stay as they are, but `registerUnlocked` returns
`true` and the registered listener has been called for this condition. -/
theorem registerUnlocked_listener_after_rejected_insert :
    ((duplicateKeyState.pools 0).insert (duplicateKeyState.conds 2).hash 2).1 = false ∧
    (Manager_Type1.registerUnlocked duplicateKeyState 0 (some 2)).value? = some true ∧
    ((Manager_Type1.registerUnlocked duplicateKeyState 0 (some 2)).state?.map fun s =>
      (s.pools 0).entries) = some [(7, 1)] ∧
    ((Manager_Type1.registerUnlocked duplicateKeyState 0 (some 2)).state?.map fun s => s.calls) =
      some [((5, 0), 2)] := by
  refine ⟨?_, ?_, ?_, ?_⟩ <;> decide

/-- C10 (amended): for every pool, valid condition and listener set,
`registerUnlocked` calls every registered listener exactly once for the
condition, and `blockRegister` on a batch of valid conditions calls every
registered listener exactly once per condition of the batch, in the order of
the batch: whether the insert of the pool accepted the condition or not. -/
theorem register_calls_listeners (s : State) (pool : Addr) :
    (∀ c : Addr, ∃ s1, Manager_Type1.registerUnlocked s pool (some c) = .ok true s1 ∧
      s1.calls = s.calls ++ s.m_onRegister.map fun l => (l, c)) ∧
    (∀ batch : List Addr, ∃ s1,
      Manager_Type1.blockRegister s pool (batch.map some) = .ok batch.length s1 ∧
      s1.calls = s.calls ++ batch.flatMap fun c => s.m_onRegister.map fun l => (l, c)) := by
  constructor
  · intro c
    obtain ⟨s1, h1, -, h2⟩ := registerUnlocked_calls s pool c
    exact ⟨s1, h1, h2⟩
  · intro batch
    obtain ⟨s1, h1, -, h2⟩ := blockRegisterLoop_calls pool batch s 0
    refine ⟨s1, ?_, h2⟩
    unfold Manager_Type1.blockRegister
    rw [h1, Nat.zero_add]

/-! ## A batch of conditions with an invalid one -/

/-- The state after `registerUnlocked` for a valid condition, member by member. -/
theorem registerUnlocked_fields (s : State) (pool c : Addr) :
    ∃ s1, Manager_Type1.registerUnlocked s pool (some c) = .ok true s1 ∧
      s1.conds = Function.update s.conds c
        { s.conds c with iov := (s.pools pool).iov, flags := (s.conds c).flags ||| Condition.ACTIVE } ∧
      s1.pools = Function.update s.pools pool ((s.pools pool).insert (s.conds c).hash c).2 ∧
      s1.iovPools = s.iovPools ∧ s1.m_rawPool = s.m_rawPool ∧ s1.m_iovTypes = s.m_iovTypes ∧
      s1.m_onRegister = s.m_onRegister ∧ s1.m_updatePool = s.m_updatePool ∧ s1.next = s.next := by
  refine ⟨_, registerUnlocked_valid s pool c, ?_⟩
  have hconds : (((s.setCondIOV c (s.pools pool).iov).setFlag c Condition.ACTIVE).poolInsert pool c).2.conds =
      Function.update s.conds c
        { s.conds c with iov := (s.pools pool).iov, flags := (s.conds c).flags ||| Condition.ACTIVE } := by
    simp [State.poolInsert, State.setFlag, State.setCondIOV]
  have hpools : (((s.setCondIOV c (s.pools pool).iov).setFlag c Condition.ACTIVE).poolInsert pool c).2.pools =
      Function.update s.pools pool ((s.pools pool).insert (s.conds c).hash c).2 := by
    simp [State.poolInsert, State.setFlag, State.setCondIOV]
  by_cases hl : (((s.setCondIOV c (s.pools pool).iov).setFlag c Condition.ACTIVE).poolInsert pool c).2.m_onRegister ≠ []
  · simp only []
    rw [if_pos hl]
    exact ⟨hconds, hpools, rfl, rfl, rfl, rfl, rfl, rfl⟩
  · simp only []
    rw [if_neg hl]
    exact ⟨hconds, hpools, rfl, rfl, rfl, rfl, rfl, rfl⟩

/-- The insert of a pool leaves its IOV alone. -/
theorem ConditionsPool.insert_iov (pool : ConditionsPool) (key : Nat) (c : Addr) :
    (pool.insert key c).2.iov = pool.iov := by
  unfold ConditionsPool.insert
  cases pool.get key <;> rfl

/-- The entries of a pool after an insert: the old entries, and at most the
new one. -/
theorem ConditionsPool.mem_insert (pool : ConditionsPool) (key : Nat) (c : Addr) (e : Nat × Addr)
    (h : e ∈ (pool.insert key c).2.entries) : e ∈ pool.entries ∨ e = (key, c) := by
  unfold ConditionsPool.insert at h
  cases hget : pool.get key with
  | some d => rw [hget] at h; exact Or.inl h
  | none =>
    rw [hget] at h
    simp only [List.mem_append, List.mem_singleton] at h
    exact h

/-- The example of a batch with an invalid condition: in the scenario with
two pools the batch ("C1", invalid, "C2") for the pool of `[1,10]` raises;
"C1" is registered and in the pool, "C2" is untouched. -/
theorem blockRegister_first_invalid_example :
    (Manager_Type1.blockRegister scenarioPools 1 [some 100, none, some 101]).error? =
      some .invalidCondition ∧
    ((Manager_Type1.blockRegister scenarioPools 1 [some 100, none, some 101]).state?.map fun s =>
      ((s.pools 1).entries, (s.conds 100).flags, (s.conds 101))) =
      some ([(0xAABB, 100)], 1, scenarioPools.conds 101) := by
  constructor <;> decide

/-! ## `pushUpdates` -/

/-- The loop of `pushUpdates` over entries without conditions returns. -/
theorem pushUpdatesLoop_empty : ∀ (entries : UpdatePool) (s : State),
    (∀ e ∈ entries, e.2 = []) → Manager_Type1.pushUpdatesLoop s entries = .ok () s
  | [], _, _ => rfl
  | (k, ents) :: rest, s, h => by
    have hhead : ents = [] := h (k, ents) (List.mem_cons_self _ _)
    subst hhead
    simp only [Manager_Type1.pushUpdatesLoop]
    exact pushUpdatesLoop_empty rest s fun e he => h e (List.mem_cons_of_mem _ he)

/-- The loop of `pushUpdates` over entries with a condition raises, with the
flag `ACTIVE` set on one staged condition and nothing else changed. -/
theorem pushUpdatesLoop_staged : ∀ (entries : UpdatePool) (s : State),
    (∃ e ∈ entries, e.2 ≠ []) →
    ∃ c, (∃ e ∈ entries, c ∈ e.2) ∧
      Manager_Type1.pushUpdatesLoop s entries =
        .raised .neverEndUpHere (s.setFlag c Condition.ACTIVE)
  | [], _, ⟨e, he, _⟩ => by simp at he
  | (k, []) :: rest, s, ⟨e, he, hne⟩ => by
    have hrest : ∃ e ∈ rest, e.2 ≠ [] := by
      rcases List.mem_cons.mp he with h | h
      · subst h; exact absurd rfl hne
      · exact ⟨e, h, hne⟩
    obtain ⟨c, ⟨e', he', hc⟩, hres⟩ := pushUpdatesLoop_staged rest s hrest
    refine ⟨c, ⟨e', List.mem_cons_of_mem _ he', hc⟩, ?_⟩
    simp only [Manager_Type1.pushUpdatesLoop]
    exact hres
  | (k, c :: more) :: rest, s, _ =>
    ⟨c, ⟨(k, c :: more), List.mem_cons_self _ _, List.mem_cons_self _ _⟩, rfl⟩

/-- C12: `pushUpdates` on a manager with an update pool raises exactly when the
drained update pool holds a staged condition (an entry with a non-empty
list), and returns normally when every staged list is empty.  In both cases
the update pool is drained and no IOV type, no IOV pool and no conditions
pool is modified; when it raises, the one object touched is a staged
condition, whose flag `ACTIVE` is set. -/
theorem pushUpdates_raises_iff_staged (s : State) (entries : UpdatePool)
    (hup : s.m_updatePool = some entries) :
    ((∃ e ∈ entries, e.2 ≠ []) →
      ∃ c s1, (∃ e ∈ entries, c ∈ e.2) ∧
        Manager_Type1.pushUpdates s = .raised .neverEndUpHere s1 ∧
        s1.pools = s.pools ∧ s1.iovPools = s.iovPools ∧ s1.m_rawPool = s.m_rawPool ∧
        s1.m_iovTypes = s.m_iovTypes ∧ s1.m_updatePool = some [] ∧
        (∀ d, d ≠ c → s1.conds d = s.conds d) ∧
        s1.conds c = { s.conds c with flags := (s.conds c).flags ||| Condition.ACTIVE }) ∧
    ((∀ e ∈ entries, e.2 = []) →
      ∃ s1, Manager_Type1.pushUpdates s = .ok () s1 ∧
        s1.pools = s.pools ∧ s1.iovPools = s.iovPools ∧ s1.m_rawPool = s.m_rawPool ∧
        s1.m_iovTypes = s.m_iovTypes ∧ s1.m_updatePool = some [] ∧ s1.conds = s.conds) := by
  constructor
  · intro hstaged
    obtain ⟨c, hc, hres⟩ :=
      pushUpdatesLoop_staged entries { s with m_updatePool := some [] } hstaged
    refine ⟨c, State.setFlag { s with m_updatePool := some [] } c Condition.ACTIVE, hc, ?_,
      rfl, rfl, rfl, rfl, rfl, ?_, ?_⟩
    · unfold Manager_Type1.pushUpdates
      rw [hup]
      exact hres
    · intro d hd
      simp [State.setFlag, Function.update_noteq hd]
    · simp [State.setFlag]
  · intro hempty
    refine ⟨{ s with m_updatePool := some [] }, ?_, rfl, rfl, rfl, rfl, rfl, rfl⟩
    unfold Manager_Type1.pushUpdates
    rw [hup]
    exact pushUpdatesLoop_empty entries _ hempty

/-- A state with staged conditions: the scenario with the condition "C2"
staged in the update pool under the key range `[11,20]`, behind an entry
without conditions. -/
theorem pushUpdates_raises_iff_staged_witness :
    ∃ c s1, (∃ e ∈ [((⟨1, 10⟩ : Key), ([] : List Addr)), (⟨11, 20⟩, [101])], c ∈ e.2) ∧
      Manager_Type1.pushUpdates
        { scenarioFirst with m_updatePool := some [(⟨1, 10⟩, []), (⟨11, 20⟩, [101])] } =
        .raised .neverEndUpHere s1 ∧
      s1.pools = scenarioFirst.pools ∧ s1.iovPools = scenarioFirst.iovPools ∧
      s1.m_updatePool = some [] := by
  obtain ⟨c, s1, h1, h2, h3, h4, -, -, h5, -⟩ :=
    (pushUpdates_raises_iff_staged
      { scenarioFirst with m_updatePool := some [(⟨1, 10⟩, []), (⟨11, 20⟩, [101])] }
      [(⟨1, 10⟩, []), (⟨11, 20⟩, [101])] rfl).1 ⟨(⟨11, 20⟩, [101]), by decide, by decide⟩
  exact ⟨c, s1, h1, h2, h3, h4, h5⟩

/-! ## Selection -/

/-- What `selectInPools` finds: the conditions held under `key` by the pools
whose key range overlaps the requested IOV. -/
theorem mem_selectInPools (s : State) (elements : List (Key × Addr)) (key : Nat) (req : IOV)
    (c : Addr) :
    c ∈ s.selectInPools elements key req ↔
      ∃ e ∈ elements, e.1.overlaps req.keyData = true ∧ (s.pools e.2).get key = some c := by
  unfold State.selectInPools
  rw [List.mem_filterMap]
  constructor
  · rintro ⟨e, he, h⟩
    by_cases ho : e.1.overlaps req.keyData = true
    · rw [if_pos ho] at h
      exact ⟨e, he, ho, h⟩
    · rw [if_neg ho] at h
      cases h
  · rintro ⟨e, he, ho, h⟩
    exact ⟨e, he, by rw [if_pos ho]; exact h⟩

/-- What `selectInUpdates` finds: the pending conditions with the hash `key`
in the entries whose key range overlaps the requested IOV. -/
theorem mem_selectInUpdates (s : State) (pending : UpdatePool) (key : Nat) (req : IOV)
    (c : Addr) :
    c ∈ s.selectInUpdates pending key req ↔
      ∃ e ∈ pending, e.1.overlaps req.keyData = true ∧ c ∈ e.2 ∧ (s.conds c).hash = key := by
  unfold State.selectInUpdates
  rw [List.mem_flatMap]
  constructor
  · rintro ⟨e, he, h⟩
    by_cases ho : e.1.overlaps req.keyData = true
    · rw [if_pos ho, List.mem_filter] at h
      exact ⟨e, he, ho, h.1, by simpa using h.2⟩
    · rw [if_neg ho] at h
      cases h
  · rintro ⟨e, he, ho, hc, hk⟩
    refine ⟨e, he, ?_⟩
    rw [if_pos ho, List.mem_filter]
    exact ⟨hc, by simpa using hk⟩

/-- The flag `!conditions.empty()`. -/
theorem not_isEmpty_iff {α : Type} (l : List α) : (!l.isEmpty) = true ↔ l ≠ [] := by
  cases l <;> simp

/-- Three sequences in a row are non-empty when one of them is. -/
theorem append3_ne_nil {α : Type} (a b c : List α) :
    a ++ b ++ c ≠ [] ↔ a ≠ [] ∨ b ≠ [] ∨ c ≠ [] := by
  cases a <;> cases b <;> cases c <;> simp

/-- A non-empty sequence has an element. -/
theorem ne_nil_iff_exists_mem {α : Type} (l : List α) : l ≠ [] ↔ ∃ c, c ∈ l := by
  cases l with
  | nil => simp
  | cons a rest => simp

/-- The result of `select` on a manager with the IOV pool of the requested
type allocated and an update pool. -/
theorem select_eq (s : State) (key : Nat) (req : IOV) (out : List Addr) (p : Addr)
    (pending : UpdatePool)
    (hreg : s.m_rawPool[req.type]? = some (some p)) (hup : s.m_updatePool = some pending) :
    Manager_Type1.select s key req out =
      .ok (!(out ++ s.selectInPools (s.iovPools p).elements key req ++
              s.selectInUpdates pending key req).isEmpty,
           out ++ s.selectInPools (s.iovPools p).elements key req ++
              s.selectInUpdates pending key req) s := by
  have hlt : req.type < s.m_rawPool.length := by
    by_contra hn
    rw [List.getElem?_eq_none (by omega)] at hreg
    cases hreg
  unfold Manager_Type1.select
  rw [if_pos hlt]
  simp [List.getD, hreg, hup]

/-- A defined `select` had the IOV pool of the requested type and the update
pool at hand. -/
theorem select_defined (s s1 : State) (key : Nat) (req : IOV) (out : List Addr)
    (v : Bool × List Addr) (h : Manager_Type1.select s key req out = .ok v s1) :
    ∃ p pending, s.m_rawPool[req.type]? = some (some p) ∧ s.m_updatePool = some pending := by
  unfold Manager_Type1.select at h
  by_cases hlt : req.type < s.m_rawPool.length
  · rw [if_pos hlt] at h
    have hget : s.m_rawPool[req.type]? = some (s.m_rawPool.getD req.type none) := by
      rw [List.getD_eq_getElem?_getD, List.getElem?_eq_getElem hlt]
      rfl
    cases hp : s.m_rawPool.getD req.type none with
    | none => rw [hp] at h; cases h
    | some p =>
      cases hu : s.m_updatePool with
      | none => rw [hp, hu] at h; cases h
      | some pending => exact ⟨p, pending, by rw [hget, hp], rfl⟩
  · rw [if_neg hlt] at h
    cases h

/-- C13 (counterexample): in the scenario nothing is valid at the point 25,
neither in the pools nor in the update pool; but `select` called with an
output sequence that holds a condition already returns `true`. -/
theorem select_true_with_nothing_found :
    scenarioState.selectInPools (scenarioState.iovPools 0).elements 0xAABB (IOV.point runType 25) = [] ∧
    scenarioState.m_updatePool = some [] ∧
    (Manager_Type1.select scenarioState 0xAABB (IOV.point runType 25) [100]).value? =
      some (true, [100]) := by
  refine ⟨?_, ?_, ?_⟩ <;> decide

/-- C13 (amended): for every key, every requested IOV whose type has its IOV
pool allocated, and every initial content `out` of the output sequence,
`select` appends to `out` exactly the conditions found in the pools that
overlap the requested IOV and then those found among the overlapping pending
entries of the update pool, and it returns `true` exactly when the output
sequence is non-empty afterwards: when `out` was non-empty or a condition
was found.  For an empty `out` it returns `true` exactly when a condition was
found. -/
theorem select_returns_nonempty (s : State) (key : Nat) (req : IOV) (out : List Addr)
    (p : Addr) (pending : UpdatePool)
    (hreg : s.m_rawPool[req.type]? = some (some p)) (hup : s.m_updatePool = some pending) :
    ∃ b, Manager_Type1.select s key req out =
        .ok (b, out ++ s.selectInPools (s.iovPools p).elements key req ++
                s.selectInUpdates pending key req) s ∧
      (b = true ↔ out ≠ [] ∨ s.selectInPools (s.iovPools p).elements key req ≠ [] ∨
        s.selectInUpdates pending key req ≠ []) ∧
      (out = [] → (b = true ↔ (∃ c, c ∈ s.selectInPools (s.iovPools p).elements key req) ∨
        ∃ c, c ∈ s.selectInUpdates pending key req)) ∧
      (∀ c, c ∈ s.selectInPools (s.iovPools p).elements key req ↔
        ∃ e ∈ (s.iovPools p).elements, e.1.overlaps req.keyData = true ∧
          (s.pools e.2).get key = some c) ∧
      (∀ c, c ∈ s.selectInUpdates pending key req ↔
        ∃ e ∈ pending, e.1.overlaps req.keyData = true ∧ c ∈ e.2 ∧ (s.conds c).hash = key) := by
  refine ⟨_, select_eq s key req out p pending hreg hup, ?_, ?_,
    fun c => mem_selectInPools s _ key req c, fun c => mem_selectInUpdates s pending key req c⟩
  · rw [not_isEmpty_iff, append3_ne_nil]
  · intro hout
    subst hout
    rw [not_isEmpty_iff, append3_ne_nil,
      ne_nil_iff_exists_mem (s.selectInPools (s.iovPools p).elements key req),
      ne_nil_iff_exists_mem (s.selectInUpdates pending key req)]
    simp

/-- C13 (witness): the selection at the point 5 in the scenario, into an empty
output sequence. -/
theorem select_returns_nonempty_witness :
    ∃ b, Manager_Type1.select scenarioState 0xAABB (IOV.point runType 5) [] =
        .ok (b, [] ++ scenarioState.selectInPools (scenarioState.iovPools 0).elements 0xAABB
                  (IOV.point runType 5) ++
                scenarioState.selectInUpdates [] 0xAABB (IOV.point runType 5)) scenarioState ∧
      (b = true ↔ ([] : List Addr) ≠ [] ∨
        scenarioState.selectInPools (scenarioState.iovPools 0).elements 0xAABB
          (IOV.point runType 5) ≠ [] ∨
        scenarioState.selectInUpdates [] 0xAABB (IOV.point runType 5) ≠ []) := by
  obtain ⟨b, h1, h2, -⟩ :=
    select_returns_nonempty scenarioState 0xAABB (IOV.point runType 5) [] 0 []
      (by decide) (by decide)
  exact ⟨b, h1, h2⟩

/-- C14: a selection never mixes validity intervals.  In the scenario (IOV type
"run" at index 0, pools for `[1,10]` and `[11,20]`, "C1" with the key
`0xAABB` in the first and "C2" with the same key in the second, an empty
update pool) `select` at the point 5 yields exactly "C1" and `true`, at the
point 15 exactly "C2" and `true`, at the point 25 nothing and `false`.  In
general a `select` that returns leaves the manager as it is, and its output
is the initial content, then the part from the permanent pools, then the
part from the update pool, where a condition is in the part from the
permanent pools exactly when a pool of the IOV pool of the requested type,
whose key range overlaps the requested IOV, holds it under the key, and a
condition is in the part from the update pool exactly when it is staged with
this key under a key range that overlaps the requested IOV. -/
theorem select_scenario :
    (scenarioState.pools 1).iov = some { iovType := some runType, type := 0, keyData := ⟨1, 10⟩ } ∧
    (scenarioState.pools 2).iov = some { iovType := some runType, type := 0, keyData := ⟨11, 20⟩ } ∧
    (scenarioState.pools 1).get 0xAABB = some 100 ∧
    (scenarioState.pools 2).get 0xAABB = some 101 ∧
    scenarioState.m_updatePool = some [] ∧
    (Manager_Type1.select scenarioState 0xAABB (IOV.point runType 5) []).value? =
      some (true, [100]) ∧
    (Manager_Type1.select scenarioState 0xAABB (IOV.point runType 15) []).value? =
      some (true, [101]) ∧
    (Manager_Type1.select scenarioState 0xAABB (IOV.point runType 25) []).value? =
      some (false, []) ∧
    (∀ (s s1 : State) (key : Nat) (req : IOV) (out : List Addr) (v : Bool × List Addr),
      Manager_Type1.select s key req out = .ok v s1 →
      ∃ p pending fromPools fromUpdates, s1 = s ∧ s.m_rawPool[req.type]? = some (some p) ∧
        s.m_updatePool = some pending ∧
        v.2 = out ++ fromPools ++ fromUpdates ∧
        (∀ c, c ∈ fromPools ↔ ∃ e ∈ (s.iovPools p).elements,
          e.1.overlaps req.keyData = true ∧ (s.pools e.2).get key = some c) ∧
        (∀ c, c ∈ fromUpdates ↔ ∃ e ∈ pending,
          e.1.overlaps req.keyData = true ∧ c ∈ e.2 ∧ (s.conds c).hash = key)) := by
  refine ⟨by decide, by decide, by decide, by decide, by decide, by decide, by decide,
    by decide, ?_⟩
  intro s s1 key req out v h
  obtain ⟨p, pending, hreg, hup⟩ := select_defined s s1 key req out v h
  rw [select_eq s key req out p pending hreg hup] at h
  simp only [Outcome.ok.injEq] at h
  refine ⟨p, pending, s.selectInPools (s.iovPools p).elements key req,
    s.selectInUpdates pending key req, h.2.symm, hreg, hup, by rw [← h.1], fun c => ?_, fun c => ?_⟩
  · exact mem_selectInPools s _ key req c
  · exact mem_selectInUpdates s pending key req c

/-- C14 (witness): the output of the selection at the point 5 in the scenario
has no part from the update pool, and its part from the permanent pools is
the condition "C1" of the pool `[1,10]` alone: "C2" is not in it. -/
theorem select_scenario_witness :
    ∃ fromPools : List Addr, [100] = ([] : List Addr) ++ fromPools ∧
      (100 ∈ fromPools ↔ ∃ e ∈ (scenarioState.iovPools 0).elements,
        e.1.overlaps (IOV.point runType 5).keyData = true ∧
          (scenarioState.pools e.2).get 0xAABB = some 100) ∧
      101 ∉ fromPools := by
  obtain ⟨p, pending, fromPools, fromUpdates, -, hreg, hup, hv, hp, hu⟩ :=
    select_scenario.2.2.2.2.2.2.2.2 scenarioState scenarioState 0xAABB (IOV.point runType 5) []
      (true, [100]) (select_eq scenarioState 0xAABB (IOV.point runType 5) [] 0 []
        (by decide) (by decide))
  have hp0 : p = 0 := by
    have h0 : scenarioState.m_rawPool[(IOV.point runType 5).type]? = some (some 0) := by decide
    rw [h0] at hreg
    simpa using hreg.symm
  have hpe : pending = [] := by
    have h0 : scenarioState.m_updatePool = some [] := by decide
    rw [h0] at hup
    simpa using hup.symm
  subst hp0 hpe
  have hnil : fromUpdates = [] := by
    rw [List.eq_nil_iff_forall_not_mem]
    intro c hc
    obtain ⟨e, he, -⟩ := (hu c).1 hc
    cases he
  subst hnil
  simp only [List.append_nil] at hv
  refine ⟨fromPools, hv, hp 100, ?_⟩
  simp only [List.nil_append] at hv
  rw [← hv]
  decide

/-! ## The IOV check of `prepare` and `load` -/

/-- The IOV check for discrete IOVs passes exactly for the IOVs described by
`CheckPasses`; otherwise it returns null or, for an IOV without type pointer
and with an unregistered type index, raises in `iovType`. -/
theorem check_iov_type_Discrete_cases (s : State) (iov : IOV) :
    (s.CheckPasses iov →
      ∃ typ, check_iov_type_Discrete s (some iov) = .ok (some typ) s ∧
        typ.type < s.m_rawPool.length) ∧
    (¬ s.CheckPasses iov →
      check_iov_type_Discrete s (some iov) = .ok none s ∨
      check_iov_type_Discrete s (some iov) = .raised .unregisteredIOVType s) := by
  have key : ∀ typ : IOVType, s.resolveType iov = some typ →
      (check_iov_type_void s (some iov) =
        if iov.type == typ.type then
          if typ.type < s.m_rawPool.length then
            if s.m_rawPool.getD typ.type none != none then .ok (some typ) s else .ok none s
          else .ok none s
        else .ok none s) := by
    intro typ hres
    unfold State.resolveType at hres
    unfold check_iov_type_void
    cases hp : iov.iovType with
    | some t =>
      rw [hp] at hres
      simp only [Option.some.injEq] at hres
      subst hres
      simp only [hp]
    | none =>
      rw [hp] at hres
      cases hslot : s.m_iovTypes[iov.type]? with
      | none => rw [hslot] at hres; cases hres
      | some t =>
        rw [hslot] at hres
        simp only at hres
        by_cases ht : (t.type == iov.type) = true
        · rw [if_pos ht] at hres
          simp only [Option.some.injEq] at hres
          subst hres
          simp only [hp, Manager_Type1.iovType, hslot, ht, if_true]
        · rw [if_neg ht] at hres
          cases hres
  have none_case : s.resolveType iov = none →
      check_iov_type_void s (some iov) = .raised .unregisteredIOVType s := by
    intro hres
    unfold State.resolveType at hres
    unfold check_iov_type_void
    cases hp : iov.iovType with
    | some t => rw [hp] at hres; cases hres
    | none =>
      rw [hp] at hres
      cases hslot : s.m_iovTypes[iov.type]? with
      | none => simp only [hp, Manager_Type1.iovType, hslot]
      | some t =>
        rw [hslot] at hres
        simp only at hres
        by_cases ht : (t.type == iov.type) = true
        · rw [if_pos ht] at hres; cases hres
        · simp only [hp, Manager_Type1.iovType, hslot, ht]
          rfl
  constructor
  · rintro ⟨typ, a, hres, htype, hpool, hdisc⟩
    have hlt : typ.type < s.m_rawPool.length := by
      by_contra hn
      rw [List.getElem?_eq_none (by omega)] at hpool
      cases hpool
    refine ⟨typ, ?_, hlt⟩
    unfold check_iov_type_Discrete
    rw [key typ hres]
    have h1 : (iov.type == typ.type) = true := by simpa using htype
    have h3 : (s.m_rawPool.getD typ.type none != none) = true := by
      simp [List.getD, hpool]
    have h4 : (!iov.has_range) = true := by
      simp [IOV.has_range, hdisc]
    simp only [h1, hlt, h3, if_true, h4]
  · intro hnot
    cases hres : s.resolveType iov with
    | none =>
      right
      unfold check_iov_type_Discrete
      rw [none_case hres]
    | some typ =>
      left
      unfold check_iov_type_Discrete
      rw [key typ hres]
      by_cases h1 : (iov.type == typ.type) = true
      · by_cases h2 : typ.type < s.m_rawPool.length
        · by_cases h3 : (s.m_rawPool.getD typ.type none != none) = true
          · by_cases h4 : (!iov.has_range) = true
            · exfalso
              apply hnot
              have hget : s.m_rawPool[typ.type]? = some (s.m_rawPool.getD typ.type none) := by
                rw [List.getD_eq_getElem?_getD, List.getElem?_eq_getElem h2]
                rfl
              cases hp : s.m_rawPool.getD typ.type none with
              | none => rw [hp] at h3; simp at h3
              | some a =>
                refine ⟨typ, a, hres, by simpa using h1, by rw [hget, hp], ?_⟩
                simpa [IOV.has_range] using h4
            · simp only [h1, h2, h3, if_true, h4]
              rfl
          · simp only [h1, h2, h3, if_true]
            rfl
        · simp only [h1, h2, if_true, if_false]
      · simp [h1]

/-- C15 (counterexample): in the scenario the IOV type "run" is registered at
index 0 and its IOV pool is allocated, but for the requested range `[1,10]`
of that type the IOV check of `prepare` and `load` raises the error of an
unknown IOV type: the check is the one for discrete IOVs. -/
theorem get_checked_pool_rejects_range :
    scenarioState.m_iovTypes[0]? = some runType ∧
    scenarioState.m_rawPool[0]? = some (some 0) ∧
    (Manager_Type1.__get_checked_pool scenarioState
      { iovType := some runType, type := 0, keyData := ⟨1, 10⟩ } none).error? =
      some .unknownIOVType ∧
    (Manager_Type1.__get_checked_pool scenarioState
      { iovType := none, type := 0, keyData := ⟨1, 10⟩ } none).error? =
      some .unknownIOVType := by
  refine ⟨?_, ?_, ?_, ?_⟩ <;> decide

/-- C15 (amended): the IOV check of `prepare` and `load`.  The check passes
exactly when the type the requested IOV refers to (the type it points to or,
without pointer, the registered type of its index) exists, carries the type
index of the IOV and has an allocated IOV pool, and the IOV is discrete.
Then a user pool is created for a slice without one, and the call proceeds
to `pushUpdates` and to the user pool.  Otherwise `prepare` and `load`
raise a fatal error of an unknown or unregistered IOV type and leave the
manager and the slice as they were. -/
theorem get_checked_pool_iff (s : State) (req_iov : IOV) (slice : ConditionsSlice) :
    (s.CheckPasses req_iov →
      ∃ pool, Manager_Type1.__get_checked_pool s req_iov slice.pool = .ok (some pool) s ∧
        (∀ u, slice.pool = some u → pool = u) ∧
        (∀ userLoad s2, Manager_Type1.pushUpdates s = .ok () s2 →
          Manager_Type1.load userLoad s req_iov slice =
            userLoad s2 { slice with pool := some pool } req_iov) ∧
        (∀ userPrepare s2 res s3 slice3, Manager_Type1.pushUpdates s = .ok () s2 →
          userPrepare s2 { slice with pool := some pool } req_iov = .ok res s3 slice3 →
          Manager_Type1.prepare userPrepare none s req_iov slice = .ok res s3 slice3 ∧
          ∀ clean, Manager_Type1.prepare userPrepare (some clean) s req_iov slice =
            .ok res (clean s3) slice3) ∧
        (∀ userLoad userPrepare cleaner e s2, Manager_Type1.pushUpdates s = .raised e s2 →
          Manager_Type1.load userLoad s req_iov slice =
            .raised e s2 { slice with pool := some pool } ∧
          Manager_Type1.prepare userPrepare cleaner s req_iov slice =
            .raised e s2 { slice with pool := some pool })) ∧
    (¬ s.CheckPasses req_iov →
      ∃ e, (e = .unknownIOVType ∨ e = .unregisteredIOVType) ∧
        Manager_Type1.__get_checked_pool s req_iov slice.pool = .raised e s ∧
        ∀ userLoad userPrepare cleaner,
          Manager_Type1.load userLoad s req_iov slice = .raised e s slice ∧
          Manager_Type1.prepare userPrepare cleaner s req_iov slice = .raised e s slice) := by
  constructor
  · intro hpass
    obtain ⟨typ, hcheck, hlt⟩ := (check_iov_type_Discrete_cases s req_iov).1 hpass
    have hget : ∃ pool, Manager_Type1.__get_checked_pool s req_iov slice.pool = .ok (some pool) s ∧
        (∀ u, slice.pool = some u → pool = u) := by
      unfold Manager_Type1.__get_checked_pool
      rw [hcheck]
      simp only [hlt, if_true]
      cases hp : slice.pool with
      | none => exact ⟨_, rfl, fun u hu => by cases hu⟩
      | some u => exact ⟨u, rfl, fun v hv => by simp only [Option.some.injEq] at hv; exact hv⟩
    obtain ⟨pool, hpool, hsame⟩ := hget
    refine ⟨pool, hpool, hsame, ?_, ?_, ?_⟩
    · intro userLoad s2 hpush
      unfold Manager_Type1.load
      simp only [hpool, hpush]
    · intro userPrepare s2 res s3 slice3 hpush huser
      constructor
      · unfold Manager_Type1.prepare
        simp only [hpool, hpush, huser]
      · intro clean
        unfold Manager_Type1.prepare
        simp only [hpool, hpush, huser]
    · intro userLoad userPrepare cleaner e s2 hpush
      constructor
      · unfold Manager_Type1.load
        simp only [hpool, hpush]
      · unfold Manager_Type1.prepare
        simp only [hpool, hpush]
  · intro hfail
    rcases (check_iov_type_Discrete_cases s req_iov).2 hfail with hcheck | hcheck
    · refine ⟨.unknownIOVType, Or.inl rfl, ?_, ?_⟩
      · unfold Manager_Type1.__get_checked_pool
        rw [hcheck]
      · intro userLoad userPrepare cleaner
        constructor
        · unfold Manager_Type1.load Manager_Type1.__get_checked_pool
          rw [hcheck]
        · unfold Manager_Type1.prepare Manager_Type1.__get_checked_pool
          rw [hcheck]
    · refine ⟨.unregisteredIOVType, Or.inr rfl, ?_, ?_⟩
      · unfold Manager_Type1.__get_checked_pool
        rw [hcheck]
      · intro userLoad userPrepare cleaner
        constructor
        · unfold Manager_Type1.load Manager_Type1.__get_checked_pool
          rw [hcheck]
        · unfold Manager_Type1.prepare Manager_Type1.__get_checked_pool
          rw [hcheck]

/-- C15 (witness): the point 5 of the IOV type "run" passes the check in the
scenario, and a user pool is created for the slice that has none. -/
theorem get_checked_pool_iff_witness :
    ∃ pool, Manager_Type1.__get_checked_pool scenarioState (IOV.point runType 5)
        unpreparedSlice.pool = .ok (some pool) scenarioState :=
  let ⟨pool, h, _⟩ := (get_checked_pool_iff scenarioState (IOV.point runType 5) unpreparedSlice).1
    ⟨runType, 0, rfl, rfl, by decide, rfl⟩
  ⟨pool, h⟩

/-! ## The pool/condition invariant -/

/-- The invariant holds where no pool holds a condition. -/
theorem poolInvariant_of_empty (s : State) (h : ∀ p, (s.pools p).entries = []) :
    s.PoolInvariant := by
  constructor
  · intro p k c hc
    rw [h p] at hc
    cases hc
  · intro p q k1 k2 c hc
    rw [h p] at hc
    cases hc

/-- The invariant survives a step that leaves the condition objects alone
and at most replaces one pool by a pool without conditions. -/
theorem poolInvariant_of_frame (s s1 : State) (hinv : s.PoolInvariant)
    (hconds : s1.conds = s.conds)
    (hpools : s1.pools = s.pools ∨
      ∃ a pool, pool.entries = [] ∧ s1.pools = Function.update s.pools a pool) :
    s1.PoolInvariant := by
  rcases hpools with hp | ⟨a, pool, hempty, hp⟩
  · constructor
    · intro p k c hc
      rw [hp] at hc
      rw [hp, hconds]
      exact hinv.1 p k c hc
    · intro p q k1 k2 c hc1 hc2
      rw [hp] at hc1 hc2
      exact hinv.2 p q k1 k2 c hc1 hc2
  · have hold : ∀ p k c, (k, c) ∈ (s1.pools p).entries → p ≠ a ∧ (k, c) ∈ (s.pools p).entries := by
      intro p k c hc
      rw [hp] at hc
      by_cases hpa : p = a
      · subst hpa
        rw [Function.update_same, hempty] at hc
        cases hc
      · rw [Function.update_noteq hpa] at hc
        exact ⟨hpa, hc⟩
    constructor
    · intro p k c hc
      obtain ⟨hpa, hc'⟩ := hold p k c hc
      rw [hp, Function.update_noteq hpa, hconds]
      exact hinv.1 p k c hc'
    · intro p q k1 k2 c hc1 hc2
      exact hinv.2 p q k1 k2 c (hold p k1 c hc1).2 (hold q k2 c hc2).2

/-- The registration of an IOV type touches no conditions pool and no
condition object. -/
theorem registerIOVType_frame (s s1 : State) (iov_index : Nat) (iov_name : String)
    (h : (Manager_Type1.registerIOVType s iov_index iov_name).state? = some s1) :
    s1.conds = s.conds ∧ s1.pools = s.pools := by
  rcases registerIOVType_cases s iov_index iov_name with
    ⟨t, -, -, -, hres⟩ | ⟨-, hres⟩ | ⟨e, hres⟩ | hres
  · rw [hres] at h
    simp only [Outcome.state?, Option.some.injEq] at h
    subst h; exact ⟨rfl, rfl⟩
  · rw [hres] at h
    simp only [Outcome.state?, Option.some.injEq] at h
    subst h; exact ⟨rfl, rfl⟩
  · rw [hres] at h
    simp only [Outcome.state?, Option.some.injEq] at h
    subst h; exact ⟨rfl, rfl⟩
  · rw [hres] at h
    cases h

/-- The registration of an IOV touches no condition object, and of the
conditions pools at most the one it creates, which holds no condition. -/
theorem registerIOV_frame (s s1 : State) (typ : IOVType) (key : Key)
    (h : (Manager_Type1.registerIOV s typ key).state? = some s1) :
    s1.conds = s.conds ∧
    (s1.pools = s.pools ∨
      ∃ a pool, pool.entries = [] ∧ s1.pools = Function.update s.pools a pool) := by
  unfold Manager_Type1.registerIOV at h
  by_cases hlt : typ.type < s.m_rawPool.length
  · rw [if_pos hlt] at h
    cases hraw : s.m_rawPool.getD typ.type none with
    | some pool =>
      simp only [hraw] at h
      cases hfind : (s.iovPools pool).find key with
      | some q =>
        simp only [hfind, Outcome.state?, Option.some.injEq] at h
        subst h; exact ⟨rfl, Or.inl rfl⟩
      | none =>
        simp only [hfind, Outcome.state?, Option.some.injEq, State.newConditionsPool] at h
        subst h
        exact ⟨rfl, Or.inr ⟨_, _, rfl, rfl⟩⟩
    | none =>
      simp only [hraw, State.newIOVPool] at h
      split at h
      · simp only [Outcome.state?, Option.some.injEq] at h
        subst h; exact ⟨rfl, Or.inl rfl⟩
      · simp only [Outcome.state?, Option.some.injEq, State.newConditionsPool] at h
        subst h
        exact ⟨rfl, Or.inr ⟨_, _, rfl, rfl⟩⟩
  · rw [if_neg hlt] at h
    cases h

/-- The invariant survives the registration of a valid condition that is
contained in no other pool. -/
theorem registerUnlocked_invariant (s s1 : State) (pool c : Addr) (hinv : s.PoolInvariant)
    (hadm : s.NotElsewhere pool c)
    (h : Manager_Type1.registerUnlocked s pool (some c) = .ok true s1) :
    s1.PoolInvariant := by
  obtain ⟨s', hreg, hconds, hpools, -⟩ := registerUnlocked_fields s pool c
  rw [hreg] at h
  simp only [Outcome.ok.injEq, true_and] at h
  subst h
  have hmem : ∀ p k d, (k, d) ∈ (s'.pools p).entries →
      (k, d) ∈ (s.pools p).entries ∨ (p = pool ∧ d = c) := by
    intro p k d hd
    rw [hpools] at hd
    by_cases hp : p = pool
    · subst hp
      rw [Function.update_same] at hd
      rcases ConditionsPool.mem_insert _ _ _ _ hd with h1 | h1
      · exact Or.inl h1
      · exact Or.inr ⟨rfl, (Prod.mk.inj h1).2⟩
    · rw [Function.update_noteq hp] at hd
      exact Or.inl hd
  have hiov : ∀ p, (s'.pools p).iov = (s.pools p).iov := by
    intro p
    rw [hpools]
    by_cases hp : p = pool
    · subst hp
      rw [Function.update_same, ConditionsPool.insert_iov]
    · rw [Function.update_noteq hp]
  have hc : (s'.conds c).iov = (s.pools pool).iov := by
    rw [hconds, Function.update_same]
  have hd : ∀ d, d ≠ c → s'.conds d = s.conds d := by
    intro d hdc
    rw [hconds, Function.update_noteq hdc]
  constructor
  · intro p k d hmemd
    rw [hiov p]
    by_cases hdc : d = c
    · subst hdc
      rcases hmem p k d hmemd with hold | ⟨hp, -⟩
      · rw [hadm p k hold]; exact hc
      · rw [hp]; exact hc
    · rcases hmem p k d hmemd with hold | ⟨-, hdc'⟩
      · rw [hd d hdc]; exact hinv.1 p k d hold
      · exact absurd hdc' hdc
  · intro p q k1 k2 d h1 h2
    rcases hmem p k1 d h1 with hold1 | ⟨hp, hdc1⟩
    · rcases hmem q k2 d h2 with hold2 | ⟨hq, hdc2⟩
      · exact hinv.2 p q k1 k2 d hold1 hold2
      · subst hdc2
        rw [hq]; exact hadm p k1 hold1
    · rcases hmem q k2 d h2 with hold2 | ⟨hq, -⟩
      · subst hdc1
        rw [hp]; exact (hadm q k2 hold2).symm
      · rw [hp, hq]

/-- A condition that is contained in no other pool than `pool` stays so when
a condition is registered into `pool`. -/
theorem registerUnlocked_notElsewhere (s s1 : State) (pool c d : Addr)
    (hadm : s.NotElsewhere pool d)
    (h : Manager_Type1.registerUnlocked s pool (some c) = .ok true s1) :
    s1.NotElsewhere pool d := by
  obtain ⟨s', hreg, -, hpools, -⟩ := registerUnlocked_fields s pool c
  rw [hreg] at h
  simp only [Outcome.ok.injEq, true_and] at h
  subst h
  intro q k hk
  by_cases hq : q = pool
  · exact hq
  · rw [hpools, Function.update_noteq hq] at hk
    exact hadm q k hk

/-- The invariant survives the loop of `blockRegister` over conditions that
are contained in no other pool, also when the loop raises. -/
theorem blockRegisterLoop_invariant (pool : Addr) : ∀ (batch : List Condition) (s s1 : State)
    (result : Nat), s.PoolInvariant → (∀ c, some c ∈ batch → s.NotElsewhere pool c) →
    (Manager_Type1.blockRegisterLoop pool s batch result).state? = some s1 → s1.PoolInvariant
  | [], s, s1, result, hinv, _, h => by
    simp only [Manager_Type1.blockRegisterLoop, Outcome.state?, Option.some.injEq] at h
    subst h; exact hinv
  | none :: rest, s, s1, result, hinv, _, h => by
    simp only [Manager_Type1.blockRegisterLoop, Outcome.state?, Option.some.injEq] at h
    subst h; exact hinv
  | some c :: rest, s, s1, result, hinv, hadm, h => by
    obtain ⟨s', hreg, -⟩ := registerUnlocked_fields s pool c
    rw [blockRegisterLoop_cons pool s c rest result s' hreg] at h
    have hinv' := registerUnlocked_invariant s s' pool c hinv
      (hadm c (List.mem_cons_self _ _)) hreg
    exact blockRegisterLoop_invariant pool rest s' s1 (result + 1) hinv'
      (fun d hd => registerUnlocked_notElsewhere s s' pool c d
        (hadm d (List.mem_cons_of_mem _ hd)) hreg) h

/-- C16 (counterexample): the state reached from the scenario by registering
the condition object "C1" first into the pool of `[1,10]` and then into the
pool of `[11,20]`: the object is contained in both pools, and its IOV is the
IOV of the second pool, not of the first. -/
theorem shared_condition_breaks_invariant :
    Reachable (fun _ _ _ => True) sharedConditionState ∧
    (0xAABB, 100) ∈ (sharedConditionState.pools 1).entries ∧
    (0xAABB, 100) ∈ (sharedConditionState.pools 2).entries ∧
    (sharedConditionState.conds 100).iov = (sharedConditionState.pools 2).iov ∧
    (sharedConditionState.conds 100).iov ≠ (sharedConditionState.pools 1).iov ∧
    ¬ sharedConditionState.PoolInvariant := by
  have hmem1 : (0xAABB, 100) ∈ (sharedConditionState.pools 1).entries := by decide
  have hmem2 : (0xAABB, 100) ∈ (sharedConditionState.pools 2).entries := by decide
  refine ⟨?_, hmem1, hmem2, by decide, by decide, ?_⟩
  · have h0 : Reachable (fun _ _ _ => True) scenarioObjects :=
      Reachable.empty _ (fun p => rfl)
    have h1 := Reachable.registerIOV scenarioObjects
      ((Manager_Type1.registerIOV scenarioObjects runType ⟨1, 10⟩).stateOr scenarioObjects)
      runType ⟨1, 10⟩ h0 rfl
    have h2 := Reachable.registerIOV _ scenarioPools runType ⟨11, 20⟩ h1 rfl
    have h3 := Reachable.registerUnlocked scenarioPools scenarioFirst 1 (some 100) h2
      (fun _ _ => trivial) rfl
    exact Reachable.registerUnlocked scenarioFirst sharedConditionState 2 (some 100) h3
      (fun _ _ => trivial) rfl
  · intro hinv
    have := hinv.2 1 2 0xAABB 0xAABB 100 hmem1 hmem2
    exact absurd this (by decide)

/-- C16 (amended): the pool/condition invariant for registrations that do not
share a condition between pools.  In every manager state reachable from a
manager without conditions by `registerIOVType`, `registerIOV`,
`registerUnlocked` and `blockRegister`, where a valid condition is only
registered into a pool while it is contained in no other pool, every
condition contained in a pool has the IOV of that pool, and no condition is
contained in two pools at once. -/
theorem poolInvariant_of_reachable (s : State)
    (h : Reachable (fun s pool c => s.NotElsewhere pool c) s) : s.PoolInvariant := by
  induction h with
  | empty s h => exact poolInvariant_of_empty s h
  | registerIOVType s s1 iov_index iov_name _ hstep ih =>
    obtain ⟨hc, hp⟩ := registerIOVType_frame s s1 iov_index iov_name hstep
    exact poolInvariant_of_frame s s1 ih hc (Or.inl hp)
  | registerIOV s s1 typ key _ hstep ih =>
    obtain ⟨hc, hp⟩ := registerIOV_frame s s1 typ key hstep
    exact poolInvariant_of_frame s s1 ih hc hp
  | registerUnlocked s s1 pool cond _ hadm hstep ih =>
    cases cond with
    | none =>
      simp only [Manager_Type1.registerUnlocked, Outcome.state?, Option.some.injEq] at hstep
      subst hstep; exact ih
    | some c =>
      obtain ⟨s', hreg, -⟩ := registerUnlocked_fields s pool c
      rw [hreg] at hstep
      simp only [Outcome.state?, Option.some.injEq] at hstep
      subst hstep
      exact registerUnlocked_invariant s s' pool c ih (hadm c rfl) hreg
  | blockRegister s s1 pool batch _ hadm hstep ih =>
    exact blockRegisterLoop_invariant pool batch s s1 0 ih hadm hstep

/-- The registration of an IOV on a manager without conditions leaves it
without conditions. -/
theorem registerIOV_no_conditions (s s1 : State) (typ : IOVType) (key : Key)
    (hempty : ∀ p, (s.pools p).entries = [])
    (h : (Manager_Type1.registerIOV s typ key).state? = some s1) :
    ∀ p, (s1.pools p).entries = [] := by
  intro p
  rcases (registerIOV_frame s s1 typ key h).2 with hp | ⟨a, pool, hpool, hp⟩
  · rw [hp]; exact hempty p
  · rw [hp]
    by_cases hpa : p = a
    · subst hpa
      rw [Function.update_same]; exact hpool
    · rw [Function.update_noteq hpa]; exact hempty p

/-- The pools of the scenario hold no condition before the registrations. -/
theorem scenarioPools_no_conditions : ∀ p, (scenarioPools.pools p).entries = [] :=
  registerIOV_no_conditions _ scenarioPools runType ⟨11, 20⟩
    (registerIOV_no_conditions scenarioObjects _ runType ⟨1, 10⟩ (fun _ => rfl) rfl) rfl

/-- C16 (witness): the scenario, in which "C1" is registered into the pool of
`[1,10]` and "C2" into the pool of `[11,20]`, is reached without sharing a
condition between pools, and satisfies the invariant. -/
theorem poolInvariant_of_reachable_witness : scenarioState.PoolInvariant := by
  apply poolInvariant_of_reachable
  have h0 : Reachable (fun s pool c => s.NotElsewhere pool c) scenarioObjects :=
    Reachable.empty _ (fun p => rfl)
  have h1 := Reachable.registerIOV scenarioObjects
    ((Manager_Type1.registerIOV scenarioObjects runType ⟨1, 10⟩).stateOr scenarioObjects)
    runType ⟨1, 10⟩ h0 rfl
  have h2 := Reachable.registerIOV _ scenarioPools runType ⟨11, 20⟩ h1 rfl
  have h3 := Reachable.registerUnlocked scenarioPools scenarioFirst 1 (some 100) h2
    (fun c _ q k hk => by rw [scenarioPools_no_conditions q] at hk; cases hk) rfl
  refine Reachable.registerUnlocked scenarioFirst scenarioState 2 (some 101) h3 ?_ rfl
  intro c hc q k hk
  simp only [Option.some.injEq] at hc
  subst hc
  obtain ⟨s', hreg, -, hpools, -⟩ := registerUnlocked_fields scenarioPools 1 100
  have hfirst : scenarioFirst = s' := by
    unfold scenarioFirst
    rw [hreg]
    rfl
  rw [hfirst, hpools] at hk
  by_cases hq : q = 1
  · subst hq
    rw [Function.update_same] at hk
    rcases ConditionsPool.mem_insert _ _ _ _ hk with h | h
    · rw [scenarioPools_no_conditions 1] at h; cases h
    · exact absurd (Prod.mk.inj h).2 (by decide)
  · rw [Function.update_noteq hq, scenarioPools_no_conditions q] at hk
    cases hk

/-! ## Slices -/

/-- The insert of a user pool: accepted exactly for a new key, which then
finds the condition; a rejected insert changes nothing. -/
theorem UserPool.insert_spec (pool : UserPool) (key : Nat) (c : Addr) :
    (pool.entries.lookup key = none →
      pool.insert key c = (true, { pool with entries := pool.entries ++ [(key, c)] }) ∧
      (pool.insert key c).2.entries.lookup key = some c) ∧
    (∀ d, pool.entries.lookup key = some d → pool.insert key c = (false, pool)) := by
  constructor
  · intro h
    have hins : pool.insert key c = (true, { pool with entries := pool.entries ++ [(key, c)] }) := by
      unfold UserPool.insert
      rw [h]
    refine ⟨hins, ?_⟩
    rw [hins]
    simp [List.lookup_append, h]
  · intro d h
    unfold UserPool.insert
    rw [h]

/-- C17: the scenario with "C1" registered in the pool of `[1,10]` under the
hash `0xAABB`, and a prepared slice bound to `[1,10]`.  The insert of "C2",
a different condition with the same hash, returns `true` and enters "C2" in
the user pool under (detector 1, key 2), although the pool of the manager
rejects it and goes on holding "C1" under the hash. -/
theorem slice_insert_true_after_rejected_registration :
    (ConditionsManager.registerIOV scenarioFirst
      { iovType := some runType, type := 0, keyData := ⟨1, 10⟩ }).value? = some (some 1) ∧
    (scenarioFirst.pools 1).get 0xAABB = some 100 ∧
    (scenarioFirst.conds 101).hash = 0xAABB ∧
    ((scenarioFirst.pools 1).insert (scenarioFirst.conds 101).hash 101).1 = false ∧
    (ConditionsSlice.insert scenarioFirst scenarioSlice 1 2 (some 101)).value? = some true ∧
    ((ConditionsSlice.insert scenarioFirst scenarioSlice 1 2 (some 101)).state?.map fun s =>
      (s.pools 1).entries) = some [(0xAABB, 100)] ∧
    ((ConditionsSlice.insert scenarioFirst scenarioSlice 1 2 (some 101)).slice?.map fun slice =>
      slice.pool.map fun up => up.get 1 2) = some (some (some 101)) := by
  refine ⟨?_, ?_, ?_, ?_, ?_, ?_, ?_⟩ <;> decide

/-- What the insert of a slice returns for a valid condition: the result of
the insert of the user pool under (detector, key); the registration with the
manager has no part in it. -/
theorem slice_insert_result (s s1 : State) (slice slice1 : ConditionsSlice) (detector key : Nat)
    (c : Addr) (b : Bool)
    (h : ConditionsSlice.insert s slice detector key (some c) = .ok b s1 slice1) :
    ∃ up, slice.pool = some up ∧
      b = (up.insert (ConditionKey.hash detector key) c).1 ∧
      slice1 = { slice with pool := some (up.insert (ConditionKey.hash detector key) c).2 } ∧
      (b = true → ∃ up1, slice1.pool = some up1 ∧ up1.get detector key = some c) := by
  unfold ConditionsSlice.insert at h
  cases hp : slice.pool with
  | none => simp only [hp] at h; cases h
  | some up =>
    simp only [hp] at h
    cases hr : ConditionsManager.registerIOV s up.validity with
    | undefined => simp only [hr] at h; cases h
    | raised e s' => simp only [hr] at h; cases h
    | ok p s' =>
      simp only [hr] at h
      cases p with
      | none => simp only at h; cases h
      | some p =>
        simp only at h
        obtain ⟨s2, hreg, -⟩ := registerUnlocked_fields s' p c
        rw [hreg] at h
        simp only [Bool.not_true, Bool.false_eq_true, if_false, SliceOutcome.ok.injEq] at h
        obtain ⟨hb, -, hslice⟩ := h
        refine ⟨up, rfl, hb.symm, hslice.symm, ?_⟩
        intro htrue
        rw [← hslice]
        refine ⟨_, rfl, ?_⟩
        rw [← hb] at htrue
        cases hl : up.entries.lookup (ConditionKey.hash detector key) with
        | none => exact ((UserPool.insert_spec up _ c).1 hl).2
        | some d =>
          rw [(UserPool.insert_spec up _ c).2 d hl] at htrue
          cases htrue

/-- C18 (counterexample): on a slice that was never prepared `get` has no
user pool to read: the call dereferences the null pointer and returns
nothing; there is no test of the pointer as in `reset`. -/
theorem slice_get_without_pool :
    unpreparedSlice.pool = none ∧
    ConditionsSlice.get scenarioState unpreparedSlice 1 2 = .undefined ∧
    (ConditionsSlice.get scenarioState unpreparedSlice 1 2).value? = none ∧
    (ConditionsSlice.reset scenarioState unpreparedSlice).value? = some () :=
  ⟨rfl, rfl, rfl, rfl⟩

/-- C18 (amended): `get` is a pure read on every slice that has a user pool.
For a (detector, key) that is not present in the user pool it returns an
invalid condition, for one that is present exactly the stored condition; it
raises nothing and leaves the slice and the state of the manager as they
are. -/
theorem slice_get_pure (s : State) (slice : ConditionsSlice) (up : UserPool)
    (detector key : Nat) (hpool : slice.pool = some up) :
    ConditionsSlice.get s slice detector key = .ok (up.get detector key) s slice ∧
    (up.entries.lookup (ConditionKey.hash detector key) = none → up.get detector key = none) ∧
    (∀ c, up.entries.lookup (ConditionKey.hash detector key) = some c →
      up.get detector key = some c) := by
  refine ⟨?_, fun h => h, fun c h => h⟩
  unfold ConditionsSlice.get
  rw [hpool]

/-- C18 (witness): the read of (detector 1, key 2) from the empty user pool of
the prepared slice of the scenario. -/
theorem slice_get_pure_witness :
    ConditionsSlice.get scenarioState scenarioSlice 1 2 = .ok none scenarioState scenarioSlice :=
  (slice_get_pure scenarioState scenarioSlice scenarioUserPool 1 2 rfl).1

/-- C20: `reset` empties the user pool of the slice and nothing else.  After
the call the user pool, if there is one, holds no condition and is bound to
the IOV it was bound to; the references of the slice to the manager and to
the content and the state of the manager, with every pool and every
condition, are unchanged; on a slice without a user pool the call changes
nothing. -/
theorem slice_reset (s : State) (slice : ConditionsSlice) :
    ∃ slice1, ConditionsSlice.reset s slice = .ok () s slice1 ∧
      slice1.manager = slice.manager ∧ slice1.content = slice.content ∧
      (∀ up, slice.pool = some up →
        slice1.pool = some { up with entries := [] } ∧
        ∀ detector key, ({ up with entries := [] } : UserPool).get detector key = none) ∧
      (slice.pool = none → slice1 = slice) := by
  cases hp : slice.pool with
  | none =>
    refine ⟨slice, ?_, rfl, rfl, (fun up h => by cases h), fun _ => rfl⟩
    unfold ConditionsSlice.reset
    rw [hp]
  | some up =>
    refine ⟨{ slice with pool := some up.clear }, ?_, rfl, rfl, ?_, (fun h => by cases h)⟩
    · unfold ConditionsSlice.reset
      rw [hp]
    · intro up' h
      simp only [Option.some.injEq] at h
      subst h
      exact ⟨rfl, fun detector key => rfl⟩

/-! ## The mirrored range check and the bound of the passes -/

/-- The mirror image of a requested range and of a candidate. -/
theorem mirror_examples :
    (requestIOV 1 10).mirror = requestIOV (-10) (-1) ∧
      (condWithRange 2 10).mirror = condWithRange (-10) (-2) := by
  decide

/-- C24: the code does not treat the two edges alike.  For the wanted range
`[1,10]` and the single candidate `[2,10]` the check answers `true`; on the
mirrored problem, wanted `[-10,-1]` and candidate `[-10,-2]`, it answers
`false`. -/
theorem is_range_complete_mirror_differs :
    is_range_complete (requestIOV 1 10) [condWithRange 2 10] = true ∧
      is_range_complete (requestIOV 1 10).mirror ([condWithRange 2 10].map ConditionObject.mirror)
        = false := by
  decide

/-- The loop over an empty candidate list answers `false` for every bound. -/
theorem rangeLoop_nil (iov : Key) : ∀ passes : Nat, rangeLoop iov [] passes iov = false
  | 0 => rfl
  | passes + 1 => by simp [rangeLoop, innerPass]

/-- The loop with a bound of at least the number of candidates answers as the
loop with exactly that bound. -/
theorem rangeLoop_bound (iov : Key) (conditions : List ConditionObject) (M : Nat)
    (h : conditions.length ≤ M) :
    rangeLoop iov conditions M iov = rangeLoop iov conditions conditions.length iov := by
  by_cases hne : conditions = []
  · subst hne
    rw [rangeLoop_nil, rangeLoop_nil]
  · rw [Bool.eq_iff_iff]
    constructor
    · intro hM
      exact rangeLoop_true_of_covered iov conditions hne
        (rangeLoop_sound M iov (windowInv_init _ _ _) hM) _ (le_refl _)
    · intro hN
      exact rangeLoop_true_of_covered iov conditions hne
        (rangeLoop_sound _ iov (windowInv_init _ _ _) hN) M h

/-- C25: for a candidate list of length `N` and every bound `M > N`, the
coverage loop (a total function of the bound) run with `M` passes returns the
same boolean as run with `N` passes, the bound of `is_range_complete`; so
whenever the loop with the larger bound answers `true` for a non-empty list,
`is_range_complete` answers `true`, and so it does whenever the list is not
empty and every `x` with `lo < x ≤ hi` is covered. -/
theorem rangeLoop_passes_enough (iov : IOV) (conditions : List ConditionObject) (M : Nat)
    (h : conditions.length < M) :
    rangeLoop iov.keyData conditions M iov.keyData
        = rangeLoop iov.keyData conditions conditions.length iov.keyData ∧
      (conditions ≠ [] → rangeLoop iov.keyData conditions M iov.keyData = true →
        is_range_complete iov conditions = true) ∧
      (conditions ≠ [] →
        (∀ x, iov.keyData.first < x → x ≤ iov.keyData.second → Covered conditions x) →
        is_range_complete iov conditions = true) := by
  have hb := rangeLoop_bound iov.keyData conditions M (Nat.le_of_lt h)
  refine ⟨hb, fun hne hM => ?_, fun hne hcov => is_range_complete_of_covered iov conditions hne hcov⟩
  unfold is_range_complete
  rw [if_pos hne, ← hb]
  exact hM

/-- C25 at the wanted range `[1,10]` with the candidates `[6,10]`, `[1,5]` and
the bound 5. -/
theorem rangeLoop_passes_enough_witness :
    rangeLoop (requestIOV 1 10).keyData [condWithRange 6 10, condWithRange 1 5] 5
        (requestIOV 1 10).keyData
        = rangeLoop (requestIOV 1 10).keyData [condWithRange 6 10, condWithRange 1 5] 2
            (requestIOV 1 10).keyData ∧
      is_range_complete (requestIOV 1 10) [condWithRange 6 10, condWithRange 1 5] = true :=
  ⟨(rangeLoop_passes_enough (requestIOV 1 10) [condWithRange 6 10, condWithRange 1 5] 5
      (by decide)).1,
   (rangeLoop_passes_enough (requestIOV 1 10) [condWithRange 6 10, condWithRange 1 5] 5
      (by decide)).2.1 (by decide) (by decide)⟩

/-! ## `blockRegister` and the registration one by one -/

/-- The loop of `blockRegister` started with the counter `result` against the
registration one by one. -/
theorem blockRegisterLoop_registerEach (pool : Addr) :
    ∀ (batch : List Condition) (s : State) (result : Nat),
      Manager_Type1.blockRegisterLoop pool s batch result =
        match registerEach pool s batch with
        | .ok n s1 => .ok (result + n) s1
        | .raised e s1 => .raised e s1
        | .undefined => .undefined
  | [], s, result => by simp [Manager_Type1.blockRegisterLoop, registerEach]
  | none :: rest, s, result => by
    simp [Manager_Type1.blockRegisterLoop, registerEach, Manager_Type1.registerUnlocked]
  | some c :: rest, s, result => by
    obtain ⟨s1, h1, -⟩ := registerUnlocked_fields s pool c
    rw [blockRegisterLoop_cons pool s c rest result s1 h1,
      blockRegisterLoop_registerEach pool rest s1 (result + 1)]
    simp only [registerEach, h1]
    cases registerEach pool s1 rest with
    | ok n s2 => simp; omega
    | raised e s2 => rfl
    | undefined => rfl

/-- The registration one by one counts every call when it does not raise. -/
theorem registerEach_count (pool : Addr) :
    ∀ (batch : List Condition) (s : State) (n : Nat) (s1 : State),
      registerEach pool s batch = .ok n s1 → n = batch.length
  | [], s, n, s1, h => by
    simp [registerEach] at h
    exact h.1.symm
  | none :: rest, s, n, s1, h => by
    simp [registerEach, Manager_Type1.registerUnlocked] at h
  | some c :: rest, s, n, s1, h => by
    obtain ⟨s2, h2, -⟩ := registerUnlocked_fields s pool c
    simp only [registerEach, h2] at h
    cases hr : registerEach pool s2 rest with
    | ok m s3 =>
      rw [hr] at h
      simp at h
      have := registerEach_count pool rest s2 m s3 hr
      simp [List.length_cons]
      omega
    | raised e s3 => rw [hr] at h; simp at h
    | undefined => rw [hr] at h; simp at h

/-- C26: `blockRegister` is the fold of `registerUnlocked`.  For every state
(pool content, listeners), pool and batch, `blockRegister(pool, batch)` has
the outcome of calling `registerUnlocked(pool, c)` for each `c` of the batch
in order: the same raise or return and the same state reached (pool
content, condition fields, listener calls); when it returns, its result is
the number of calls that returned `true`, which is the length of the
batch. -/
theorem blockRegister_is_fold (s : State) (pool : Addr) (batch : List Condition) :
    Manager_Type1.blockRegister s pool batch = registerEach pool s batch ∧
      ∀ n s1, Manager_Type1.blockRegister s pool batch = .ok n s1 → n = batch.length := by
  have h : Manager_Type1.blockRegister s pool batch = registerEach pool s batch := by
    unfold Manager_Type1.blockRegister
    rw [blockRegisterLoop_registerEach pool batch s 0]
    cases registerEach pool s batch with
    | ok n s1 => simp
    | raised e s1 => rfl
    | undefined => rfl
  exact ⟨h, fun n s1 hn => registerEach_count pool batch s n s1 (h ▸ hn)⟩

/-! ## A failed IOV check -/

/-- The IOV check of `prepare` and `load` raises in the state it was called
in. -/
theorem get_checked_pool_raised_state (s : State) (req_iov : IOV) (up : Option UserPool)
    (e : Error) (s1 : State)
    (h : Manager_Type1.__get_checked_pool s req_iov up = .raised e s1) : s1 = s := by
  by_cases hp : s.CheckPasses req_iov
  · obtain ⟨typ, hc, hlt⟩ := (check_iov_type_Discrete_cases s req_iov).1 hp
    unfold Manager_Type1.__get_checked_pool at h
    simp only [hc, hlt, if_true] at h
    cases up <;> simp at h
  · rcases (check_iov_type_Discrete_cases s req_iov).2 hp with hc | hc
    · unfold Manager_Type1.__get_checked_pool at h
      simp only [hc, Outcome.raised.injEq] at h
      exact h.2.symm
    · unfold Manager_Type1.__get_checked_pool at h
      simp only [hc, Outcome.raised.injEq] at h
      exact h.2.symm

/-- C27: a failed IOV check in `prepare` and `load` changes nothing.  For
every manager, slice and requested IOV for which `__get_checked_pool`
raises, it raises in the state it was called in, and `load` and `prepare`
(with any user pool plug-in and any registered cleanup) raise the same
error with the manager and the slice as they were before the call: the
update pool has not been drained, no pool has been modified, the cleanup has
not run, and the user pool of the slice is what it was, none for a slice
that had none. -/
theorem failed_check_changes_nothing
    (userLoad userPrepare : State → ConditionsSlice → IOV → SliceOutcome Result)
    (cleaner : Option (State → State)) (s : State) (req_iov : IOV) (slice : ConditionsSlice)
    (e : Error) (s1 : State)
    (h : Manager_Type1.__get_checked_pool s req_iov slice.pool = .raised e s1) :
    s1 = s ∧
      Manager_Type1.load userLoad s req_iov slice = .raised e s slice ∧
      Manager_Type1.prepare userPrepare cleaner s req_iov slice = .raised e s slice ∧
      (Manager_Type1.prepare userPrepare cleaner s req_iov slice).state? = some s ∧
      (Manager_Type1.prepare userPrepare cleaner s req_iov slice).slice?.map (·.pool)
        = some slice.pool := by
  have hs := get_checked_pool_raised_state s req_iov slice.pool e s1 h
  subst hs
  have hl : Manager_Type1.load userLoad s1 req_iov slice = .raised e s1 slice := by
    simp only [Manager_Type1.load, h]
  have hq : Manager_Type1.prepare userPrepare cleaner s1 req_iov slice = .raised e s1 slice := by
    simp only [Manager_Type1.prepare, h]
  refine ⟨rfl, hl, hq, ?_, ?_⟩
  · rw [hq]; rfl
  · rw [hq]; rfl

/-- C27 at the range `[1,10]` of the IOV type "run", requested for the slice
without user pool, with a cleanup that would drop the update pool. -/
theorem failed_check_changes_nothing_witness :
    (Manager_Type1.prepare (fun s slice _ => .ok ⟨0, 0, 0, 0⟩ s slice)
        (some fun s => { s with m_updatePool := none }) scenarioState
        { iovType := some runType, type := 0, keyData := ⟨1, 10⟩ } unpreparedSlice)
      = .raised .unknownIOVType scenarioState unpreparedSlice :=
  (failed_check_changes_nothing (fun s slice _ => .ok ⟨0, 0, 0, 0⟩ s slice)
    (fun s slice _ => .ok ⟨0, 0, 0, 0⟩ s slice)
    (some fun s => { s with m_updatePool := none }) scenarioState
    { iovType := some runType, type := 0, keyData := ⟨1, 10⟩ } unpreparedSlice
    .unknownIOVType scenarioState rfl).2.2.1

/-! ## The table accesses after a passed IOV check -/

/-- What a passed `check_iov_type<void>` has tested. -/
theorem check_iov_type_void_passed (s : State) (iov : IOV) (typ : IOVType) (s1 : State)
    (h : check_iov_type_void s (some iov) = .ok (some typ) s1) :
    s1 = s ∧ iov.type = typ.type ∧ typ.type < s.m_rawPool.length ∧
      s.m_rawPool.getD typ.type none ≠ none := by
  unfold check_iov_type_void at h
  have key : ∀ found : Outcome (Option IOVType),
      (match found with
        | .ok (some typ) _ =>
          if iov.type == typ.type then
            if typ.type < s.m_rawPool.length then
              if s.m_rawPool.getD typ.type none != none then Outcome.ok (some typ) s
              else .ok none s
            else .ok none s
          else .ok none s
        | .ok none _ => .ok none s
        | .raised e s1 => .raised e s1
        | .undefined => .undefined) = .ok (some typ) s1 →
      s1 = s ∧ iov.type = typ.type ∧ typ.type < s.m_rawPool.length ∧
        s.m_rawPool.getD typ.type none ≠ none := by
    intro found hf
    cases found with
    | ok v s2 =>
      cases v with
      | none => simp at hf
      | some t =>
        simp only at hf
        split_ifs at hf with h1 h2 h3
        all_goals simp only [Outcome.ok.injEq, Option.some.injEq] at hf
        all_goals try (exact absurd hf.1 (by simp))
        obtain ⟨ht, hs⟩ := hf
        subst ht
        exact ⟨hs.symm, by simpa using h1, h2, by simpa using h3⟩
    | raised e s2 => simp at hf
    | undefined => simp at hf
  exact key _ h

/-- The IOV check of `prepare` and `load` is followed by a defined table
access. -/
theorem get_checked_pool_defined (s : State) (req_iov : IOV) (up : Option UserPool) :
    Manager_Type1.__get_checked_pool s req_iov up ≠ .undefined := by
  by_cases hp : s.CheckPasses req_iov
  · obtain ⟨typ, hc, hlt⟩ := (check_iov_type_Discrete_cases s req_iov).1 hp
    unfold Manager_Type1.__get_checked_pool
    simp only [hc, hlt, if_true]
    cases up <;> simp
  · rcases (check_iov_type_Discrete_cases s req_iov).2 hp with hc | hc <;>
      simp [Manager_Type1.__get_checked_pool, hc]

/-- C28: the unchecked pool lookup is in bounds under the check of the
caller.  For every manager and IOV for which `check_iov_type<void>` returns
a type, the manager is unchanged, `iov.type` equals the index of that type,
is smaller than the size of the pool table `m_rawPool`, and
`m_rawPool[iov.type]`, the `iovPool` of the type, is not null; hence the
table access of `select` and `select_range` for this IOV is in bounds and
yields an allocated IOV pool (the calls return whenever the update pool
exists), and the table access of `__get_checked_pool` is never out of
bounds. -/
theorem checked_lookup_in_bounds (s : State) (iov : IOV) (typ : IOVType) (s1 : State)
    (h : check_iov_type_void s (some iov) = .ok (some typ) s1) :
    s1 = s ∧ iov.type = typ.type ∧ iov.type < s.m_rawPool.length ∧
      (∃ a, s.m_rawPool[iov.type]? = some (some a) ∧
        Manager_Type1.iovPool s typ = some (some a) ∧
        ∀ pending, s.m_updatePool = some pending → ∀ key out,
          (∃ v, Manager_Type1.select s key iov out = .ok v s) ∧
          (∃ v, Manager_Type1.select_range s key iov out = .ok v s)) ∧
      ∀ up, Manager_Type1.__get_checked_pool s iov up ≠ .undefined := by
  obtain ⟨hs, ht, hlt, hnn⟩ := check_iov_type_void_passed s iov typ s1 h
  refine ⟨hs, ht, ht ▸ hlt, ?_, fun up => get_checked_pool_defined s iov up⟩
  cases ha : s.m_rawPool.getD typ.type none with
  | none => exact absurd ha hnn
  | some a =>
    have hget : s.m_rawPool[typ.type]? = some (some a) := by
      rw [List.getD_eq_getElem?_getD, List.getElem?_eq_getElem hlt] at ha
      rw [List.getElem?_eq_getElem hlt]
      exact congrArg some ha
    refine ⟨a, ht ▸ hget, hget, fun pending hup key out => ⟨?_, ?_⟩⟩
    · exact ⟨_, select_eq s key iov out a pending (ht ▸ hget) hup⟩
    · unfold Manager_Type1.select_range
      rw [if_pos (ht ▸ hlt), ht, ha]
      simp only [hup]
      exact ⟨_, rfl⟩

/-- C28 at the point 5 of the IOV type "run" in the scenario. -/
theorem checked_lookup_in_bounds_witness :
    (IOV.point runType 5).type < scenarioState.m_rawPool.length ∧
      ∀ up, Manager_Type1.__get_checked_pool scenarioState (IOV.point runType 5) up
        ≠ .undefined :=
  let h := checked_lookup_in_bounds scenarioState (IOV.point runType 5) runType scenarioState rfl
  ⟨h.2.2.1, h.2.2.2.2⟩

/-! ## The outcome of `manage` -/

/-- C29: the outcome of `ConditionsSlice::manage(p, condition, flg)` on a
prepared slice.  With a valid condition and at least one of the bits
`REGISTER_MANAGER`, `REGISTER_POOL` set, the call returns `true` or raises,
it never returns `false`; with neither bit set it returns `false` and leaves
the manager and the slice as they were; with an invalid condition it raises
for every flag value and pool argument with the manager and the slice as
they were; with `REGISTER_MANAGER` set and a null pool argument it raises
with the manager and the slice as they were. -/
theorem manage_outcome (s : State) (slice : ConditionsSlice) (up : UserPool)
    (hprep : slice.pool = some up) :
    (∀ (p : Option Addr) (c : Addr) (flg : Nat),
      (flg &&& ConditionsSlice.REGISTER_MANAGER ≠ 0 ∨ flg &&& ConditionsSlice.REGISTER_POOL ≠ 0) →
        (∃ s1 slice1, ConditionsSlice.manage s slice p (some c) flg = .ok true s1 slice1) ∨
        (∃ e s1 slice1, ConditionsSlice.manage s slice p (some c) flg = .raised e s1 slice1)) ∧
    (∀ (p : Option Addr) (c : Addr) (flg : Nat),
      flg &&& ConditionsSlice.REGISTER_MANAGER = 0 → flg &&& ConditionsSlice.REGISTER_POOL = 0 →
        ConditionsSlice.manage s slice p (some c) flg = .ok false s slice) ∧
    (∀ (p : Option Addr) (flg : Nat),
      ConditionsSlice.manage s slice p none flg = .raised .invalidManage s slice) ∧
    (∀ (c : Addr) (flg : Nat), flg &&& ConditionsSlice.REGISTER_MANAGER ≠ 0 →
      ConditionsSlice.manage s slice none (some c) flg = .raised .cannotAccessPool s slice) := by
  refine ⟨fun p c flg hflg => ?_, fun p c flg h1 h2 => ?_, fun p flg => rfl, fun c flg h1 => ?_⟩
  · by_cases h1 : flg &&& ConditionsSlice.REGISTER_MANAGER = 0
    · have h2 : flg &&& ConditionsSlice.REGISTER_POOL ≠ 0 := hflg.resolve_left (fun h => h h1)
      simp only [ConditionsSlice.manage, ConditionsSlice.manageManager, h1, h2, hprep, bne_self_eq_false,
        Bool.false_eq_true, if_false, bne_iff_ne, ne_eq, not_false_eq_true, if_true]
      cases hr : (up.insert (s.conds c).hash c).1 with
      | false => exact Or.inr ⟨_, _, _, rfl⟩
      | true => exact Or.inl ⟨_, _, rfl⟩
    · cases p with
      | none =>
        exact Or.inr ⟨.cannotAccessPool, s, slice, by
          simp [ConditionsSlice.manage, ConditionsSlice.manageManager, h1, ConditionsSlice.raise,
            hprep]⟩
      | some pool =>
        obtain ⟨s1, hreg, -⟩ := registerUnlocked_fields s pool c
        by_cases h2 : flg &&& ConditionsSlice.REGISTER_POOL = 0
        · exact Or.inl ⟨s1, slice, by
            simp [ConditionsSlice.manage, ConditionsSlice.manageManager, h1, h2, hreg]⟩
        · simp only [ConditionsSlice.manage, ConditionsSlice.manageManager, h1, h2, hprep, hreg,
            bne_iff_ne, ne_eq, not_false_eq_true, if_true, Bool.not_true, Bool.false_eq_true,
            if_false]
          cases hr : (up.insert (s1.conds c).hash c).1 with
          | false => exact Or.inr ⟨_, _, _, rfl⟩
          | true => exact Or.inl ⟨_, _, rfl⟩
  · simp [ConditionsSlice.manage, ConditionsSlice.manageManager, h1, h2]
  · simp [ConditionsSlice.manage, ConditionsSlice.manageManager, h1, ConditionsSlice.raise, hprep]

/-- C29 on the prepared slice of the scenario: without flag the call returns
`false` and changes nothing; with `REGISTER_MANAGER` and a null pool
argument it raises. -/
theorem manage_outcome_witness :
    ConditionsSlice.manage scenarioState scenarioSlice (some 1) (some 100) 0
        = .ok false scenarioState scenarioSlice ∧
      ConditionsSlice.manage scenarioState scenarioSlice none (some 100) 1
        = .raised .cannotAccessPool scenarioState scenarioSlice :=
  ⟨(manage_outcome scenarioState scenarioSlice scenarioUserPool rfl).2.1 (some 1) 100 0
      (by decide) (by decide),
   (manage_outcome scenarioState scenarioSlice scenarioUserPool rfl).2.2.2 100 1 (by decide)⟩

/-- The overload `manage(condition, flg)` obtains its pool argument from
`registerIOV` before the condition is tested: for a slice bound to the IOV
`[21,30]`, for which the manager has no pool yet, the call with an invalid
condition and `REGISTER_MANAGER` raises after a pool has been created. -/
theorem manageCondition_invalid_after_registerIOV :
    (ConditionsSlice.manageCondition scenarioState
        { scenarioSlice with pool := some { scenarioUserPool with
            m_iov := { iovType := some runType, type := 0, keyData := ⟨21, 30⟩ } } }
        none ConditionsSlice.REGISTER_MANAGER).error? = some .invalidManage ∧
      (ConditionsSlice.manageCondition scenarioState
        { scenarioSlice with pool := some { scenarioUserPool with
            m_iov := { iovType := some runType, type := 0, keyData := ⟨21, 30⟩ } } }
        none ConditionsSlice.REGISTER_MANAGER).state?.map (·.next)
        = some (scenarioState.next + 1) := by
  decide

/-! ## The lookup of IOV types by index and by name -/

/-- The lookup by name returns a slot of that name if there is one, and
raises otherwise. -/
theorem iovTypeNamed_cases (s : State) (iov_name : String) :
    ((∃ typ ∈ s.m_iovTypes, typ.name = iov_name) →
      ∃ typ ∈ s.m_iovTypes, typ.name = iov_name ∧
        Manager_Type1.iovTypeNamed s iov_name = .ok (some typ) s) ∧
    ((∀ typ ∈ s.m_iovTypes, typ.name ≠ iov_name) →
      Manager_Type1.iovTypeNamed s iov_name = .raised .unregisteredIOVType s) := by
  unfold Manager_Type1.iovTypeNamed
  cases hf : s.m_iovTypes.find? fun i => i.name == iov_name with
  | none =>
    rw [List.find?_eq_none] at hf
    refine ⟨fun ⟨typ, hmem, hname⟩ => ?_, fun _ => rfl⟩
    exact absurd (by simpa using hname) (hf typ hmem)
  | some typ =>
    have hmem := List.mem_of_find?_eq_some hf
    have hname : typ.name = iov_name := by simpa using List.find?_some hf
    exact ⟨fun _ => ⟨typ, hmem, hname, rfl⟩, fun hno => absurd hname (hno typ hmem)⟩

/-- The lookup by index raises for a slot that does not hold its own index
and for an index outside the table. -/
theorem iovType_unregistered (s : State) (iov_index : Nat)
    (h : ∀ typ, s.m_iovTypes[iov_index]? = some typ → typ.type ≠ iov_index) :
    Manager_Type1.iovType s iov_index = .raised .unregisteredIOVType s := by
  unfold Manager_Type1.iovType
  cases hs : s.m_iovTypes[iov_index]? with
  | none => rfl
  | some typ => simp [h typ hs]

/-- The round trip of the type lookup: after `registerIOVType(i, n)` has
returned, `iovType(i)` returns the type with index `i` and name `n`,
`iovType(n)` returns a slot of the table whose name is `n`, the `iovPool` of
the type is the slot `i` of the pool table (the IOV pool allocated by the
call, if the type is new), and the slots of every other index are
unchanged in both tables. -/
theorem iovType_round_trip (s s1 : State) (i : Nat) (n : String) (v : Bool × Option IOVType)
    (h : Manager_Type1.registerIOVType s i n = .ok v s1) :
    v.2 = some { type := i, name := n } ∧
    Manager_Type1.iovType s1 i = .ok (some { type := i, name := n }) s1 ∧
    (∃ typ ∈ s1.m_iovTypes, typ.name = n ∧
      Manager_Type1.iovTypeNamed s1 n = .ok (some typ) s1) ∧
    Manager_Type1.iovPool s1 { type := i, name := n } = s1.m_rawPool[i]? ∧
    (v.1 = true → Manager_Type1.iovPool s1 { type := i, name := n } = some (some s.next) ∧
      s1.iovPools s.next = { type := some { type := i, name := n }, elements := [] }) ∧
    (v.1 = false → s1 = s) ∧
    ∀ j, j ≠ i → s1.m_iovTypes[j]? = s.m_iovTypes[j]? ∧ s1.m_rawPool[j]? = s.m_rawPool[j]? := by
  have hslot : s1.m_iovTypes[i]? = some { type := i, name := n } ∧
      v.2 = some { type := i, name := n } ∧
      (v.1 = true → s1 = s.withIOVType i n ∧ i < s.m_rawPool.length) ∧ (v.1 = false → s1 = s) ∧
      ∀ j, j ≠ i → s1.m_iovTypes[j]? = s.m_iovTypes[j]? ∧ s1.m_rawPool[j]? = s.m_rawPool[j]? := by
    rcases registerIOVType_cases s i n with ⟨t, ht, htype, hname, hres⟩ | ⟨hlt, hres⟩ | ⟨e, hres⟩ | hres
    · rw [hres] at h
      simp only [Outcome.ok.injEq] at h
      obtain ⟨hv, hs⟩ := h
      subst hv hs
      have ht2 : t = { type := i, name := n } := by
        cases t
        simp only at htype hname
        subst htype hname
        rfl
      subst ht2
      exact ⟨ht, rfl, fun hc => Bool.noConfusion hc, fun _ => rfl, fun j _ => ⟨rfl, rfl⟩⟩
    · rw [hres] at h
      simp only [Outcome.ok.injEq] at h
      obtain ⟨hv, hs⟩ := h
      subst hv hs
      have hraw : i < s.m_rawPool.length := by
        by_contra hn
        unfold Manager_Type1.registerIOVType at hres
        cases hsl : s.m_iovTypes[i]? with
        | none => rw [hsl] at hres; cases hres
        | some t =>
          rw [hsl] at hres
          simp only [List.length_set, State.newIOVPool] at hres
          split_ifs at hres
          simp at hres
      refine ⟨?_, rfl, fun _ => ⟨rfl, hraw⟩, fun hc => Bool.noConfusion hc, fun j hj => ⟨?_, ?_⟩⟩
      · simp [State.withIOVType, List.getElem?_set, hlt]
      · simp [State.withIOVType, List.getElem?_set, Ne.symm hj]
      · simp [State.withIOVType, List.getElem?_set, Ne.symm hj]
    · rw [hres] at h; cases h
    · rw [hres] at h; cases h
  obtain ⟨hi, hv, hnew, hold, hframe⟩ := hslot
  refine ⟨hv, ?_, ?_, rfl, ?_, hold, hframe⟩
  · unfold Manager_Type1.iovType
    rw [hi]
    simp
  · exact (iovTypeNamed_cases s1 n).1 ⟨_, List.mem_iff_getElem?.2 ⟨i, hi⟩, rfl⟩
  · intro hc
    obtain ⟨hs, hraw⟩ := hnew hc
    subst hs
    constructor
    · simp [Manager_Type1.iovPool, State.withIOVType, List.getElem?_set, hraw]
    · simp [State.withIOVType]

/-- C30: the lookup by name does not test whether the slot is registered.  On
a manager of 32 slots in which only the type `(3, "run")` is registered
(the lookup by index returns a type for the index 3 only, and raises for the
index 0), `iovType("")` does not raise: it returns the slot 0, which holds
the default type; and after `registerIOVType(3, "")` on a new manager,
`iovType("")` returns that unregistered slot 0, not the type of index 3. -/
theorem iovType_by_name_returns_unregistered :
    (List.range 32).filterMap (fun i => (Manager_Type1.iovType oneTypeState i).value?.join)
        = [{ type := 3, name := "run" }] ∧
      (Manager_Type1.iovType oneTypeState 0).error? = some .unregisteredIOVType ∧
      (Manager_Type1.iovTypeNamed oneTypeState "").error? = none ∧
      (Manager_Type1.iovTypeNamed oneTypeState "").value? = some (some unknownIOVType) ∧
      (Manager_Type1.registerIOVType (Manager_Type1.create 32 unknownIOVType) 3 "").value?
        = some (true, some { type := 3, name := "" }) ∧
      (Manager_Type1.iovTypeNamed
        ((Manager_Type1.registerIOVType (Manager_Type1.create 32 unknownIOVType) 3 "").stateOr
          (Manager_Type1.create 32 unknownIOVType)) "").value? = some (some unknownIOVType) := by
  refine ⟨?_, ?_, ?_, ?_, ?_, ?_⟩ <;> decide

/-- Whatever the default type of the slots is: on a new manager with at least
one slot the lookup by the name of the default type returns the slot 0 and
does not raise. -/
theorem iovTypeNamed_default (maxIOVTypes : Nat) (dflt : IOVType) :
    Manager_Type1.iovTypeNamed (Manager_Type1.create (maxIOVTypes + 1) dflt) dflt.name
      = .ok (some dflt) (Manager_Type1.create (maxIOVTypes + 1) dflt) := by
  simp [Manager_Type1.iovTypeNamed, Manager_Type1.create, List.replicate_succ]

/-! ## Globally registered actions -/

/-- The look-up in a map extended by one entry at its end. -/
theorem lookup_append_singleton (l : List (String × Addr)) (nam n : String) (a : Addr)
    (hfree : l.lookup nam = none) :
    (l ++ [(nam, a)]).lookup n = if n = nam then some a else l.lookup n := by
  rw [List.lookup_append]
  by_cases hn : n = nam
  · subst hn
    simp [hfree, List.lookup]
  · have hne : (n == nam) = false := by simpa using hn
    simp [hn, List.lookup, hne]

/-- C23: globally registered actions are unique by name.
`registerGlobalAction(action)` raises exactly when the action is null or an
action of the same name is registered, and then leaves the kernel as it
was; otherwise it returns, the action is stored under its name, its
reference count is incremented once, every other action object, every other
entry of the registry and the filters are unchanged, and
`globalAction(name)` returns the action for either value of the flag.  For
a name that is not registered `globalAction(name, false)` returns null
without raising and `globalAction(name, true)` raises. -/
theorem registerGlobalAction_unique (k : Geant4Kernel) :
    k.registerGlobalAction none = .raised .actionInvalid k ∧
    (∀ a b, k.m_globalActions.lookup (k.actions a).m_name = some b →
      k.registerGlobalAction (some a) = .raised .actionAlreadyRegistered k) ∧
    (∀ a, k.m_globalActions.lookup (k.actions a).m_name = none →
      ∃ k1, k.registerGlobalAction (some a) = .ok () k1 ∧
        k1.m_globalActions.lookup (k.actions a).m_name = some a ∧
        (∀ n, n ≠ (k.actions a).m_name →
          k1.m_globalActions.lookup n = k.m_globalActions.lookup n) ∧
        (k1.actions a).m_refCount = (k.actions a).m_refCount + 1 ∧
        (k1.actions a).m_name = (k.actions a).m_name ∧
        (∀ b, b ≠ a → k1.actions b = k.actions b) ∧
        k1.m_globalFilters = k.m_globalFilters ∧
        ∀ flag, k1.globalAction (k.actions a).m_name flag = .ok (some a) k1) ∧
    (∀ n, k.m_globalActions.lookup n = none →
      k.globalAction n false = .ok none k ∧ k.globalAction n true = .raised .actionMissing k) := by
  refine ⟨rfl, fun a b h => ?_, fun a h => ?_, fun n h => ?_⟩
  · simp only [Geant4Kernel.registerGlobalAction, h]
  · have hl := lookup_append_singleton k.m_globalActions (k.actions a).m_name
    refine ⟨Geant4Kernel.mk (k.m_globalActions ++ [((k.actions a).m_name, a)]) k.m_globalFilters
      (k.addRef a).actions, by simp only [Geant4Kernel.registerGlobalAction, h]; rfl,
      ?_, ?_, ?_, ?_, ?_, rfl, ?_⟩
    · simp [Geant4Kernel.addRef, hl _ a h]
    · intro n hn
      simp [Geant4Kernel.addRef, hl _ a h, hn]
    · simp [Geant4Kernel.addRef]
    · simp [Geant4Kernel.addRef]
    · intro b hb
      simp [Geant4Kernel.addRef, Function.update_noteq hb]
    · intro flag
      simp [Geant4Kernel.globalAction, Geant4Kernel.addRef, hl _ a h]
  · simp [Geant4Kernel.globalAction, h]

/-- The registry at work: in the kernel with the action "run" registered, the
registration of the action "event" returns and counts one more reference,
the registration of "run" again and of a null action raise, and the look-up
of the unregistered name "step" returns null or raises with the flag. -/
theorem registerGlobalAction_scenario :
    (scenarioKernel.registerGlobalAction (some 8)).error? = none ∧
    (scenarioKernel.registerGlobalAction (some 7)).error? = some .actionAlreadyRegistered ∧
    (scenarioKernel.registerGlobalAction none).error? = some .actionInvalid ∧
    (scenarioKernel.globalAction "run" true).value? = some (some 7) ∧
    (scenarioKernel.globalAction "step" false).value? = some none ∧
    (scenarioKernel.globalAction "step" true).error? = some .actionMissing := by
  refine ⟨?_, ?_, ?_, ?_, ?_, ?_⟩ <;> decide

/-! ## The full cleanup `clear()` -/

/-- The count of conditions as a sum over the set of pools. -/
theorem pooledCount_eq_sum (s : State) (pools : List Addr) :
    s.pooledCount pools = ∑ q ∈ pools.toFinset, (s.pools q).entries.length := by
  unfold State.pooledCount
  rw [← List.sum_toFinset _ (List.nodup_dedup pools)]
  congr 1
  ext x
  simp

/-- The count over pools without repetition is the sum over the list. -/
theorem pooledCount_nodup (s : State) (pools : List Addr) (h : pools.Nodup) :
    s.pooledCount pools = (pools.map fun q => (s.pools q).entries.length).sum := by
  unfold State.pooledCount
  rw [List.dedup_eq_self.2 h]

/-- Emptying no pool changes nothing. -/
theorem emptied_nil (s : State) : s.emptied [] = s := by
  cases s
  simp [State.emptied]

/-- Emptying pools in two steps. -/
theorem emptied_emptied (s : State) (A B : List Addr) :
    (s.emptied A).emptied B = s.emptied (A ++ B) := by
  unfold State.emptied
  simp only [State.mk.injEq, true_and, and_true]
  funext q
  by_cases hA : q ∈ A <;> by_cases hB : q ∈ B <;> simp [hA, hB]

/-- The conditions counted before and after a first set of pools is emptied. -/
theorem pooledCount_append (s : State) (A B : List Addr) :
    s.pooledCount A + (s.emptied A).pooledCount B = s.pooledCount (A ++ B) := by
  rw [pooledCount_eq_sum, pooledCount_eq_sum, pooledCount_eq_sum, List.toFinset_append,
    ← Finset.union_sdiff_self_eq_union, Finset.sum_union Finset.disjoint_sdiff,
    Finset.sdiff_eq_filter, Finset.sum_filter]
  congr 1
  refine Finset.sum_congr rfl fun q _ => ?_
  by_cases hA : q ∈ A <;> simp [State.emptied, hA]

/-- The cleanup of the pools of one IOV pool with `max_age == 0` empties them
and counts their conditions. -/
theorem cleanPools_zero (age : Addr → Nat) :
    ∀ (elements : List (Key × Addr)) (s : State),
      State.cleanPools age 0 s elements =
        (s.pooledCount (elements.map Prod.snd), s.emptied (elements.map Prod.snd))
  | [], s => by
    simp [State.cleanPools, emptied_nil, State.pooledCount]
  | e :: rest, s => by
    have h1 : ∀ cleaned : ConditionsPool, cleaned = ((s.pools e.2).clean age 0).2 →
        ({ s with pools := Function.update s.pools e.2 cleaned } : State) = s.emptied [e.2] := by
      intro cleaned hc
      subst hc
      unfold State.emptied
      simp only [State.mk.injEq, true_and, and_true]
      funext q
      by_cases hq : q = e.2
      · subst hq
        simp [ConditionsPool.clean]
      · simp [hq, Function.update_noteq hq]
    have h2 : ((s.pools e.2).clean age 0).1 = s.pooledCount [e.2] := by
      simp [ConditionsPool.clean, State.pooledCount]
    simp only [State.cleanPools, h1 _ rfl, h2, cleanPools_zero age rest (s.emptied [e.2]),
      List.map_cons, emptied_emptied, List.singleton_append]
    rw [pooledCount_append s [e.2] (rest.map Prod.snd)]
    rfl

/-- The loop of `clear()` over a part of the pool table: the allocated IOV
pools are counted, their conditions pools emptied and the conditions
counted. -/
theorem clearLoop_spec (age : Addr → Nat) :
    ∀ (slots : List (Option Addr)) (s : State) (count : Nat × Nat),
      Manager_Type1.clearLoop age s slots count =
        ((count.1 + (slots.filterMap id).length,
          count.2 + s.pooledCount
            ((slots.filterMap id).flatMap fun p => (s.iovPools p).elements.map Prod.snd)),
         s.emptied ((slots.filterMap id).flatMap fun p => (s.iovPools p).elements.map Prod.snd))
  | [], s, count => by
    simp [Manager_Type1.clearLoop, emptied_nil, State.pooledCount]
  | none :: rest, s, count => by
    simp [Manager_Type1.clearLoop, clearLoop_spec age rest s count]
  | some p :: rest, s, count => by
    have hiov : ∀ A : List Addr, (s.emptied A).iovPools = s.iovPools := fun _ => rfl
    simp only [Manager_Type1.clearLoop, cleanPools_zero,
      clearLoop_spec age rest (s.emptied ((s.iovPools p).elements.map Prod.snd)), hiov,
      emptied_emptied, List.filterMap_cons_some (id_eq (some p)), List.flatMap_cons,
      List.length_cons]
    rw [← pooledCount_append s ((s.iovPools p).elements.map Prod.snd)]
    simp only [Prod.mk.injEq, and_true]
    constructor <;> omega

/-- A state whose visited pools hold no condition is its own emptied state. -/
theorem emptied_of_empty (s : State) (pools : List Addr)
    (h : ∀ q ∈ pools, (s.pools q).entries = []) : s.emptied pools = s := by
  cases s with
  | mk t r o u ip ps cs nx cl =>
    unfold State.emptied
    simp only [State.mk.injEq, true_and, and_true]
    funext q
    by_cases hq : q ∈ pools
    · have := h q hq
      simp only at this
      simp only [hq, if_true]
      cases hp : ps q with
      | mk iov entries age_value =>
        rw [hp] at this
        simp only at this
        subst this
        rfl
    · simp [hq]

/-- No condition is counted in pools that hold none. -/
theorem pooledCount_of_empty (s : State) (pools : List Addr)
    (h : ∀ q ∈ pools, (s.pools q).entries = []) : s.pooledCount pools = 0 := by
  rw [pooledCount_eq_sum]
  refine Finset.sum_eq_zero fun q hq => ?_
  rw [h q (List.mem_toFinset.1 hq)]
  rfl

/-- C21: the full cleanup.  For every manager state `clear()` returns
`(p, c)`, where `p` is the number of allocated IOV pools of the pool table
and `c` the number of conditions held in the conditions pools of these IOV
pools before the call (every pool counted once; the sum over the list of
pools if no pool occurs twice).  Afterwards none of these pools holds a
condition, so the selection in the pools of any allocated IOV pool finds
nothing for any key and IOV and `select` returns the staged conditions
only; the IOV types, the pool table, the IOV pools, the other conditions
pools, the condition objects and the update pool are unchanged; and
`clear()` called again returns `(p, 0)` and changes nothing. -/
theorem clear_full (age : Addr → Nat) (s : State) :
    ∃ s1, Manager_Type1.clear age s =
        .ok ((s.m_rawPool.filterMap id).length, s.pooledCount s.visited) s1 ∧
      (s.visited.Nodup →
        s.pooledCount s.visited = (s.visited.map fun q => (s.pools q).entries.length).sum) ∧
      (∀ q ∈ s.visited, (s1.pools q).entries = []) ∧
      (∀ q, q ∉ s.visited → s1.pools q = s.pools q) ∧
      (∀ p, some p ∈ s1.m_rawPool → ∀ key req,
        s1.selectInPools (s1.iovPools p).elements key req = []) ∧
      (∀ p pending key req, s1.m_rawPool[req.type]? = some (some p) →
        s1.m_updatePool = some pending →
        Manager_Type1.select s1 key req [] =
          .ok (!(s1.selectInUpdates pending key req).isEmpty,
            s1.selectInUpdates pending key req) s1) ∧
      s1.m_iovTypes = s.m_iovTypes ∧ s1.m_rawPool = s.m_rawPool ∧ s1.iovPools = s.iovPools ∧
      s1.conds = s.conds ∧ s1.m_updatePool = s.m_updatePool ∧
      Manager_Type1.clear age s1 = .ok ((s.m_rawPool.filterMap id).length, 0) s1 := by
  have hclear : ∀ t : State, Manager_Type1.clear age t =
      .ok ((t.m_rawPool.filterMap id).length, t.pooledCount t.visited) (t.emptied t.visited) := by
    intro t
    unfold Manager_Type1.clear
    simp only [clearLoop_spec, Nat.zero_add]
    rfl
  have hempty : ∀ q ∈ s.visited, ((s.emptied s.visited).pools q).entries = [] := by
    intro q hq
    simp [State.emptied, hq]
  have hsel : ∀ p, some p ∈ s.m_rawPool → ∀ key req,
      (s.emptied s.visited).selectInPools (s.iovPools p).elements key req = [] := by
    intro p hp key req
    rw [List.eq_nil_iff_forall_not_mem]
    intro c hc
    obtain ⟨e, he, -, hget⟩ := (mem_selectInPools _ _ _ _ _).1 hc
    have hv : e.2 ∈ s.visited := by
      unfold State.visited
      rw [List.mem_flatMap]
      exact ⟨p, List.mem_filterMap.2 ⟨some p, hp, rfl⟩, List.mem_map.2 ⟨e, he, rfl⟩⟩
    rw [ConditionsPool.get, hempty e.2 hv] at hget
    cases hget
  refine ⟨s.emptied s.visited, hclear s, fun hnd => pooledCount_nodup s _ hnd, hempty, ?_, hsel, ?_,
    rfl, rfl, rfl, rfl, rfl, ?_⟩
  · intro q hq
    simp [State.emptied, hq]
  · intro p pending key req hreg hup
    have hp : some p ∈ s.m_rawPool := List.mem_iff_getElem?.2 ⟨_, hreg⟩
    rw [select_eq _ key req [] p pending hreg hup]
    have := hsel p hp key req
    simp only [show (s.emptied s.visited).iovPools = s.iovPools from rfl, this, List.nil_append]
  · have hv : (s.emptied s.visited).visited = s.visited := rfl
    rw [hclear (s.emptied s.visited), hv, pooledCount_of_empty _ _ hempty,
      emptied_of_empty _ _ hempty]
    rfl

/-- The full cleanup of the scenario: one allocated IOV pool with the two
conditions pools `[1,10]` and `[11,20]`, which hold two conditions together;
a second cleanup finds none. -/
theorem clear_scenario :
    scenarioState.visited = [1, 2] ∧
      (Manager_Type1.clear (fun _ => 0) scenarioState).value? = some (1, 2) ∧
      (Manager_Type1.clear (fun _ => 0)
        ((Manager_Type1.clear (fun _ => 0) scenarioState).stateOr scenarioState)).value?
        = some (1, 0) := by
  refine ⟨?_, ?_, ?_⟩ <;> decide

/-! ## The two locks -/

/-- The check of the lock sequences tells nested locks from sequential ones:
a sequence that acquires the pool lock inside the scope of the update lock
has a point with both locks held. -/
theorem neverBoth_detects_nesting :
    neverBoth [] [.acquire .update, .acquire .pool, .release .pool, .release .update] = false ∧
      neverBoth [] [.acquire .update, .release .update, .acquire .pool, .release .pool] = true := by
  decide

/-- The traced `registerIOV` is `registerIOV`; a defined call has the events
of one scope of the pool lock, an undefined one none. -/
theorem registerIOV_traced_spec (s : State) (typ : IOVType) (key : Key) :
    (Manager_Type1.registerIOV_traced s typ key).2 = Manager_Type1.registerIOV s typ key ∧
      ((Manager_Type1.registerIOV_traced s typ key).1 = [.acquire .pool, .release .pool] ∨
        (Manager_Type1.registerIOV_traced s typ key).1 = []) ∧
      (Manager_Type1.registerIOV s typ key ≠ .undefined →
        (Manager_Type1.registerIOV_traced s typ key).1 = [.acquire .pool, .release .pool]) := by
  unfold Manager_Type1.registerIOV_traced Manager_Type1.registerIOV
  by_cases h : typ.type < s.m_rawPool.length
  · rw [if_pos h, if_pos h]
    exact ⟨rfl, Or.inl rfl, fun _ => rfl⟩
  · rw [if_neg h, if_neg h]
    exact ⟨rfl, Or.inr rfl, fun hn => absurd rfl hn⟩

/-- The traced `clean` is `clean`, with the events of one scope of the update
lock. -/
theorem clean_traced_spec (age : Addr → Nat) (s : State) (typ : IOVType) (max_age : Nat) :
    (Manager_Type1.clean_traced age s typ max_age).2 = Manager_Type1.clean age s typ max_age ∧
      (Manager_Type1.clean_traced age s typ max_age).1 = [.acquire .update, .release .update] :=
  ⟨rfl, rfl⟩

/-- The traced `pushUpdates` is `pushUpdates`; a defined call has the events of
the scope of the update lock followed by the scope of the pool lock. -/
theorem pushUpdates_traced_spec (s : State) :
    (Manager_Type1.pushUpdates_traced s).2 = Manager_Type1.pushUpdates s ∧
      ((Manager_Type1.pushUpdates_traced s).1 =
          [.acquire .update, .release .update, .acquire .pool, .release .pool] ∨
        (Manager_Type1.pushUpdates_traced s).1 = [.acquire .update, .release .update]) ∧
      (Manager_Type1.pushUpdates s ≠ .undefined →
        (Manager_Type1.pushUpdates_traced s).1 =
          [.acquire .update, .release .update, .acquire .pool, .release .pool]) := by
  unfold Manager_Type1.pushUpdates_traced Manager_Type1.pushUpdates
  cases h : s.m_updatePool with
  | some entries => exact ⟨rfl, Or.inl rfl, fun _ => rfl⟩
  | none => exact ⟨rfl, Or.inr rfl, fun hn => absurd rfl hn⟩

/-- The two blocks of the selections: their events, and their result in the
terms of `select`. -/
theorem selectBlocks_spec (s : State) (key : Nat) (req : IOV) (out : List Addr) :
    ((Manager_Type1.selectBlocks s key req out).1 =
        [.acquire .pool, .release .pool, .acquire .update, .release .update] ∨
      (Manager_Type1.selectBlocks s key req out).1 = [.acquire .pool, .release .pool]) ∧
    ((Manager_Type1.selectBlocks s key req out).2 ≠ none →
      (Manager_Type1.selectBlocks s key req out).1 =
        [.acquire .pool, .release .pool, .acquire .update, .release .update]) ∧
    (Manager_Type1.selectBlocks s key req out).2 =
      if req.type < s.m_rawPool.length then
        match s.m_rawPool.getD req.type none with
        | some p =>
          match s.m_updatePool with
          | some pending =>
            some (out ++ s.selectInPools (s.iovPools p).elements key req ++
              s.selectInUpdates pending key req)
          | none => none
        | none => none
      else none := by
  by_cases h : req.type < s.m_rawPool.length
  · cases hp : s.m_rawPool.getD req.type none with
    | none =>
      simp only [Manager_Type1.selectBlocks, withLock, if_pos h, hp]
      simp
    | some p =>
      cases hu : s.m_updatePool with
      | none =>
        simp only [Manager_Type1.selectBlocks, withLock, if_pos h, hp, hu]
        simp
      | some pending =>
        simp only [Manager_Type1.selectBlocks, withLock, if_pos h, hp, hu]
        simp
  · simp only [Manager_Type1.selectBlocks, withLock, if_neg h]
    simp

/-- The traced `select` is `select`; a defined call has the events of the
scope of the pool lock followed by the scope of the update lock. -/
theorem select_traced_spec (s : State) (key : Nat) (req : IOV) (out : List Addr) :
    (Manager_Type1.select_traced s key req out).2 = Manager_Type1.select s key req out ∧
      ((Manager_Type1.select_traced s key req out).1 =
          [.acquire .pool, .release .pool, .acquire .update, .release .update] ∨
        (Manager_Type1.select_traced s key req out).1 = [.acquire .pool, .release .pool]) ∧
      (Manager_Type1.select s key req out ≠ .undefined →
        (Manager_Type1.select_traced s key req out).1 =
          [.acquire .pool, .release .pool, .acquire .update, .release .update]) := by
  obtain ⟨hev, hdef, hres⟩ := selectBlocks_spec s key req out
  have h1 : (Manager_Type1.select_traced s key req out).1 =
      (Manager_Type1.selectBlocks s key req out).1 := by
    unfold Manager_Type1.select_traced
    generalize Manager_Type1.selectBlocks s key req out = b
    rcases b with ⟨ev, _ | c⟩ <;> rfl
  have h2 : (Manager_Type1.select_traced s key req out).2 = Manager_Type1.select s key req out ∧
      (Manager_Type1.select s key req out ≠ .undefined →
        (Manager_Type1.selectBlocks s key req out).2 ≠ none) := by
    simp only [Manager_Type1.select_traced, Manager_Type1.select]
    rw [hres]
    by_cases h : req.type < s.m_rawPool.length
    · rw [if_pos h, if_pos h]
      cases s.m_rawPool.getD req.type none with
      | none => exact ⟨rfl, fun hn => absurd rfl hn⟩
      | some p =>
        cases s.m_updatePool with
        | none => exact ⟨rfl, fun hn => absurd rfl hn⟩
        | some pending => exact ⟨rfl, fun _ => by simp⟩
    · rw [if_neg h, if_neg h]
      exact ⟨rfl, fun hn => absurd rfl hn⟩
  rw [h1]
  exact ⟨h2.1, hev, fun hn => hdef (h2.2 hn)⟩

/-- The traced `select_range` is `select_range`; a defined call has the events
of the scope of the pool lock followed by the scope of the update lock. -/
theorem select_range_traced_spec (s : State) (key : Nat) (req : IOV) (out : List Addr) :
    (Manager_Type1.select_range_traced s key req out).2 =
        Manager_Type1.select_range s key req out ∧
      ((Manager_Type1.select_range_traced s key req out).1 =
          [.acquire .pool, .release .pool, .acquire .update, .release .update] ∨
        (Manager_Type1.select_range_traced s key req out).1 =
          [.acquire .pool, .release .pool]) ∧
      (Manager_Type1.select_range s key req out ≠ .undefined →
        (Manager_Type1.select_range_traced s key req out).1 =
          [.acquire .pool, .release .pool, .acquire .update, .release .update]) := by
  obtain ⟨hev, hdef, hres⟩ := selectBlocks_spec s key req out
  have h1 : (Manager_Type1.select_range_traced s key req out).1 =
      (Manager_Type1.selectBlocks s key req out).1 := by
    unfold Manager_Type1.select_range_traced
    generalize Manager_Type1.selectBlocks s key req out = b
    rcases b with ⟨ev, _ | c⟩ <;> rfl
  have h2 : (Manager_Type1.select_range_traced s key req out).2 =
        Manager_Type1.select_range s key req out ∧
      (Manager_Type1.select_range s key req out ≠ .undefined →
        (Manager_Type1.selectBlocks s key req out).2 ≠ none) := by
    simp only [Manager_Type1.select_range_traced, Manager_Type1.select_range]
    rw [hres]
    by_cases h : req.type < s.m_rawPool.length
    · rw [if_pos h, if_pos h]
      cases s.m_rawPool.getD req.type none with
      | none => exact ⟨rfl, fun hn => absurd rfl hn⟩
      | some p =>
        cases s.m_updatePool with
        | none => exact ⟨rfl, fun hn => absurd rfl hn⟩
        | some pending => exact ⟨rfl, fun _ => by simp⟩
    · rw [if_neg h, if_neg h]
      exact ⟨rfl, fun hn => absurd rfl hn⟩
  rw [h1]
  exact ⟨h2.1, hev, fun hn => hdef (h2.2 hn)⟩

/-- C22 (counterexample): `__queue_update` requires its caller to hold the
update lock, and it calls `registerIOV`.  In the scenario, for a loaded
condition of the key range `[21,30]`, the call returns and its lock events
are those of `registerIOV`, the scope of the pool lock; started with the
update lock held, this run of `registerIOV` has a point with both locks
held. -/
theorem queue_update_holds_both_locks :
    (Manager_Type1.__queue_update_traced scenarioState (some scenarioEntry)).2.error? = none ∧
    (Manager_Type1.__queue_update_traced scenarioState (some scenarioEntry)).1 =
      (Manager_Type1.registerIOV_traced scenarioState runType ⟨21, 30⟩).1 ∧
    (Manager_Type1.registerIOV_traced scenarioState runType ⟨21, 30⟩).1 =
      [.acquire .pool, .release .pool] ∧
    neverBoth [.update] (Manager_Type1.registerIOV_traced scenarioState runType ⟨21, 30⟩).1
      = false ∧
    neverBoth [.update]
      (Manager_Type1.__queue_update_traced scenarioState (some scenarioEntry)).1 = false := by
  refine ⟨?_, ?_, ?_, ?_, ?_⟩ <;> decide

/-- C22 (amended): the two locks of the manager are not held together in a
call that is entered with no lock held.  For every state and all arguments,
the traced runs of `registerIOV`, `clean`, `pushUpdates`, `select` and
`select_range` compute what the functions compute, and in their sequence of
acquire and release events, started with no lock held, no point has both
locks held.  A run without an undefined access has exactly these events:
`registerIOV` the scope of the pool lock, `clean` the scope of the update
lock, `pushUpdates` the update lock acquired and released, then the pool
lock acquired and released, `select` and `select_range` the pool lock
acquired and released, then the update lock acquired and released. -/
theorem locks_never_held_together (age : Addr → Nat) (s : State) (typ : IOVType) (key : Key)
    (max_age : Nat) (hash : Nat) (req : IOV) (out : List Addr) :
    ((Manager_Type1.registerIOV_traced s typ key).2 = Manager_Type1.registerIOV s typ key ∧
      neverBoth [] (Manager_Type1.registerIOV_traced s typ key).1 = true ∧
      (Manager_Type1.registerIOV s typ key ≠ .undefined →
        (Manager_Type1.registerIOV_traced s typ key).1 = [.acquire .pool, .release .pool])) ∧
    ((Manager_Type1.clean_traced age s typ max_age).2 = Manager_Type1.clean age s typ max_age ∧
      neverBoth [] (Manager_Type1.clean_traced age s typ max_age).1 = true ∧
      (Manager_Type1.clean_traced age s typ max_age).1 =
        [.acquire .update, .release .update]) ∧
    ((Manager_Type1.pushUpdates_traced s).2 = Manager_Type1.pushUpdates s ∧
      neverBoth [] (Manager_Type1.pushUpdates_traced s).1 = true ∧
      (Manager_Type1.pushUpdates s ≠ .undefined →
        (Manager_Type1.pushUpdates_traced s).1 =
          [.acquire .update, .release .update, .acquire .pool, .release .pool])) ∧
    ((Manager_Type1.select_traced s hash req out).2 = Manager_Type1.select s hash req out ∧
      neverBoth [] (Manager_Type1.select_traced s hash req out).1 = true ∧
      (Manager_Type1.select s hash req out ≠ .undefined →
        (Manager_Type1.select_traced s hash req out).1 =
          [.acquire .pool, .release .pool, .acquire .update, .release .update])) ∧
    ((Manager_Type1.select_range_traced s hash req out).2 =
        Manager_Type1.select_range s hash req out ∧
      neverBoth [] (Manager_Type1.select_range_traced s hash req out).1 = true ∧
      (Manager_Type1.select_range s hash req out ≠ .undefined →
        (Manager_Type1.select_range_traced s hash req out).1 =
          [.acquire .pool, .release .pool, .acquire .update, .release .update])) := by
  obtain ⟨r1, r2, r3⟩ := registerIOV_traced_spec s typ key
  obtain ⟨c1, c2⟩ := clean_traced_spec age s typ max_age
  obtain ⟨p1, p2, p3⟩ := pushUpdates_traced_spec s
  obtain ⟨s1, s2, s3⟩ := select_traced_spec s hash req out
  obtain ⟨t1, t2, t3⟩ := select_range_traced_spec s hash req out
  refine ⟨⟨r1, ?_, r3⟩, ⟨c1, ?_, c2⟩, ⟨p1, ?_, p3⟩, ⟨s1, ?_, s3⟩, ⟨t1, ?_, t3⟩⟩
  · rcases r2 with h | h <;> rw [h] <;> decide
  · rw [c2]; decide
  · rcases p2 with h | h <;> rw [h] <;> decide
  · rcases s2 with h | h <;> rw [h] <;> decide
  · rcases t2 with h | h <;> rw [h] <;> decide

/-- C22 (witness): the traced selection at the point 5 in the scenario
returns, and the pool lock is released before the update lock is acquired. -/
theorem locks_never_held_together_witness :
    (Manager_Type1.select_traced scenarioState 0xAABB (IOV.point runType 5) []).1 =
      [.acquire .pool, .release .pool, .acquire .update, .release .update] :=
  (locks_never_held_together (fun _ => 0) scenarioState runType ⟨1, 10⟩ 0 0xAABB
    (IOV.point runType 5) []).2.2.2.1.2.2
    (by rw [select_eq scenarioState 0xAABB (IOV.point runType 5) [] 0 [] (by decide) (by decide)]
        simp)

end DD4hep
